import Mathlib

/-!
# bf-interpret.c : growable buffers, script loading and the step loop

Shallow embedding of `src/src/bf-interpret.c`.

* Pointers are machine addresses: natural numbers below `PTR_MOD = 2 ^ 64`, `0` being `NULL`.
  Pointer arithmetic wraps modulo `PTR_MOD` and pointer comparison is the unsigned comparison
  of the addresses, as the source itself assumes (`(size_t)(*cursor) - (size_t)(*buffer_p)`,
  "working if both are NULL").
* A `char` is a natural number below `256`; `c > 0` on a `char` is `0 < c ∧ c < 128`.
* The bytes of an allocated block are a list (`mem`); a dereference of an address outside the
  block reads or writes `heap`, the memory around the block, kept as a finite map from
  addresses to bytes (unlisted addresses hold `0`).  The script block and the data block are
  kept apart, so their addresses matter only through the comparisons and the arithmetic the
  source makes on them.  A store outside a block is recorded in `heap` only: it does not alter
  the bytes of the other block, even at an address inside it, and `heap` is not altered by
  `free` or `realloc`.  What a run does after such a store, or with a byte read outside a
  block, is therefore stated only through the addresses involved and the memory given, or
  under the hypothesis that no access leaves its block.
* `realloc` is a parameter: `realloc p n` is the address returned for a request of `n` bytes
  on the block at `p`, and `0` when the request fails.  `BFI_ALLOC_LIMIT` is not defined, so
  `check_alloc` is a no-op.
* A C function returning `int` returns the pair of that `int` and the state it leaves.
-/

namespace Bfi

/-- Number of values of a `size_t` and of a pointer. -/
def PTR_MOD : Nat := 2 ^ 64

/-- `#define BFI_ALLOC_CHUNK 256`. -/
def BFI_ALLOC_CHUNK : Nat := 256

/-- The three pointers-to-fields handed to the `_buffer_*` functions, with the bytes of the
block at `base` and the memory around it. -/
structure Buf where
  base : Nat
  alloc : Nat
  cur : Nat
  mem : List Nat
  heap : List (Nat × Nat)
deriving DecidableEq, Repr

/-- `static inline size_t _max(size_t a, size_t b)`. -/
def _max (a b : Nat) : Nat := if a < b then b else a

/-- The byte `**cursor`. -/
def Buf.load (b : Buf) : Nat :=
  if b.base ≠ 0 ∧ b.base ≤ b.cur ∧ b.cur - b.base < b.mem.length then
    b.mem.getD (b.cur - b.base) 0
  else
    ((b.heap.lookup b.cur).getD 0)

/-- The assignment `**cursor = v`. -/
def Buf.store (b : Buf) (v : Nat) : Buf :=
  if b.base ≠ 0 ∧ b.base ≤ b.cur ∧ b.cur - b.base < b.mem.length then
    { b with mem := b.mem.set (b.cur - b.base) v }
  else
    { b with heap := (b.cur, v) :: b.heap }

/-- `_buffer_check_size`: refuse a cursor below the block, grow the block when the cursor is at
or past its last byte. -/
def _buffer_check_size (realloc : Nat → Nat → Nat) (b : Buf) : Nat × Buf :=
  if b.cur < b.base then (0, b)
  else
    let cpos := (b.cur + PTR_MOD - b.base) % PTR_MOD
    let osize := b.alloc
    if b.base = 0 ∨ (b.base + (b.alloc + PTR_MOD - 1) % PTR_MOD) % PTR_MOD ≤ b.cur then
      let size := _max ((cpos + 1) % PTR_MOD) ((BFI_ALLOC_CHUNK + b.alloc) % PTR_MOD)
      let buffer := realloc b.base size
      if buffer = 0 then (0, b)
      else
        (1, { b with
                base := buffer
                alloc := size
                cur := (buffer + cpos) % PTR_MOD
                mem := b.mem.take osize ++ List.replicate (size - osize) 0 })
    else (1, b)

/-- `_buffer_set_byte`. -/
def _buffer_set_byte (realloc : Nat → Nat → Nat) (b : Buf) (byte : Nat) : Nat × Buf :=
  let r := _buffer_check_size realloc b
  if r.1 = 0 then (0, r.2) else (1, r.2.store byte)

/-- `_buffer_get_byte`: the returned `int`, the byte stored through `byte`, and the buffer. -/
def _buffer_get_byte (b : Buf) : Nat × Nat × Buf :=
  if b.cur = 0 ∨ b.cur < b.base ∨ b.cur > (b.base + b.alloc) % PTR_MOD then (1, 0, b)
  else (1, b.load, b)

/-- `_buffer_delta_byte`; `delta` is the `char` as a byte (`255` for `-1`). -/
def _buffer_delta_byte (realloc : Nat → Nat → Nat) (b : Buf) (delta : Nat) : Nat × Buf :=
  let r := _buffer_check_size realloc b
  if r.1 = 0 then (0, r.2) else (1, r.2.store ((r.2.load + delta) % 256))

/-- `bfi_state_t`, with the bytes of its two blocks, the memory around them, the bytes still
to be read from `in` and the bytes written to `out` (`none` for a `NULL` stream). -/
structure bfi_state_t where
  data : Nat
  data_alloc : Nat
  data_p : Nat
  script : Nat
  script_alloc : Nat
  script_p : Nat
  script_read_length : Nat
  errored : Nat
  data_mem : List Nat
  script_mem : List Nat
  heap : List (Nat × Nat)
  in_stream : Option (List Nat)
  out_stream : Option (List Nat)
deriving DecidableEq, Repr

/-- The arguments `&(bfi->data), &(bfi->data_alloc), &(bfi->data_p)`. -/
def data_buf (s : bfi_state_t) : Buf :=
  { base := s.data, alloc := s.data_alloc, cur := s.data_p, mem := s.data_mem, heap := s.heap }

/-- Write back what a `_buffer_*` call left in the data fields. -/
def set_data_buf (s : bfi_state_t) (b : Buf) : bfi_state_t :=
  { s with data := b.base, data_alloc := b.alloc, data_p := b.cur, data_mem := b.mem,
           heap := b.heap }

/-- The arguments `&(bfi->script), &(bfi->script_alloc), &(bfi->script_p)`. -/
def script_buf (s : bfi_state_t) : Buf :=
  { base := s.script, alloc := s.script_alloc, cur := s.script_p, mem := s.script_mem,
    heap := s.heap }

/-- Write back what a `_buffer_*` call left in the script fields. -/
def set_script_buf (s : bfi_state_t) (b : Buf) : bfi_state_t :=
  { s with script := b.base, script_alloc := b.alloc, script_p := b.cur, script_mem := b.mem,
           heap := b.heap }

/-- `bfi_restart`. -/
def bfi_restart (s : bfi_state_t) : Nat × bfi_state_t :=
  let s1 := if s.data ≠ 0 then { s with data := 0, data_alloc := 0, data_p := 0, data_mem := [] }
            else s
  (1, { s1 with script_p := s1.script })

/-- `bfi_reset`. -/
def bfi_reset (s : bfi_state_t) : Nat × bfi_state_t :=
  let r := bfi_restart s
  if r.1 = 0 then (0, r.2)
  else
    let s1 := r.2
    (1, if s1.script ≠ 0 then
          { s1 with script := 0, script_alloc := 0, script_p := 0, script_mem := [] }
        else s1)

/-- `bfi_new`: a zeroed structure reading `stdin` (holding `input`) and writing `stdout`;
`heap` is the memory the process starts with. -/
def bfi_new (heap : List (Nat × Nat)) (input : List Nat) : bfi_state_t :=
  { data := 0, data_alloc := 0, data_p := 0, script := 0, script_alloc := 0, script_p := 0,
    script_read_length := 0, errored := 0, data_mem := [], script_mem := [], heap := heap,
    in_stream := some input, out_stream := some [] }

/-- `#define is_bf_char(c)`: `c` is not `NUL` and occurs in `"<>+-.,[]"`. -/
def is_bf_char (c : Nat) : Bool :=
  c != 0 && [60, 62, 43, 45, 46, 44, 91, 93].contains c

/-- `bfi_script_put_char`. -/
def bfi_script_put_char (realloc : Nat → Nat → Nat) (s : bfi_state_t) (c : Nat) :
    Nat × bfi_state_t :=
  if s.errored ≠ 0 then (0, s)
  else
    let s1 := { s with script_read_length := (s.script_read_length + 1) % PTR_MOD }
    if is_bf_char c then
      let r := _buffer_set_byte realloc (script_buf s1) c
      if r.1 = 0 then
        let s2 := set_script_buf s1 r.2
        (0, { s2 with errored := s2.script_read_length })
      else
        let s2 := set_script_buf s1 r.2
        (1, { s2 with script_p := (s2.script_p + 1) % PTR_MOD })
    else (1, s1)

/-- The `for` loop of `bfi_script_from_buffer`. -/
def script_from_buffer_loop (realloc : Nat → Nat → Nat) :
    bfi_state_t → List Nat → Nat × bfi_state_t
  | s, [] => (1, s)
  | s, c :: rest =>
    let r := bfi_script_put_char realloc s c
    if r.1 = 0 then (0, r.2) else script_from_buffer_loop realloc r.2 rest

/-- `bfi_script_from_buffer`; the list is `buffer[0 .. buffer_length - 1]`. -/
def bfi_script_from_buffer (realloc : Nat → Nat → Nat) (s : bfi_state_t) (buffer : List Nat) :
    Nat × bfi_state_t :=
  if s.errored ≠ 0 then (0, s) else script_from_buffer_loop realloc s buffer

/-- `bfi_data_set`. -/
def bfi_data_set (realloc : Nat → Nat → Nat) (s : bfi_state_t) (byte : Nat) :
    Nat × bfi_state_t :=
  let r := _buffer_set_byte realloc (data_buf s) byte
  (r.1, set_data_buf s r.2)

/-- `bfi_data_get`: the returned `int`, the byte stored through `byte_p`, and the state. -/
def bfi_data_get (s : bfi_state_t) : Nat × Nat × bfi_state_t :=
  let r := _buffer_get_byte (data_buf s)
  (r.1, r.2.1, set_data_buf s r.2.2)

/-- `bfi_data_inc`. -/
def bfi_data_inc (realloc : Nat → Nat → Nat) (s : bfi_state_t) : Nat × bfi_state_t :=
  let r := _buffer_delta_byte realloc (data_buf s) 1
  (r.1, set_data_buf s r.2)

/-- `bfi_data_dec`. -/
def bfi_data_dec (realloc : Nat → Nat → Nat) (s : bfi_state_t) : Nat × bfi_state_t :=
  let r := _buffer_delta_byte realloc (data_buf s) 255
  (r.1, set_data_buf s r.2)

/-- `bfi_data_read`: `fread` takes one byte off `in` before `bfi_data_set` is tried. -/
def bfi_data_read (realloc : Nat → Nat → Nat) (s : bfi_state_t) : Nat × bfi_state_t :=
  match s.in_stream with
  | none => (0, s)
  | some [] => (0, s)
  | some (d :: rest) => bfi_data_set realloc { s with in_stream := some rest } d

/-- `bfi_data_write`; `fwrite` to an open stream appends the byte. -/
def bfi_data_write (s : bfi_state_t) : Nat × bfi_state_t :=
  let r := bfi_data_get s
  if r.1 = 0 then (0, r.2.2)
  else
    match r.2.2.out_stream with
    | none => (0, r.2.2)
    | some out => (1, { r.2.2 with out_stream := some (out ++ [r.2.1]) })

/-- The byte `*(bfi->script_p)`. -/
def script_peek (s : bfi_state_t) : Nat := (script_buf s).load

/-- The loop `while ((c = *++(bfi->script_p)) > 0)` of `bfi_test`, `nb` being a `char` counter;
`fuel` bounds the number of bytes read. -/
def seek_forward : Nat → bfi_state_t → Nat → bfi_state_t × Nat
  | 0, s, nb => (s, nb)
  | fuel + 1, s, nb =>
    let s1 := { s with script_p := (s.script_p + 1) % PTR_MOD }
    let c := script_peek s1
    if 0 < c ∧ c < 128 then
      let nb1 := if c = 93 then (nb + 255) % 256 else nb
      let nb2 := if c = 91 then (nb1 + 1) % 256 else nb1
      if nb2 = 0 then (s1, nb2) else seek_forward fuel s1 nb2
    else (s1, nb)

/-- The loop `while (--bfi->script_p >= bfi->script)` of `bfi_test`; `fuel` bounds the number
of bytes read. -/
def seek_backward : Nat → bfi_state_t → Nat → bfi_state_t × Nat
  | 0, s, nb => (s, nb)
  | fuel + 1, s, nb =>
    let s1 := { s with script_p := (s.script_p + PTR_MOD - 1) % PTR_MOD }
    if s1.script ≤ s1.script_p then
      let c := script_peek s1
      let nb1 := if c = 91 then (nb + 255) % 256 else if c = 93 then (nb + 1) % 256 else nb
      if nb1 = 0 then (s1, nb1) else seek_backward fuel s1 nb1
    else (s1, nb)

/-- `bfi_test`.  A scan reads at most `PTR_MOD` bytes, one for each address. -/
def bfi_test (s : bfi_state_t) : Nat × bfi_state_t :=
  let g := bfi_data_get s
  if g.1 = 0 then (0, g.2.2)
  else
    let s0 := g.2.2
    let d := g.2.1
    let c := script_peek s0
    if c = 91 then
      if d ≠ 0 then (1, s0)
      else
        let r := seek_forward PTR_MOD s0 1
        (if r.2 = 0 then 1 else 0, r.1)
    else if c = 93 then
      if d = 0 then (1, s0)
      else
        let r := seek_backward PTR_MOD s0 1
        (if r.2 = 0 then 1 else 0, r.1)
    else (0, s0)

/-- The statement `bfi->errored = -1; return 0;` of `bfi_cycle`. -/
def run_fault (s : bfi_state_t) : Nat × bfi_state_t :=
  (0, { s with errored := PTR_MOD - 1 })

/-- The statements `bfi->script_p++; return 1;` closing `bfi_cycle`. -/
def advance (s : bfi_state_t) : Nat × bfi_state_t :=
  (1, { s with script_p := (s.script_p + 1) % PTR_MOD })

/-- `bfi_cycle`. -/
def bfi_cycle (realloc : Nat → Nat → Nat) (s : bfi_state_t) : Nat × bfi_state_t :=
  if s.script_p = 0 then (0, s)
  else
    let c := script_peek s
    if c = 0 then (0, s)
    else if c = 60 then advance { s with data_p := (s.data_p + PTR_MOD - 1) % PTR_MOD }
    else if c = 62 then advance { s with data_p := (s.data_p + 1) % PTR_MOD }
    else if c = 43 then
      let r := bfi_data_inc realloc s
      if r.1 = 0 then run_fault r.2 else advance r.2
    else if c = 45 then
      let r := bfi_data_dec realloc s
      if r.1 = 0 then run_fault r.2 else advance r.2
    else if c = 46 then
      let r := bfi_data_write s
      if r.1 = 0 then run_fault r.2 else advance r.2
    else if c = 44 then
      let r := bfi_data_read realloc s
      if r.1 = 0 then run_fault r.2 else advance r.2
    else if c = 91 ∨ c = 93 then
      let r := bfi_test s
      if r.1 = 0 then run_fault r.2 else advance r.2
    else (0, s)

/-- The loop `while (bfi_cycle(bfi));` of `bfi_run`, cut after `fuel` cycles: `none` when the
loop is still running then. -/
def run_loop (realloc : Nat → Nat → Nat) : Nat → bfi_state_t → Option bfi_state_t
  | 0, _ => none
  | fuel + 1, s =>
    let r := bfi_cycle realloc s
    if r.1 = 0 then some r.2 else run_loop realloc fuel r.2

/-- `bfi_run`. -/
def bfi_run (realloc : Nat → Nat → Nat) (fuel : Nat) (s : bfi_state_t) : Option bfi_state_t :=
  run_loop realloc fuel (bfi_restart s).2

/-- A block as `realloc` hands it out: `alloc` bytes, none for `NULL`, inside the address space. -/
structure Buf.WF (b : Buf) : Prop where
  len : b.mem.length = b.alloc
  null : b.base = 0 → b.alloc = 0
  fit : b.base + b.alloc < PTR_MOD

/-- Capacity left by `_buffer_check_size` for a cursor at offset `p` of a block of capacity
`C` (`null` telling whether the storage is `NULL`). -/
def grown (null : Bool) (C p : Nat) : Nat :=
  if null = false ∧ p < C - 1 then C else max (p + 1) (C + 256)

/-- The call of `realloc` made for a cursor at offset `p`, if any, succeeds: it returns a
non-null block that lies inside the address space. -/
def GrowthOK (realloc : Nat → Nat → Nat) (b : Buf) (p : Nat) : Prop :=
  (b.base = 0 ∨ b.alloc ≤ p + 1) →
    realloc b.base (max (p + 1) (b.alloc + 256)) ≠ 0 ∧
    realloc b.base (max (p + 1) (b.alloc + 256)) + max (p + 1) (b.alloc + 256) < PTR_MOD

/-- An allocator that serves every request of at most `2 ^ 62` bytes. -/
def AllocOK (realloc : Nat → Nat → Nat) : Prop :=
  ∀ p n, n ≤ 2 ^ 62 → realloc p n ≠ 0 ∧ realloc p n + n < PTR_MOD

/-- An allocator that always answers with the block at address `4096`. -/
def toy_realloc : Nat → Nat → Nat := fun _ _ => 4096

/-- A sequence of `+` (`true`) and `-` (`false`) steps on the data tape, `bfi_data_inc` and
`bfi_data_dec` with no cursor move in between; it stops at the first step that fails and
returns 1 when every step succeeded. -/
def data_steps (realloc : Nat → Nat → Nat) : bfi_state_t → List Bool → Nat × bfi_state_t
  | s, [] => (1, s)
  | s, op :: ops =>
    let r := if op then bfi_data_inc realloc s else bfi_data_dec realloc s
    if r.1 = 0 then (0, r.2) else data_steps realloc r.2 ops

/-- Capacity of the script block once `n` instruction bytes were appended to an empty
buffer. -/
def script_cap (n : Nat) : Nat := if n = 0 then 0 else 256 * (n / 256 + 1)

/-- The state `s` with a script buffer at address `q` that holds the bytes `l` followed by
zeros up to its capacity, the write cursor right after `l`, and `len` source bytes read. -/
def with_script (s : bfi_state_t) (q : Nat) (l : List Nat) (len : Nat) : bfi_state_t :=
  { s with
      script := q
      script_alloc := script_cap l.length
      script_p := q + l.length
      script_read_length := len
      script_mem := l ++ List.replicate (script_cap l.length - l.length) 0 }

/-- The address `q` is that of a script block holding `n` instruction bytes: null when
`n = 0`, else an address returned by `realloc` with the block inside the address space. -/
def BaseOK (realloc : Nat → Nat → Nat) (q n : Nat) : Prop :=
  (n = 0 → q = 0) ∧ (n ≠ 0 → q ≠ 0 ∧ ∃ p0 n0, q = realloc p0 n0) ∧
    q + script_cap n < PTR_MOD

/-- The eight instruction symbols `<>+-.,[]`. -/
def symbols : List Nat := [60, 62, 43, 45, 46, 44, 91, 93]

/-- Offset of the `]` that closes a loop, scanning the bytes `cs` that start at offset `k`
with `d` inner loops open: the nesting depth is an unbounded counter, every `[` (91) opens
an inner loop and every `]` (93) closes one, and the `]` met with no inner loop open is the
matching one. -/
def find_close : List Nat → Nat → Nat → Option Nat
  | [], _, _ => none
  | c :: cs, d, k =>
    if c = 93 then (if d = 0 then some k else find_close cs (d - 1) (k + 1))
    else if c = 91 then find_close cs (d + 1) (k + 1)
    else find_close cs d (k + 1)

/-- Offset of the `]` matching the `[` at offset `i` of `mem`, if there is one. -/
def matching_close (mem : List Nat) (i : Nat) : Option Nat :=
  find_close (mem.drop (i + 1)) 0 (i + 1)

/-- Offset of the `[` that opens a loop, scanning backward the bytes `cs` (nearest first)
whose first byte is at offset `k`, with `d` inner loops open. -/
def find_open : List Nat → Nat → Nat → Option Nat
  | [], _, _ => none
  | c :: cs, d, k =>
    if c = 91 then (if d = 0 then some k else find_open cs (d - 1) (k - 1))
    else if c = 93 then find_open cs (d + 1) (k - 1)
    else find_open cs d (k - 1)

/-- Offset of the `[` matching the `]` at offset `j` of `mem`, if there is one. -/
def matching_open (mem : List Nat) (j : Nat) : Option Nat :=
  find_open (mem.take j).reverse 0 (j - 1)

/-- The data cursor is left of the tape origin: below the block when the tape is allocated,
and at a negative offset from `NULL` (an address of `2 ^ 63` or more) when it is not. -/
def LeftOfOrigin (s : bfi_state_t) : Prop :=
  (s.data ≠ 0 ∧ s.data_p < s.data) ∨ (s.data = 0 ∧ s.data_alloc = 0 ∧ 2 ^ 63 ≤ s.data_p)

/-- A new engine, with no input, loaded with `src` by `bfi_script_from_buffer` (allocator
`toy_realloc`), the process memory being `heap`. -/
def loaded (heap : List (Nat × Nat)) (src : List Nat) : bfi_state_t :=
  (bfi_script_from_buffer toy_realloc (bfi_new heap []) src).2

/-- The source of 256 `[` followed by 256 `]`: 256 loops nested in one another. -/
def deep_loops : List Nat := List.replicate 256 91 ++ List.replicate 256 93

/-- The source of 256 `[` and nothing else. -/
def deep_open : List Nat := List.replicate 256 91

/-- The engine loaded with `deep_loops` at the start of a run: instruction cursor on the
outermost `[`, data tape not yet allocated. -/
def deep_start : bfi_state_t := (bfi_restart (loaded [] deep_loops)).2

/-- The engine loaded with `deep_open` at the start of a run. -/
def deep_open_start : bfi_state_t := (bfi_restart (loaded [] deep_open)).2

/-- The engine loaded with `deep_loops`, the cell under the data cursor incremented once and
the instruction cursor on the last `]`, at offset 511. -/
def deep_end : bfi_state_t :=
  { (bfi_data_inc toy_realloc deep_start).2 with script_p := deep_start.script + 511 }

/-- The source `<+`. -/
def src_left_inc : List Nat := [60, 43]

/-- The source `<.`. -/
def src_left_out : List Nat := [60, 46]

/-- The source `+`, 256 times `>`, then `.`: it allocates the tape (256 bytes), moves the
data cursor to offset 256 and prints the cell there. -/
def src_past_end : List Nat := 43 :: (List.replicate 256 62 ++ [46])

instance (s : bfi_state_t) : Decidable (LeftOfOrigin s) := by
  unfold LeftOfOrigin
  infer_instance

/-- The engine loaded with `<+` after the step executing `<` from the start of a run. -/
def left_inc_state : bfi_state_t :=
  (bfi_cycle toy_realloc (bfi_restart (loaded [] src_left_inc)).2).2

/-- The engine loaded with `<.` after the step executing `<` from the start of a run. -/
def left_out_state : bfi_state_t :=
  (bfi_cycle toy_realloc (bfi_restart (loaded [] src_left_out)).2).2

/-- The engine loaded with `src_past_end` once its run is over, the byte at address 4352,
right after the 256 bytes of the tape, being 7 when the process starts. -/
def past_end_final : bfi_state_t :=
  { bfi_new [(4352, 7)] [] with
      data := 4096
      data_alloc := 256
      data_p := 4352
      data_mem := 1 :: List.replicate 255 0
      script := 4096
      script_alloc := 512
      script_p := 4096 + 258
      script_read_length := 258
      script_mem := src_past_end ++ List.replicate 254 0
      out_stream := some [7] }

/-- The forward loop of `bfi_test` run on the bytes `cs` found after the cursor, the first of
them at offset `k`: the offset the cursor is left on and the counter, or `none` when the
bytes run out before the loop ends. -/
def scan_fwd : List Nat → Nat → Nat → Option (Nat × Nat)
  | [], _, _ => none
  | c :: cs, nb, k =>
    if 0 < c ∧ c < 128 then
      let nb1 := if c = 93 then (nb + 255) % 256 else nb
      let nb2 := if c = 91 then (nb1 + 1) % 256 else nb1
      if nb2 = 0 then some (k, nb2) else scan_fwd cs nb2 (k + 1)
    else some (k, nb)

/-- The backward loop of `bfi_test` run on the bytes `cs` found before the cursor, nearest
first, the first of them at offset `k`: the offset the cursor is left on (`none` when it is
left one byte before the script) and the counter. -/
def scan_bwd : List Nat → Nat → Nat → Option Nat × Nat
  | [], nb, _ => (none, nb)
  | c :: cs, nb, k =>
    let nb1 := if c = 91 then (nb + 255) % 256 else if c = 93 then (nb + 1) % 256 else nb
    if nb1 = 0 then (some k, nb1) else scan_bwd cs nb1 (k - 1)

/-- The address the backward loop leaves in the instruction cursor of a script at address
`q`: offset `j`, or one byte before the script. -/
def bwd_cursor (q : Nat) : Option Nat → Nat
  | some j => q + j
  | none => q - 1

/-- The engine loaded with the script `[` after the first step of its run, the step that
faults. -/
def open_fault_state : bfi_state_t :=
  (bfi_cycle toy_realloc (bfi_restart (loaded [] [91])).2).2

/-- The engine loaded with the script `>` once its run is over: the data cursor was moved
and the tape never allocated. -/
def right_final : bfi_state_t :=
  (bfi_cycle toy_realloc (bfi_restart (loaded [] [62])).2).2

/-- The engine loaded with the script `,.` at the start of a run, the input holding the one
byte 65. -/
def echo_start : bfi_state_t :=
  (bfi_restart (bfi_script_from_buffer toy_realloc (bfi_new [] [65]) [44, 46]).2).2

/-- The state `s` with its read-length counter and its fault indicator replaced. -/
def retag (s : bfi_state_t) (len err : Nat) : bfi_state_t :=
  { s with script_read_length := len, errored := err }

/-- An allocator that serves requests of at most 256 bytes, at address 4096, and fails on
larger ones. -/
def tight_realloc : Nat → Nat → Nat := fun _ n => if n ≤ 256 then 4096 else 0

/-- The source `[` followed by 255 times `>`: 256 instruction bytes, one more than a block
of 256 bytes takes without growing. -/
def src_tight : List Nat := 91 :: List.replicate 255 62

/-- The engine left by loading `src_tight` with `tight_realloc`: the first 255 bytes are
in the script block and the growth asked for the last one was refused, a load fault at
source offset 256. -/
def tight_loaded : bfi_state_t :=
  { bfi_new [] [] with
      script := 4096
      script_alloc := 256
      script_p := 4096 + 255
      script_read_length := 256
      errored := 256
      script_mem := 91 :: (List.replicate 254 62 ++ [0]) }

/-- Classification of the fault indicator: 0 for no fault, 2 for the run-fault value
`(size_t)-1`, 1 for a load fault (any other value, the source offset). -/
def fault_class (e : Nat) : Nat :=
  if e = 0 then 0 else if e = PTR_MOD - 1 then 2 else 1

/-- The state with the read-length counter forgotten and the fault indicator replaced by its
classification: script buffer, tape, cursors, streams and kind of halt. -/
def observable (s : bfi_state_t) : bfi_state_t :=
  retag s 0 (fault_class s.errored)

/-- The condition under which `bfi_cycle` executes `bfi->errored = -1; return 0;`: the
instruction cursor is not null and the function called for the instruction under it
(`bfi_data_inc`, `bfi_data_dec`, `bfi_data_write`, `bfi_data_read` or `bfi_test`)
returns 0. -/
def step_faults (realloc : Nat → Nat → Nat) (s : bfi_state_t) : Prop :=
  s.script_p ≠ 0 ∧
    ((script_peek s = 43 ∧ (bfi_data_inc realloc s).1 = 0) ∨
     (script_peek s = 45 ∧ (bfi_data_dec realloc s).1 = 0) ∨
     (script_peek s = 46 ∧ (bfi_data_write s).1 = 0) ∨
     (script_peek s = 44 ∧ (bfi_data_read realloc s).1 = 0) ∨
     ((script_peek s = 91 ∨ script_peek s = 93) ∧ (bfi_test s).1 = 0))

instance (realloc : Nat → Nat → Nat) (s : bfi_state_t) : Decidable (step_faults realloc s) := by
  unfold step_faults
  infer_instance
/-- The addresses read through the instruction cursor by the forward loop of `bfi_test`, one
for each evaluation of `*++(bfi->script_p)`, in order. -/
def seek_forward_reads : Nat → bfi_state_t → Nat → List Nat
  | 0, _, _ => []
  | fuel + 1, s, nb =>
    let s1 := { s with script_p := (s.script_p + 1) % PTR_MOD }
    let c := script_peek s1
    s1.script_p ::
      (if 0 < c ∧ c < 128 then
        let nb1 := if c = 93 then (nb + 255) % 256 else nb
        let nb2 := if c = 91 then (nb1 + 1) % 256 else nb1
        if nb2 = 0 then [] else seek_forward_reads fuel s1 nb2
      else [])

/-- The addresses read through the instruction cursor by the backward loop of `bfi_test`, one
for each evaluation of `c = *(bfi->script_p)`, in order. -/
def seek_backward_reads : Nat → bfi_state_t → Nat → List Nat
  | 0, _, _ => []
  | fuel + 1, s, nb =>
    let s1 := { s with script_p := (s.script_p + PTR_MOD - 1) % PTR_MOD }
    if s1.script ≤ s1.script_p then
      let c := script_peek s1
      let nb1 := if c = 91 then (nb + 255) % 256 else if c = 93 then (nb + 1) % 256 else nb
      s1.script_p :: (if nb1 = 0 then [] else seek_backward_reads fuel s1 nb1)
    else []

/-- The addresses read through the instruction cursor by `bfi_test`: the byte
`c = *(bfi->script_p)`, then those of the scan, if one is made. -/
def bfi_test_reads (s : bfi_state_t) : List Nat :=
  let g := bfi_data_get s
  if g.1 = 0 then []
  else
    let s0 := g.2.2
    let d := g.2.1
    let c := script_peek s0
    s0.script_p ::
      (if c = 91 then
        if d ≠ 0 then [] else seek_forward_reads PTR_MOD s0 1
      else if c = 93 then
        if d = 0 then [] else seek_backward_reads PTR_MOD s0 1
      else [])

/-- The addresses read through the instruction cursor by `bfi_cycle`: the fetch
`c = *(bfi->script_p)`, then those of `bfi_test` on a bracket. -/
def cycle_reads (s : bfi_state_t) : List Nat :=
  if s.script_p = 0 then []
  else
    let c := script_peek s
    s.script_p :: (if c = 91 ∨ c = 93 then bfi_test_reads s else [])

/-- The states on which `bfi_cycle` is called by the loop of `bfi_run`, in order, for at most
`fuel` calls. -/
def run_states (realloc : Nat → Nat → Nat) : Nat → bfi_state_t → List bfi_state_t
  | 0, _ => []
  | fuel + 1, s =>
    let r := bfi_cycle realloc s
    s :: (if r.1 = 0 then [] else run_states realloc fuel r.2)

/-- The script block of `s` is at the non-null address `q` and holds the instruction bytes `l`
followed by `z ≥ 1` zero bytes, inside the address space, and the instruction cursor is at
an offset of `[0, l.length]`. -/
structure ScriptOK (q : Nat) (l : List Nat) (z : Nat) (s : bfi_state_t) : Prop where
  base : s.script = q
  nonnull : q ≠ 0
  alloc : s.script_alloc = l.length + z
  mem : s.script_mem = l ++ List.replicate z 0
  pad : 0 < z
  fit : q + (l.length + z) < PTR_MOD
  instr : ∀ c ∈ l, c ∈ symbols
  cur : ∃ k, k ≤ l.length ∧ s.script_p = q + k
/-- Offsets, from the start of the script, of the instructions executed by the loop of
`bfi_run`, in order: one for each call of `bfi_cycle` that returns 1, for at most `fuel`
calls. -/
def run_trace (realloc : Nat → Nat → Nat) : Nat → bfi_state_t → List Nat
  | 0, _ => []
  | fuel + 1, s =>
    let r := bfi_cycle realloc s
    if r.1 = 0 then [] else (s.script_p - s.script) :: run_trace realloc fuel r.2

/-- The source made of `n` times `+` followed by `[-]`. -/
def src_countdown (n : Nat) : List Nat := List.replicate n 43 ++ [91, 45, 93]

/-- The engine running `src_countdown n` with no input, once the data tape is allocated:
script block at `q`, data block of 256 bytes at `d` with the data cursor on its first cell,
which holds `c`, and the instruction cursor at offset `k`. -/
def countdown_state (q d : Nat) (heap : List (Nat × Nat)) (n c k : Nat) : bfi_state_t :=
  { data := d, data_alloc := 256, data_p := d, script := q,
    script_alloc := script_cap (n + 3), script_p := q + k, script_read_length := n + 3,
    errored := 0, data_mem := c :: List.replicate 255 0,
    script_mem := src_countdown n ++ List.replicate (script_cap (n + 3) - (n + 3)) 0,
    heap := heap, in_stream := some [], out_stream := some [] }

/-- The engine loaded with `src_countdown n` at the start of its run: script block at `q`,
instruction cursor on the first instruction, data tape not yet allocated, no input. -/
def countdown_start (q : Nat) (heap : List (Nat × Nat)) (n : Nat) : bfi_state_t :=
  { data := 0, data_alloc := 0, data_p := 0, script := q,
    script_alloc := script_cap (n + 3), script_p := q, script_read_length := n + 3,
    errored := 0, data_mem := [],
    script_mem := src_countdown n ++ List.replicate (script_cap (n + 3) - (n + 3)) 0,
    heap := heap, in_stream := some [], out_stream := some [] }
/-- The tape block is as it was, or it is allocated. -/
def TapeKept (s t : bfi_state_t) : Prop :=
  t.data ≠ 0 ∨ (t.data = s.data ∧ t.data_alloc = s.data_alloc ∧ t.data_mem = s.data_mem)

set_option maxRecDepth 10000

theorem PTR_MOD_eq : PTR_MOD = 18446744073709551616 := by norm_num [PTR_MOD]

theorem _max_eq (a b : Nat) : _max a b = max a b := by
  unfold _max; split <;> omega

theorem check_size_keep (realloc : Nat → Nat → Nat) (b : Buf) (p : Nat) (hwf : b.WF)
    (hcur : b.cur = b.base + p) (hb : b.base ≠ 0) (hlt : p + 1 < b.alloc) :
    _buffer_check_size realloc b = (1, b) := by
  have hfit := hwf.fit
  rw [PTR_MOD_eq] at hfit
  unfold _buffer_check_size
  simp only [PTR_MOD_eq, hcur]
  rw [if_neg (by omega), if_neg]
  omega

theorem check_size_grow (realloc : Nat → Nat → Nat) (b : Buf) (p : Nat) (hwf : b.WF)
    (hcur : b.cur = b.base + p) (hg : b.base = 0 ∨ b.alloc ≤ p + 1)
    (hp : b.base + p < PTR_MOD)
    (hq : realloc b.base (max (p + 1) (b.alloc + 256)) ≠ 0)
    (hqf : realloc b.base (max (p + 1) (b.alloc + 256)) + max (p + 1) (b.alloc + 256)
      < PTR_MOD) :
    _buffer_check_size realloc b =
      (1, { b with
              base := realloc b.base (max (p + 1) (b.alloc + 256))
              alloc := max (p + 1) (b.alloc + 256)
              cur := realloc b.base (max (p + 1) (b.alloc + 256)) + p
              mem := b.mem ++ List.replicate (max (p + 1) (b.alloc + 256) - b.alloc) 0 }) := by
  have hfit := hwf.fit
  have hlen := hwf.len
  rw [PTR_MOD_eq] at hfit hqf hp
  have hsz : _max ((((b.base + p) + 18446744073709551616 - b.base) % 18446744073709551616 + 1)
      % 18446744073709551616) ((BFI_ALLOC_CHUNK + b.alloc) % 18446744073709551616)
      = max (p + 1) (b.alloc + 256) := by
    rw [_max_eq]; unfold BFI_ALLOC_CHUNK; omega
  have hcp : ((b.base + p) + 18446744073709551616 - b.base) % 18446744073709551616 = p := by
    omega
  unfold _buffer_check_size
  simp only [PTR_MOD_eq, hcur]
  rw [if_neg (by omega), if_pos, hsz]
  · simp only [hcp]
    rw [if_neg hq]
    have h1 : (realloc b.base (max (p + 1) (b.alloc + 256)) + p) % 18446744073709551616
        = realloc b.base (max (p + 1) (b.alloc + 256)) + p := by omega
    rw [h1, ← hlen, List.take_length]
  · by_cases h0 : b.base = 0
    · exact Or.inl h0
    · right
      have h : b.alloc ≤ p + 1 := by
        rcases hg with h | h
        · exact absurd h h0
        · exact h
      omega


theorem grown_spec (b : Buf) (p : Nat) :
    grown (decide (b.base = 0)) b.alloc p =
      if b.base = 0 ∨ b.alloc ≤ p + 1 then max (p + 1) (b.alloc + 256) else b.alloc := by
  unfold grown
  by_cases h0 : b.base = 0
  · simp [h0]
  · by_cases h1 : b.alloc ≤ p + 1
    · have : ¬ p < b.alloc - 1 := by omega
      simp [h0, h1, this]
    · have : p < b.alloc - 1 := by omega
      simp [h0, h1, this]

theorem toy_realloc_ok : AllocOK toy_realloc := by
  intro p n hn
  simp only [toy_realloc, PTR_MOD_eq]
  norm_num at hn ⊢
  omega

theorem GrowthOK_of_AllocOK (realloc : Nat → Nat → Nat) (h : AllocOK realloc) (b : Buf)
    (p : Nat) (hp : p + 1 ≤ 2 ^ 62) (ha : b.alloc + 256 ≤ 2 ^ 62) : GrowthOK realloc b p := by
  intro _
  exact h _ _ (max_le hp ha)

/-- What `_buffer_check_size` leaves for a cursor at offset `p ≥ 0`: success, the block grown
to `grown` bytes by a zero tail, the cursor at the same offset and inside the block. -/
theorem check_size_ok (realloc : Nat → Nat → Nat) (b : Buf) (p : Nat) (hwf : b.WF)
    (hcur : b.cur = b.base + p) (hp : b.base + p < PTR_MOD) (hg : GrowthOK realloc b p) :
    ∃ q, q ≠ 0 ∧ (q = b.base ∨ ∃ n, q = realloc b.base n) ∧
      q + grown (decide (b.base = 0)) b.alloc p < PTR_MOD ∧
      p < grown (decide (b.base = 0)) b.alloc p ∧
      b.alloc ≤ grown (decide (b.base = 0)) b.alloc p ∧
      _buffer_check_size realloc b =
        (1, { b with
                base := q
                alloc := grown (decide (b.base = 0)) b.alloc p
                cur := q + p
                mem := b.mem ++
                  List.replicate (grown (decide (b.base = 0)) b.alloc p - b.alloc) 0 }) := by
  rw [grown_spec]
  by_cases h : b.base = 0 ∨ b.alloc ≤ p + 1
  · obtain ⟨hq, hqf⟩ := hg h
    refine ⟨realloc b.base (max (p + 1) (b.alloc + 256)), hq, Or.inr ⟨_, rfl⟩, ?_, ?_, ?_, ?_⟩
    · rw [if_pos h]; exact hqf
    · rw [if_pos h]; omega
    · rw [if_pos h]; omega
    · rw [if_pos h]; exact check_size_grow realloc b p hwf hcur h hp hq hqf
  · have hb : b.base ≠ 0 := fun e => h (Or.inl e)
    have hlt : p + 1 < b.alloc := by
      by_contra hc
      exact h (Or.inr (by omega))
    refine ⟨b.base, hb, Or.inl rfl, ?_, ?_, ?_, ?_⟩
    · rw [if_neg h]; exact hwf.fit
    · rw [if_neg h]; omega
    · rw [if_neg h]
    · rw [if_neg h, check_size_keep realloc b p hwf hcur hb hlt]
      cases b
      simp_all

theorem store_in_block (b : Buf) (p v : Nat) (hb : b.base ≠ 0) (hcur : b.cur = b.base + p)
    (hp : p < b.mem.length) : b.store v = { b with mem := b.mem.set p v } := by
  unfold Buf.store
  rw [if_pos ⟨hb, by omega, by omega⟩]
  simp [hcur]

theorem load_in_block (b : Buf) (p : Nat) (hb : b.base ≠ 0) (hcur : b.cur = b.base + p)
    (hp : p < b.mem.length) : b.load = b.mem.getD p 0 := by
  unfold Buf.load
  rw [if_pos ⟨hb, by omega, by omega⟩]
  simp [hcur]

/-- What `_buffer_set_byte` leaves for a cursor at offset `p ≥ 0`. -/
theorem set_byte_ok (realloc : Nat → Nat → Nat) (b : Buf) (p byte : Nat) (hwf : b.WF)
    (hcur : b.cur = b.base + p) (hp : b.base + p < PTR_MOD) (hg : GrowthOK realloc b p) :
    ∃ q, q ≠ 0 ∧ (q = b.base ∨ ∃ n, q = realloc b.base n) ∧
      q + grown (decide (b.base = 0)) b.alloc p < PTR_MOD ∧
      p < grown (decide (b.base = 0)) b.alloc p ∧
      b.alloc ≤ grown (decide (b.base = 0)) b.alloc p ∧
      _buffer_set_byte realloc b byte =
        (1, { b with
                base := q
                alloc := grown (decide (b.base = 0)) b.alloc p
                cur := q + p
                mem := (b.mem ++
                  List.replicate (grown (decide (b.base = 0)) b.alloc p - b.alloc) 0).set
                    p byte }) := by
  obtain ⟨q, hq, hqo, hqf, hpg, hag, hcs⟩ := check_size_ok realloc b p hwf hcur hp hg
  refine ⟨q, hq, hqo, hqf, hpg, hag, ?_⟩
  unfold _buffer_set_byte
  simp only [hcs]
  rw [if_neg (by decide)]
  rw [store_in_block _ p byte hq rfl]
  simp only [List.length_append, List.length_replicate, hwf.len]
  omega

/-- What `_buffer_delta_byte` leaves for a cursor at offset `p ≥ 0`. -/
theorem delta_byte_ok (realloc : Nat → Nat → Nat) (b : Buf) (p delta : Nat) (hwf : b.WF)
    (hcur : b.cur = b.base + p) (hp : b.base + p < PTR_MOD) (hg : GrowthOK realloc b p) :
    ∃ q, q ≠ 0 ∧ (q = b.base ∨ ∃ n, q = realloc b.base n) ∧
      q + grown (decide (b.base = 0)) b.alloc p < PTR_MOD ∧
      p < grown (decide (b.base = 0)) b.alloc p ∧
      b.alloc ≤ grown (decide (b.base = 0)) b.alloc p ∧
      _buffer_delta_byte realloc b delta =
        (1, { b with
                base := q
                alloc := grown (decide (b.base = 0)) b.alloc p
                cur := q + p
                mem := (b.mem ++
                  List.replicate (grown (decide (b.base = 0)) b.alloc p - b.alloc) 0).set
                    p ((b.mem.getD p 0 + delta) % 256) }) := by
  obtain ⟨q, hq, hqo, hqf, hpg, hag, hcs⟩ := check_size_ok realloc b p hwf hcur hp hg
  refine ⟨q, hq, hqo, hqf, hpg, hag, ?_⟩
  have hlen : p < (b.mem ++
      List.replicate (grown (decide (b.base = 0)) b.alloc p - b.alloc) 0).length := by
    simp only [List.length_append, List.length_replicate, hwf.len]
    omega
  unfold _buffer_delta_byte
  simp only [hcs]
  rw [if_neg (by decide)]
  rw [store_in_block _ p _ hq rfl hlen, load_in_block _ p hq rfl hlen]
  congr 4
  by_cases hpl : p < b.mem.length
  · simp [List.getD_eq_getElem?_getD, List.getElem?_append_left hpl]
  · have hpl2 : b.mem.length ≤ p := by omega
    rw [List.getD_eq_getElem?_getD, List.getD_eq_getElem?_getD,
      List.getElem?_append_right hpl2, List.getElem?_eq_none hpl2]
    simp only [List.length_append, List.length_replicate] at hlen
    rw [List.getElem?_replicate, if_pos (by omega)]
    rfl

theorem grown_eq_ite (b : Buf) (p : Nat) :
    grown (decide (b.base = 0)) b.alloc p =
      if b.base ≠ 0 ∧ p < b.alloc - 1 then b.alloc else max (p + 1) (b.alloc + 256) := by
  unfold grown
  by_cases h0 : b.base = 0 <;> simp [h0]

theorem getD_set_self (l : List Nat) (p v : Nat) (h : p < l.length) :
    (l.set p v).getD p 0 = v := by
  simp [List.getD_eq_getElem?_getD, List.getElem?_set, h]

theorem getD_set_other (l : List Nat) (p i v : Nat) (h : i ≠ p) :
    (l.set p v).getD i 0 = l.getD i 0 := by
  simp [List.getD_eq_getElem?_getD, List.getElem?_set, Ne.symm h]

theorem getD_append_zeros (l : List Nat) (k i : Nat) :
    (l ++ List.replicate k 0).getD i 0 = l.getD i 0 := by
  by_cases hi : i < l.length
  · simp [List.getD_eq_getElem?_getD, List.getElem?_append_left hi]
  · have hi2 : l.length ≤ i := by omega
    rw [List.getD_eq_getElem?_getD, List.getD_eq_getElem?_getD,
      List.getElem?_append_right hi2, List.getElem?_eq_none hi2, List.getElem?_replicate]
    split <;> rfl

theorem getD_beyond (l : List Nat) (i : Nat) (h : l.length ≤ i) : l.getD i 0 = 0 := by
  rw [List.getD_eq_getElem?_getD, List.getElem?_eq_none h]
  rfl

/-- C7: for a block of capacity `C` (as allocated: `C` bytes, none when the storage is null,
inside the address space), a cursor at offset `p ≥ 0` and a byte `byte`, the allocation (if
one is made) succeeding: `_buffer_set_byte` returns 1; the capacity afterwards is `C` when the
storage is non-null and `p < C - 1`, and `max (p + 1) (C + 256)` otherwise, so it is at least
`C` and exceeds `p`; the storage is non-null and holds that many bytes; the cursor keeps
offset `p`; the byte at `p` is `byte`; every other position below `C` keeps its byte; every
other position from `C` up to the new capacity is zero; nothing outside the block is
written. -/
theorem buffer_set_byte_spec (realloc : Nat → Nat → Nat) (b : Buf) (p byte : Nat)
    (hwf : b.WF) (hcur : b.cur = b.base + p) (hp : b.base + p < PTR_MOD)
    (hg : GrowthOK realloc b p) :
    ∃ C, C = (if b.base ≠ 0 ∧ p < b.alloc - 1 then b.alloc else max (p + 1) (b.alloc + 256)) ∧
      (_buffer_set_byte realloc b byte).1 = 1 ∧
      (_buffer_set_byte realloc b byte).2.alloc = C ∧
      (_buffer_set_byte realloc b byte).2.mem.length = C ∧
      b.alloc ≤ C ∧ p < C ∧
      (_buffer_set_byte realloc b byte).2.base ≠ 0 ∧
      (_buffer_set_byte realloc b byte).2.cur = (_buffer_set_byte realloc b byte).2.base + p ∧
      (_buffer_set_byte realloc b byte).2.base + C < PTR_MOD ∧
      (_buffer_set_byte realloc b byte).2.mem.getD p 0 = byte ∧
      (∀ i, i < b.alloc → i ≠ p →
        (_buffer_set_byte realloc b byte).2.mem.getD i 0 = b.mem.getD i 0) ∧
      (∀ i, b.alloc ≤ i → i < C → i ≠ p →
        (_buffer_set_byte realloc b byte).2.mem.getD i 0 = 0) ∧
      (_buffer_set_byte realloc b byte).2.heap = b.heap := by
  obtain ⟨q, hq, _, hqf, hpg, hag, hset⟩ := set_byte_ok realloc b p byte hwf hcur hp hg
  have hlen := hwf.len
  refine ⟨grown (decide (b.base = 0)) b.alloc p, grown_eq_ite b p, ?_⟩
  rw [hset]
  refine ⟨rfl, rfl, ?_, hag, hpg, hq, rfl, hqf, ?_, ?_, ?_, rfl⟩
  · simp only [List.length_set, List.length_append, List.length_replicate]
    omega
  · apply getD_set_self
    simp only [List.length_append, List.length_replicate]
    omega
  · intro i _ hip
    show ((b.mem ++ List.replicate _ 0).set p byte).getD i 0 = _
    rw [getD_set_other _ _ _ _ hip, getD_append_zeros]
  · intro i hi _ hip
    show ((b.mem ++ List.replicate _ 0).set p byte).getD i 0 = _
    rw [getD_set_other _ _ _ _ hip, getD_append_zeros]
    exact getD_beyond _ _ (by omega)

/-- C7 at a concrete input: a write at offset 300 of a buffer not yet allocated, served at
address 4096, leaves 301 bytes with the written byte last. -/
theorem buffer_set_byte_spec_witness :
    (∃ C, C = (if (0 : Nat) ≠ 0 ∧ 300 < 0 - 1 then 0 else max (300 + 1) (0 + 256)) ∧
      (_buffer_set_byte toy_realloc ⟨0, 0, 300, [], []⟩ 43).1 = 1 ∧
      (_buffer_set_byte toy_realloc ⟨0, 0, 300, [], []⟩ 43).2.alloc = C) ∧
    (_buffer_set_byte toy_realloc ⟨0, 0, 300, [], []⟩ 43).2.alloc = 301 := by
  have h := buffer_set_byte_spec toy_realloc ⟨0, 0, 300, [], []⟩ 300 43
    ⟨rfl, fun _ => rfl, by decide⟩ (by decide) (by decide)
    (fun _ => ⟨by decide, by decide⟩)
  obtain ⟨C, hC, h1, h2, _⟩ := h
  exact ⟨⟨C, hC, h1, h2⟩, by rw [h2, hC]; decide⟩

theorem set_data_buf_data_buf (s : bfi_state_t) : set_data_buf s (data_buf s) = s := rfl

theorem set_script_buf_script_buf (s : bfi_state_t) : set_script_buf s (script_buf s) = s :=
  rfl

theorem buffer_get_byte_fst (b : Buf) : (_buffer_get_byte b).1 = 1 := by
  unfold _buffer_get_byte; split <;> rfl

theorem buffer_get_byte_buf (b : Buf) : (_buffer_get_byte b).2.2 = b := by
  unfold _buffer_get_byte; split <;> rfl

theorem bfi_data_get_fst (s : bfi_state_t) : (bfi_data_get s).1 = 1 := by
  unfold bfi_data_get; exact buffer_get_byte_fst _

theorem bfi_data_get_state (s : bfi_state_t) : (bfi_data_get s).2.2 = s := by
  unfold bfi_data_get
  simp only [buffer_get_byte_buf]
  rfl

/-- C6: for every buffer and every cursor (valid or not), `_buffer_get_byte` returns 1 and
leaves the buffer (storage, capacity, cursor) as it was, and so does `bfi_data_get` on every
engine state; a write at the same position may grow the buffer: on the buffer not yet
allocated, the read leaves capacity 0 and the write leaves capacity 256. -/
theorem buffer_get_byte_frame :
    (∀ b : Buf, (_buffer_get_byte b).1 = 1 ∧ (_buffer_get_byte b).2.2 = b) ∧
    (∀ s : bfi_state_t, (bfi_data_get s).1 = 1 ∧ (bfi_data_get s).2.2 = s) ∧
    ((_buffer_get_byte ⟨0, 0, 0, [], []⟩).2.2.alloc = 0 ∧
      (_buffer_set_byte toy_realloc ⟨0, 0, 0, [], []⟩ 1).1 = 1 ∧
      (_buffer_set_byte toy_realloc ⟨0, 0, 0, [], []⟩ 1).2.alloc = 256) :=
  ⟨fun b => ⟨buffer_get_byte_fst b, buffer_get_byte_buf b⟩,
   fun s => ⟨bfi_data_get_fst s, bfi_data_get_state s⟩,
   by decide!⟩

/-- One `+` or `-` step on a tape whose cursor is at offset `p ≥ 0`. -/
theorem data_step_ok (realloc : Nat → Nat → Nat) (hra : AllocOK realloc) (p B delta : Nat)
    (hB : B + 256 ≤ 2 ^ 62) (hpB : p + 257 ≤ B) (s : bfi_state_t) (hwf : (data_buf s).WF)
    (hcur : s.data_p = s.data + p) (hp : s.data + p < PTR_MOD) (ha : s.data_alloc ≤ B) :
    ∃ b' : Buf, _buffer_delta_byte realloc (data_buf s) delta = (1, b') ∧ b'.WF ∧
      b'.cur = b'.base + p ∧ b'.base + p < PTR_MOD ∧ b'.alloc ≤ B ∧
      b'.mem.getD p 0 = (s.data_mem.getD p 0 + delta) % 256 := by
  have hg : GrowthOK realloc (data_buf s) p :=
    GrowthOK_of_AllocOK realloc hra _ p (by omega) (by show s.data_alloc + 256 ≤ _; omega)
  obtain ⟨q, hq, _, hqf, hpg, hag, hd⟩ :=
    delta_byte_ok realloc (data_buf s) p delta hwf hcur hp hg
  have hlen : (data_buf s).mem.length = (data_buf s).alloc := hwf.len
  refine ⟨_, hd, ⟨?_, ?_, hqf⟩, rfl, ?_, ?_, ?_⟩
  · simp only [List.length_set, List.length_append, List.length_replicate]
    omega
  · intro h; exact absurd h hq
  · show q + p < PTR_MOD
    omega
  · show grown _ _ _ ≤ B
    rw [grown_spec]
    have hb : (data_buf s).alloc ≤ B := ha
    have hnull := hwf.null
    split
    · rename_i h
      rcases h with h | h
      · have := hnull h
        omega
      · omega
    · omega
  · apply getD_set_self
    simp only [List.length_append, List.length_replicate]
    omega

theorem data_steps_ok (realloc : Nat → Nat → Nat) (hra : AllocOK realloc) (p B : Nat)
    (hB : B + 256 ≤ 2 ^ 62) (hpB : p + 257 ≤ B) (ops : List Bool) :
    ∀ s : bfi_state_t, (data_buf s).WF → s.data_p = s.data + p → s.data + p < PTR_MOD →
      s.data_alloc ≤ B → s.data_mem.getD p 0 < 256 →
      (data_steps realloc s ops).1 = 1 ∧
      (data_steps realloc s ops).2.data_p = (data_steps realloc s ops).2.data + p ∧
      (data_steps realloc s ops).2.data_mem.getD p 0 =
        (s.data_mem.getD p 0 + ops.count true + 255 * ops.count false) % 256 := by
  induction ops with
  | nil =>
    intro s _ hcur _ _ hv
    refine ⟨rfl, hcur, ?_⟩
    show s.data_mem.getD p 0 = _
    simp only [List.count_nil]
    omega
  | cons op ops ih =>
    intro s hwf hcur hp ha hv
    obtain ⟨b', hd, hwf', hcur', hp', ha', hv'⟩ :=
      data_step_ok realloc hra p B (if op then 1 else 255) hB hpB s hwf hcur hp ha
    have hstep : (if op then bfi_data_inc realloc s else bfi_data_dec realloc s)
        = (1, set_data_buf s b') := by
      cases op
      · simp only [Bool.false_eq_true, if_false] at hd ⊢
        unfold bfi_data_dec
        rw [hd]
      · simp only [if_true] at hd ⊢
        unfold bfi_data_inc
        rw [hd]
    have hrec := ih (set_data_buf s b') hwf' hcur' hp' ha'
      (by show b'.mem.getD p 0 < 256; rw [hv']; exact Nat.mod_lt _ (by decide))
    have hunf : data_steps realloc s (op :: ops) = data_steps realloc (set_data_buf s b') ops := by
      show (let r := (if op then bfi_data_inc realloc s else bfi_data_dec realloc s)
        if r.1 = 0 then (0, r.2) else data_steps realloc r.2 ops) = _
      rw [hstep]
      rfl
    rw [hunf]
    refine ⟨hrec.1, hrec.2.1, ?_⟩
    rw [hrec.2.2]
    show (b'.mem.getD p 0 + _ + _) % 256 = _
    rw [hv']
    cases op
    · simp only [Bool.false_eq_true, if_false, List.count_cons_self]
      rw [List.count_cons_of_ne (by decide)]
      omega
    · simp only [if_true, List.count_cons_self]
      rw [List.count_cons_of_ne (by decide)]
      omega

/-- C4: for every data tape (as allocated) with the cursor at an offset `p ≥ 0`, the cell
there holding a byte, an allocator serving every request, and every finite sequence of `+`
and `-` steps (`bfi_data_inc` / `bfi_data_dec`) with no cursor move in between: every step
succeeds, the cursor keeps its offset, and the byte left in the cell is the initial byte
plus the number of `+` minus the number of `-`, modulo 256. -/
theorem data_inc_dec_mod_256 (realloc : Nat → Nat → Nat) (hra : AllocOK realloc)
    (s : bfi_state_t) (p : Nat) (ops : List Bool) (hwf : (data_buf s).WF)
    (hcur : s.data_p = s.data + p) (hp : s.data + p < PTR_MOD)
    (hsize : max s.data_alloc (p + 257) + 256 ≤ 2 ^ 62) (hbyte : s.data_mem.getD p 0 < 256) :
    (data_steps realloc s ops).1 = 1 ∧
    (data_steps realloc s ops).2.data_p = (data_steps realloc s ops).2.data + p ∧
    (((data_steps realloc s ops).2.data_mem.getD p 0 : Nat) : Int) =
      ((s.data_mem.getD p 0 : Int) + (ops.count true : Int) - (ops.count false : Int)) % 256 := by
  obtain ⟨h1, h2, h3⟩ := data_steps_ok realloc hra p (max s.data_alloc (p + 257))
    hsize (le_max_right _ _) ops s hwf hcur hp (le_max_left _ _) hbyte
  refine ⟨h1, h2, ?_⟩
  rw [h3]
  omega

/-- C4 at concrete inputs: on the tape of a new engine, 256 increments leave the byte 0 and
one decrement leaves the byte 255. -/
theorem data_inc_dec_mod_256_witness :
    ((data_steps toy_realloc (bfi_new [] []) (List.replicate 256 true)).1 = 1 ∧
      (((data_steps toy_realloc (bfi_new [] []) (List.replicate 256 true)).2.data_mem.getD 0 0
        : Nat) : Int) = 0) ∧
    ((data_steps toy_realloc (bfi_new [] []) [false]).1 = 1 ∧
      (((data_steps toy_realloc (bfi_new [] []) [false]).2.data_mem.getD 0 0 : Nat) : Int)
        = 255) := by
  have h1 := data_inc_dec_mod_256 toy_realloc toy_realloc_ok (bfi_new [] []) 0
    (List.replicate 256 true) ⟨rfl, fun _ => rfl, by decide⟩ rfl (by decide) (by decide)
    (by decide)
  have h2 := data_inc_dec_mod_256 toy_realloc toy_realloc_ok (bfi_new [] []) 0
    [false] ⟨rfl, fun _ => rfl, by decide⟩ rfl (by decide) (by decide) (by decide)
  refine ⟨⟨h1.1, ?_⟩, ⟨h2.1, ?_⟩⟩
  · rw [h1.2.2]
    decide!
  · rw [h2.2.2]
    decide!

theorem script_cap_gt (n : Nat) (h : n ≠ 0) : n < script_cap n := by
  unfold script_cap
  rw [if_neg h]
  omega

theorem script_cap_ge (n : Nat) : n ≤ script_cap n := by
  by_cases h : n = 0
  · subst h; exact Nat.zero_le _
  · exact Nat.le_of_lt (script_cap_gt n h)

theorem script_cap_succ (n : Nat) :
    script_cap (n + 1) =
      if n ≠ 0 ∧ n < script_cap n - 1 then script_cap n else max (n + 1) (script_cap n + 256) := by
  unfold script_cap
  by_cases h : n = 0
  · subst h; decide
  · simp only [h, if_false, Nat.succ_ne_zero, ne_eq, not_false_eq_true, true_and]
    split <;> omega

theorem set_length_append_zeros (l : List Nat) (a b c : Nat) (h : 0 < a + b) :
    ((l ++ List.replicate a 0) ++ List.replicate b 0).set l.length c =
      (l ++ [c]) ++ List.replicate (a + b - 1) 0 := by
  rw [List.append_assoc, List.append_replicate_replicate]
  induction l with
  | nil =>
    obtain ⟨k, hk⟩ : ∃ k, a + b = k + 1 := ⟨a + b - 1, by omega⟩
    rw [hk]
    simp [List.replicate_succ]
  | cons x l ih => simp [ih]

theorem is_bf_char_iff (c : Nat) :
    is_bf_char c = true ↔ c ∈ [60, 62, 43, 45, 46, 44, 91, 93] := by
  unfold is_bf_char
  constructor
  · intro h
    simp only [Bool.and_eq_true, List.contains_eq_any_beq, List.any_eq_true, beq_iff_eq] at h
    obtain ⟨_, x, hx, rfl⟩ := h
    exact hx
  · intro h
    simp only [List.mem_cons, List.mem_singleton, List.not_mem_nil, or_false] at h
    rcases h with h | h | h | h | h | h | h | h <;> subst h <;> decide

/-- Appending an instruction byte with `bfi_script_put_char`. -/
theorem put_char_instr (realloc : Nat → Nat → Nat) (hra : AllocOK realloc) (s : bfi_state_t)
    (q : Nat) (l : List Nat) (len c : Nat) (hc : is_bf_char c = true) (he : s.errored = 0)
    (hq : BaseOK realloc q l.length) (hl : l.length + 512 ≤ 2 ^ 62)
    (hlen : len + 1 < PTR_MOD) :
    ∃ q', BaseOK realloc q' (l.length + 1) ∧
      bfi_script_put_char realloc (with_script s q l len) c =
        (1, with_script s q' (l ++ [c]) (len + 1)) := by
  obtain ⟨hq0, hq1, hqf⟩ := hq
  have hcapge := script_cap_ge l.length
  have hcap_le : script_cap l.length ≤ l.length + 256 := by
    unfold script_cap; split <;> omega
  have hwf : (script_buf (with_script s q l (len + 1))).WF := by
    refine ⟨?_, ?_, hqf⟩
    · show (l ++ List.replicate _ 0).length = script_cap l.length
      simp only [List.length_append, List.length_replicate]
      omega
    · intro h
      show script_cap l.length = 0
      have h' : q = 0 := h
      by_cases hn : l.length = 0
      · rw [hn]; rfl
      · exact absurd h' (hq1 hn).1
  have hp : (script_buf (with_script s q l (len + 1))).base + l.length < PTR_MOD := by
    show q + l.length < PTR_MOD
    omega
  have hg : GrowthOK realloc (script_buf (with_script s q l (len + 1))) l.length :=
    GrowthOK_of_AllocOK realloc hra _ _ (by omega)
      (by show script_cap l.length + 256 ≤ _; omega)
  obtain ⟨q', hq', hqo, hqf', hpg, hag, hset⟩ :=
    set_byte_ok realloc (script_buf (with_script s q l (len + 1))) l.length c hwf rfl hp hg
  have hgrown : grown (decide ((script_buf (with_script s q l (len + 1))).base = 0))
      (script_buf (with_script s q l (len + 1))).alloc l.length = script_cap (l.length + 1) := by
    rw [grown_eq_ite, script_cap_succ]
    show (if q ≠ 0 ∧ l.length < script_cap l.length - 1 then script_cap l.length
      else max (l.length + 1) (script_cap l.length + 256)) = _
    by_cases hn : l.length = 0
    · have : q = 0 := hq0 hn
      simp [hn, this]
    · have : q ≠ 0 := (hq1 hn).1
      simp [hn, this]
  rw [hgrown] at hset hqf' hpg hag
  refine ⟨q', ⟨fun h => absurd h (Nat.succ_ne_zero _), fun _ => ⟨hq', ?_⟩, hqf'⟩, ?_⟩
  · rcases hqo with h | ⟨n, h⟩
    · have h' : q' = q := h
      have hn : l.length ≠ 0 := by
        intro hn
        exact hq' (h'.trans (hq0 hn))
      obtain ⟨_, p0, n0, hpn⟩ := hq1 hn
      exact ⟨p0, n0, h'.trans hpn⟩
    · exact ⟨_, n, h⟩
  · have hmod1 : (len + 1) % PTR_MOD = len + 1 := Nat.mod_eq_of_lt hlen
    have hmod2 : (q' + l.length + 1) % PTR_MOD = q' + (l.length + 1) := by
      rw [Nat.mod_eq_of_lt (by omega)]; omega
    have hmem : ((l ++ List.replicate (script_cap l.length - l.length) 0) ++
        List.replicate (script_cap (l.length + 1) - script_cap l.length) 0).set l.length c
        = (l ++ [c]) ++ List.replicate (script_cap (l.length + 1) - (l.length + 1)) 0 := by
      have hag' : script_cap l.length ≤ script_cap (l.length + 1) := hag
      rw [set_length_append_zeros _ _ _ _ (by omega)]
      congr 2
      omega
    have hstate : { with_script s q l len with
        script_read_length := ((with_script s q l len).script_read_length + 1) % PTR_MOD }
        = with_script s q l (len + 1) := by
      show { with_script s q l len with script_read_length := (len + 1) % PTR_MOD } = _
      rw [hmod1]
      rfl
    unfold bfi_script_put_char
    have he' : (with_script s q l len).errored = 0 := he
    rw [if_neg (by rw [he']; exact fun h => h rfl)]
    simp only [hstate, hc, if_true, hset]
    rw [if_neg (by decide)]
    simp only [set_script_buf, with_script, script_buf, hmod2, hmem, List.length_append,
      List.length_singleton]

/-- Reading a comment byte with `bfi_script_put_char`. -/
theorem put_char_comment (realloc : Nat → Nat → Nat) (s : bfi_state_t)
    (q : Nat) (l : List Nat) (len c : Nat) (hc : is_bf_char c = false) (he : s.errored = 0)
    (hlen : len + 1 < PTR_MOD) :
    bfi_script_put_char realloc (with_script s q l len) c = (1, with_script s q l (len + 1)) := by
  unfold bfi_script_put_char
  have he' : (with_script s q l len).errored = 0 := he
  rw [if_neg (by rw [he']; exact fun h => h rfl)]
  simp only [hc, Bool.false_eq_true, if_false]
  show (1, { with_script s q l len with script_read_length := (len + 1) % PTR_MOD }) = _
  rw [Nat.mod_eq_of_lt hlen]
  rfl

/-- The loop of `bfi_script_from_buffer` appends the instruction bytes of the source, in
order, and counts every source byte. -/
theorem load_loop (realloc : Nat → Nat → Nat) (hra : AllocOK realloc) (s : bfi_state_t)
    (he : s.errored = 0) (src : List Nat) :
    ∀ (q : Nat) (l : List Nat) (len : Nat), BaseOK realloc q l.length →
      l.length + src.length + 512 ≤ 2 ^ 62 → len + src.length < PTR_MOD →
      ∃ q', BaseOK realloc q' (l ++ src.filter is_bf_char).length ∧
        script_from_buffer_loop realloc (with_script s q l len) src =
          (1, with_script s q' (l ++ src.filter is_bf_char) (len + src.length)) := by
  induction src with
  | nil =>
    intro q l len hq _ _
    exact ⟨q, by simpa using hq, by simp [script_from_buffer_loop]⟩
  | cons c rest ih =>
    intro q l len hq hl hlen
    simp only [List.length_cons] at hl hlen
    by_cases hc : is_bf_char c = true
    · obtain ⟨q1, hq1, hput⟩ :=
        put_char_instr realloc hra s q l len c hc he hq (by omega) (by omega)
      obtain ⟨q2, hq2, hloop⟩ := ih q1 (l ++ [c]) (len + 1)
        (by simpa using hq1) (by simp only [List.length_append, List.length_singleton]; omega)
        (by omega)
      refine ⟨q2, ?_, ?_⟩
      · simpa [List.filter_cons, hc] using hq2
      · unfold script_from_buffer_loop
        simp only [hput]
        rw [if_neg (by decide), hloop]
        simp [List.filter_cons, hc, Nat.add_assoc, Nat.add_comm 1]
    · have hc' : is_bf_char c = false := by simpa using hc
      have hput := put_char_comment realloc s q l len c hc' he (by omega)
      obtain ⟨q2, hq2, hloop⟩ := ih q l (len + 1) hq (by omega) (by omega)
      refine ⟨q2, ?_, ?_⟩
      · simpa [List.filter_cons, hc'] using hq2
      · unfold script_from_buffer_loop
        simp only [hput]
        rw [if_neg (by decide), hloop]
        simp [List.filter_cons, hc', Nat.add_assoc, Nat.add_comm 1]

theorem bfi_new_eq_with_script (heap : List (Nat × Nat)) (input : List Nat) :
    bfi_new heap input = with_script (bfi_new heap input) 0 [] 0 := rfl

/-- Loading a source into a new engine: the exact state left. -/
theorem load_new (realloc : Nat → Nat → Nat) (hra : AllocOK realloc)
    (heap : List (Nat × Nat)) (input src : List Nat) (hsrc : src.length < 2 ^ 31) :
    ∃ q, BaseOK realloc q (src.filter is_bf_char).length ∧
      bfi_script_from_buffer realloc (bfi_new heap input) src =
        (1, with_script (bfi_new heap input) q (src.filter is_bf_char) src.length) := by
  have h31 : (2 : Nat) ^ 31 = 2147483648 := by norm_num
  have h62 : (2 : Nat) ^ 62 = 4611686018427387904 := by norm_num
  obtain ⟨q, hq, hloop⟩ := load_loop realloc hra (bfi_new heap input) rfl src 0 [] 0
    ⟨fun _ => rfl, fun h => absurd rfl h, by decide⟩
    (by simp only [List.length_nil]; omega) (by rw [PTR_MOD_eq]; omega)
  simp only [List.nil_append, Nat.zero_add, List.length_nil] at hloop hq
  have hloop' : script_from_buffer_loop realloc (bfi_new heap input) src =
      (1, with_script (bfi_new heap input) q (src.filter is_bf_char) src.length) := hloop
  refine ⟨q, hq, ?_⟩
  unfold bfi_script_from_buffer
  rw [if_neg (by exact fun h => h rfl), hloop']

/-- Loading a source with the allocator `toy_realloc`: the script block, if any, is at
address 4096. -/
theorem load_new_toy (heap : List (Nat × Nat)) (input src : List Nat)
    (hsrc : src.length < 2 ^ 31) :
    bfi_script_from_buffer toy_realloc (bfi_new heap input) src =
      (1, with_script (bfi_new heap input)
            (if (src.filter is_bf_char).length = 0 then 0 else 4096)
            (src.filter is_bf_char) src.length) := by
  obtain ⟨q, ⟨hq0, hq1, _⟩, hload⟩ := load_new toy_realloc toy_realloc_ok heap input src hsrc
  rw [hload]
  by_cases hn : (src.filter is_bf_char).length = 0
  · rw [if_pos hn, hq0 hn]
  · rw [if_neg hn]
    obtain ⟨_, p0, n0, h⟩ := hq1 hn
    rw [h]
    rfl

theorem drop_eq_cons_iff (l : List Nat) (n c : Nat) (cs : List Nat) (h : l.drop n = c :: cs) :
    n < l.length ∧ l.getD n 0 = c ∧ l.drop (n + 1) = cs := by
  have hn : n < l.length := by
    by_contra hc
    rw [List.drop_eq_nil_of_le (by omega)] at h
    exact List.noConfusion h
  rw [List.drop_eq_getElem_cons hn] at h
  injection h with h1 h2
  refine ⟨hn, ?_, h2⟩
  rw [List.getD_eq_getElem?_getD, List.getElem?_eq_getElem hn]
  exact h1

/-- The byte read through the instruction cursor when it is at offset `i` of the block. -/
theorem script_peek_at (s : bfi_state_t) (i : Nat) (hb : s.script ≠ 0)
    (hi : i < s.script_mem.length) :
    script_peek { s with script_p := s.script + i } = s.script_mem.getD i 0 := by
  unfold script_peek
  exact load_in_block _ i hb rfl hi

/-- The forward loop of `bfi_test`, started at offset `i` of the script block, does what
`scan_fwd` does on the bytes after offset `i`, as long as it ends inside the block. -/
theorem seek_forward_scan (s : bfi_state_t) (hb : s.script ≠ 0)
    (hfit : s.script + s.script_mem.length < PTR_MOD) (cs : List Nat) :
    ∀ (i nb fuel j nb' : Nat), s.script_mem.drop (i + 1) = cs → cs.length ≤ fuel →
      scan_fwd cs nb (i + 1) = some (j, nb') →
      seek_forward fuel { s with script_p := s.script + i } nb =
        ({ s with script_p := s.script + j }, nb') := by
  induction cs with
  | nil =>
    intro i nb fuel j nb' _ _ h
    simp [scan_fwd] at h
  | cons c cs ih =>
    intro i nb fuel j nb' hdrop hfuel hscan
    obtain ⟨hi, hget, hdrop'⟩ := drop_eq_cons_iff _ _ _ _ hdrop
    obtain ⟨fuel', rfl⟩ : ∃ f, fuel = f + 1 := ⟨fuel - 1, by simp at hfuel; omega⟩
    have hstep : ({ s with script_p := s.script + i } : bfi_state_t).script_p + 1
        = s.script + (i + 1) := by
      show s.script + i + 1 = _
      omega
    have hs1 : ({ ({ s with script_p := s.script + i } : bfi_state_t) with
        script_p := (({ s with script_p := s.script + i } : bfi_state_t).script_p + 1) % PTR_MOD }
        : bfi_state_t) = { s with script_p := s.script + (i + 1) } := by
      rw [hstep, Nat.mod_eq_of_lt (by omega)]
    have hpeek := script_peek_at s (i + 1) hb hi
    rw [hget] at hpeek
    rw [seek_forward]
    simp only [hs1, hpeek]
    rw [scan_fwd] at hscan
    by_cases hc : 0 < c ∧ c < 128
    · rw [if_pos hc] at hscan ⊢
      by_cases hz : (if c = 91 then ((if c = 93 then (nb + 255) % 256 else nb) + 1) % 256
          else (if c = 93 then (nb + 255) % 256 else nb)) = 0
      · simp only [hz, if_true] at hscan ⊢
        injection hscan with hscan
        injection hscan with h1 h2
        rw [← h1, ← h2]
      · simp only [hz, if_false] at hscan ⊢
        exact ih (i + 1) _ fuel' j nb' hdrop' (by simp at hfuel; omega) hscan
    · rw [if_neg hc] at hscan ⊢
      injection hscan with hscan
      injection hscan with h1 h2
      rw [← h1, ← h2]

theorem scan_fwd_bound (cs : List Nat) :
    ∀ (nb k j nb' : Nat), scan_fwd cs nb k = some (j, nb') → k ≤ j ∧ j < k + cs.length := by
  induction cs with
  | nil => intro nb k j nb' h; simp [scan_fwd] at h
  | cons c cs ih =>
    intro nb k j nb' h
    rw [scan_fwd] at h
    simp only [List.length_cons]
    by_cases hc : 0 < c ∧ c < 128
    · rw [if_pos hc] at h
      by_cases hz : (if c = 91 then ((if c = 93 then (nb + 255) % 256 else nb) + 1) % 256
          else (if c = 93 then (nb + 255) % 256 else nb)) = 0
      · simp only [hz, if_true] at h
        injection h with h
        injection h with h1 h2
        omega
      · simp only [hz, if_false] at h
        have := ih _ _ _ _ h
        omega
    · rw [if_neg hc] at h
      injection h with h
      injection h with h1 h2
      omega

theorem take_succ_reverse (l : List Nat) (i : Nat) (h : i < l.length) :
    (l.take (i + 1)).reverse = l.getD i 0 :: (l.take i).reverse := by
  rw [List.take_succ, List.getElem?_eq_getElem h, List.getD_eq_getElem?_getD,
    List.getElem?_eq_getElem h]
  simp

/-- The backward loop of `bfi_test`, started at offset `i` of the script block, does what
`scan_bwd` does on the bytes before offset `i`. -/
theorem seek_backward_scan (s : bfi_state_t) (hb : s.script ≠ 0)
    (hfit : s.script + s.script_mem.length < PTR_MOD) :
    ∀ (i nb fuel : Nat), i ≤ s.script_mem.length → i < fuel →
      seek_backward fuel { s with script_p := s.script + i } nb =
        ({ s with script_p :=
            bwd_cursor s.script (scan_bwd (s.script_mem.take i).reverse nb (i - 1)).1 },
          (scan_bwd (s.script_mem.take i).reverse nb (i - 1)).2) := by
  intro i
  induction i with
  | zero =>
    intro nb fuel _ hfuel
    obtain ⟨fuel', rfl⟩ : ∃ f, fuel = f + 1 := ⟨fuel - 1, by omega⟩
    rw [seek_backward]
    have hp : (s.script + 0 + PTR_MOD - 1) % PTR_MOD = s.script - 1 := by
      rw [PTR_MOD_eq] at hfit ⊢
      omega
    simp only [hp]
    rw [if_neg (by show ¬ s.script ≤ s.script - 1; omega)]
    simp [scan_bwd, bwd_cursor]
  | succ i ih =>
    intro nb fuel hi hfuel
    obtain ⟨fuel', rfl⟩ : ∃ f, fuel = f + 1 := ⟨fuel - 1, by omega⟩
    rw [seek_backward]
    have hp : (s.script + (i + 1) + PTR_MOD - 1) % PTR_MOD = s.script + i := by
      rw [PTR_MOD_eq] at hfit ⊢
      omega
    simp only [hp]
    rw [if_pos (by show s.script ≤ s.script + i; omega)]
    have hpeek := script_peek_at s i hb (by omega)
    simp only [hpeek]
    rw [take_succ_reverse _ _ (by omega), scan_bwd]
    simp only [Nat.add_sub_cancel]
    by_cases hz : (if s.script_mem.getD i 0 = 91 then (nb + 255) % 256
        else if s.script_mem.getD i 0 = 93 then (nb + 1) % 256 else nb) = 0
    · simp only [hz, if_true, bwd_cursor]
    · simp only [hz, if_false]
      exact ih _ fuel' (by omega) (by omega)

theorem state_eq_with_script_p (s : bfi_state_t) (i : Nat) (hp : s.script_p = s.script + i) :
    s = { s with script_p := s.script + i } := by
  cases s
  simp only at hp
  subst hp
  rfl

/-- A step at a `[` with the current cell reading zero: the forward scan decides. -/
theorem cycle_open_zero (realloc : Nat → Nat → Nat) (s : bfi_state_t) (i j nb' : Nat)
    (hb : s.script ≠ 0) (hfit : s.script + s.script_mem.length < PTR_MOD)
    (hp : s.script_p = s.script + i) (hi : i < s.script_mem.length)
    (hc : s.script_mem.getD i 0 = 91) (hd : (bfi_data_get s).2.1 = 0)
    (hscan : scan_fwd (s.script_mem.drop (i + 1)) 1 (i + 1) = some (j, nb')) :
    bfi_cycle realloc s =
      if nb' = 0 then (1, { s with script_p := s.script + j + 1 })
      else (0, { s with script_p := s.script + j, errored := PTR_MOD - 1 }) := by
  have hj := scan_fwd_bound _ _ _ _ _ hscan
  simp only [List.length_drop] at hj
  have hseek := seek_forward_scan s hb hfit _ i 1 PTR_MOD j nb' rfl
    (by simp only [List.length_drop]; omega) hscan
  rw [← state_eq_with_script_p s i hp] at hseek
  have hpeek : script_peek s = 91 := by
    rw [state_eq_with_script_p s i hp, script_peek_at s i hb hi, hc]
  have hp0 : s.script_p ≠ 0 := by rw [hp]; omega
  unfold bfi_cycle
  rw [if_neg hp0]
  simp only [hpeek]
  rw [if_neg (by decide), if_neg (by decide), if_neg (by decide), if_neg (by decide),
    if_neg (by decide), if_neg (by decide), if_neg (by decide), if_pos (by decide)]
  unfold bfi_test
  simp only [bfi_data_get_fst, bfi_data_get_state, hd, hpeek, hseek]
  have hmod : (s.script + j + 1) % PTR_MOD = s.script + j + 1 := Nat.mod_eq_of_lt (by omega)
  by_cases hz : nb' = 0
  · simp [hz, advance, hmod]
  · simp [hz, run_fault]

/-- A step at a `]` with the current cell reading nonzero: the backward scan decides. -/
theorem cycle_close_nonzero (realloc : Nat → Nat → Nat) (s : bfi_state_t) (i : Nat)
    (hb : s.script ≠ 0) (hfit : s.script + s.script_mem.length < PTR_MOD)
    (hp : s.script_p = s.script + i) (hi : i < s.script_mem.length)
    (hc : s.script_mem.getD i 0 = 93) (hd : (bfi_data_get s).2.1 ≠ 0) :
    bfi_cycle realloc s =
      if (scan_bwd (s.script_mem.take i).reverse 1 (i - 1)).2 = 0 then
        (1, { s with script_p :=
          (bwd_cursor s.script (scan_bwd (s.script_mem.take i).reverse 1 (i - 1)).1 + 1)
            % PTR_MOD })
      else
        (0, { s with
          script_p := bwd_cursor s.script (scan_bwd (s.script_mem.take i).reverse 1 (i - 1)).1
          errored := PTR_MOD - 1 }) := by
  have hseek := seek_backward_scan s hb hfit i 1 PTR_MOD (by omega) (by omega)
  rw [← state_eq_with_script_p s i hp] at hseek
  have hpeek : script_peek s = 93 := by
    rw [state_eq_with_script_p s i hp, script_peek_at s i hb hi, hc]
  have hp0 : s.script_p ≠ 0 := by rw [hp]; omega
  unfold bfi_cycle
  rw [if_neg hp0]
  simp only [hpeek]
  rw [if_neg (by decide), if_neg (by decide), if_neg (by decide), if_neg (by decide),
    if_neg (by decide), if_neg (by decide), if_neg (by decide), if_pos (by decide)]
  unfold bfi_test
  simp only [bfi_data_get_fst, bfi_data_get_state, hpeek, hseek]
  by_cases hz : (scan_bwd (s.script_mem.take i).reverse 1 (i - 1)).2 = 0
  · simp [hz, hd, advance]
  · simp [hz, hd, run_fault]


theorem loaded_eq (heap : List (Nat × Nat)) (src : List Nat) (hsrc : src.length < 2 ^ 31) :
    loaded heap src =
      with_script (bfi_new heap []) (if (src.filter is_bf_char).length = 0 then 0 else 4096)
        (src.filter is_bf_char) src.length := by
  unfold loaded
  rw [load_new_toy heap [] src hsrc]

theorem deep_loops_length : deep_loops.length = 512 := by
  simp only [deep_loops, List.length_append, List.length_replicate]

theorem deep_loops_filter : deep_loops.filter is_bf_char = deep_loops := by
  apply List.filter_eq_self.mpr
  intro a ha
  simp only [deep_loops, List.mem_append, List.mem_replicate] at ha
  rcases ha with ⟨_, rfl⟩ | ⟨_, rfl⟩ <;> decide

theorem loaded_deep_loops :
    loaded [] deep_loops = with_script (bfi_new [] []) 4096 deep_loops 512 := by
  rw [loaded_eq _ _ (by rw [deep_loops_length]; decide), deep_loops_filter, deep_loops_length]
  rfl

theorem deep_start_eq :
    deep_start =
      { bfi_new [] [] with
          script := 4096
          script_alloc := 768
          script_p := 4096
          script_read_length := 512
          script_mem := deep_loops ++ List.replicate 256 0 } := by
  unfold deep_start
  rw [loaded_deep_loops]
  simp only [with_script, deep_loops_length, script_cap, bfi_restart, bfi_new]
  rfl

theorem deep_end_eq :
    deep_end =
      { bfi_new [] [] with
          data := 4096
          data_alloc := 256
          data_p := 4096
          data_mem := 1 :: List.replicate 255 0
          script := 4096
          script_alloc := 768
          script_p := 4096 + 511
          script_read_length := 512
          script_mem := deep_loops ++ List.replicate 256 0 } := by
  unfold deep_end
  rw [deep_start_eq]
  decide!

theorem deep_open_length : deep_open.length = 256 := by
  simp only [deep_open, List.length_replicate]

theorem deep_open_filter : deep_open.filter is_bf_char = deep_open := by
  apply List.filter_eq_self.mpr
  intro a ha
  simp only [deep_open, List.mem_replicate] at ha
  obtain ⟨_, rfl⟩ := ha
  decide

theorem deep_open_start_eq :
    deep_open_start =
      { bfi_new [] [] with
          script := 4096
          script_alloc := 512
          script_p := 4096
          script_read_length := 256
          script_mem := deep_open ++ List.replicate 256 0 } := by
  unfold deep_open_start
  rw [loaded_eq _ _ (by rw [deep_open_length]; decide), deep_open_filter, deep_open_length]
  simp only [with_script, deep_open_length, script_cap, bfi_restart, bfi_new]
  rfl

/-- C1 at 256 nested loops: the engine loaded with 256 `[` followed by 256 `]` is at the
outermost `[` (offset 0), whose matching `]` is at offset 511, and the current cell reads
zero; the step succeeds and records no fault, but the forward scan stops on the `[` at
offset 255, where the 8-bit counter `nb` is back to zero, and the instruction cursor ends at
offset 256, in the middle of the loop body, not at offset 512. -/
theorem deep_loops_forward_scan_stops_early :
    deep_start.script_p = deep_start.script + 0 ∧
    deep_start.script_mem.getD 0 0 = 91 ∧
    matching_close deep_start.script_mem 0 = some 511 ∧
    (bfi_data_get deep_start).2.1 = 0 ∧
    bfi_cycle toy_realloc deep_start =
      (1, { deep_start with script_p := deep_start.script + 256 }) ∧
    deep_start.errored = 0 ∧ deep_start.script_mem.getD 255 0 = 91 := by
  have h := cycle_open_zero toy_realloc deep_start 0 255 0
  rw [deep_start_eq] at h ⊢
  refine ⟨by decide!, by decide!, by decide!, by decide!, ?_, by decide!, by decide!⟩
  exact h (by decide!) (by decide!) (by decide!) (by decide!) (by decide!) (by decide!)
    (by decide!)

/-- C2 at 256 nested loops: the engine loaded with 256 `[` followed by 256 `]` is at the
outermost `]` (offset 511), whose matching `[` is at offset 0, and the current cell reads 1;
the step succeeds and records no fault, but the backward scan stops on the `]` at offset 256,
where the 8-bit counter `nb` is back to zero, and the instruction cursor ends at offset 257,
not at offset 1. -/
theorem deep_loops_backward_scan_stops_early :
    deep_end.script_p = deep_end.script + 511 ∧
    deep_end.script_mem.getD 511 0 = 93 ∧
    matching_open deep_end.script_mem 511 = some 0 ∧
    (bfi_data_get deep_end).2.1 = 1 ∧
    bfi_cycle toy_realloc deep_end =
      (1, { deep_end with script_p := deep_end.script + 257 }) ∧
    deep_end.errored = 0 ∧ deep_end.script_mem.getD 256 0 = 93 := by
  have h := cycle_close_nonzero toy_realloc deep_end 511
  rw [deep_end_eq] at h ⊢
  refine ⟨by decide!, by decide!, by decide!, by decide!, ?_, by decide!, by decide!⟩
  rw [h (by decide!) (by decide!) (by decide!) (by decide!) (by decide!) (by decide!)]
  decide!

/-- C3 at 256 unmatched `[`: the engine loaded with 256 `[` and nothing else is at the first
`[`, which has no matching `]`, and the current cell reads zero; the step reports success and
records no fault (the 8-bit counter `nb` is back to zero on the last `[`), and the run then
halts on the end-of-script byte with the fault indicator still 0. -/
theorem deep_open_unmatched_reports_success :
    deep_open_start.script_p = deep_open_start.script + 0 ∧
    deep_open_start.script_mem.getD 0 0 = 91 ∧
    matching_close deep_open_start.script_mem 0 = none ∧
    (bfi_data_get deep_open_start).2.1 = 0 ∧
    bfi_cycle toy_realloc deep_open_start =
      (1, { deep_open_start with script_p := deep_open_start.script + 256 }) ∧
    run_loop toy_realloc 2 deep_open_start =
      some { deep_open_start with script_p := deep_open_start.script + 256 } ∧
    deep_open_start.errored = 0 := by
  have h := cycle_open_zero toy_realloc deep_open_start 0 255 0
  rw [deep_open_start_eq] at h ⊢
  have hc := h (by decide!) (by decide!) (by decide!) (by decide!) (by decide!) (by decide!)
    (by decide!)
  refine ⟨by decide!, by decide!, by decide!, by decide!, hc, ?_, by decide!⟩
  rw [run_loop, hc]
  decide!


theorem get_byte_below (b : Buf) (h : b.cur < b.base) : (_buffer_get_byte b).2.1 = 0 := by
  unfold _buffer_get_byte
  rw [if_pos (Or.inr (Or.inl h))]

theorem get_byte_beyond (b : Buf) (h : (b.base + b.alloc) % PTR_MOD < b.cur) :
    (_buffer_get_byte b).2.1 = 0 := by
  unfold _buffer_get_byte
  rw [if_pos (Or.inr (Or.inr h))]

/-- A read with the cursor exactly one past the last byte of the block takes the byte from
outside the block. -/
theorem get_byte_one_past_end (b : Buf) (hwf : b.WF) (hb : b.base ≠ 0)
    (hcur : b.cur = b.base + b.alloc) :
    (_buffer_get_byte b).2.1 = (b.heap.lookup b.cur).getD 0 := by
  have hfit := hwf.fit
  have hlen := hwf.len
  unfold _buffer_get_byte
  rw [if_neg, Buf.load, if_neg]
  · intro h
    omega
  · rw [Nat.mod_eq_of_lt hfit]
    intro h
    omega

theorem src_past_end_length : src_past_end.length = 258 := by
  simp only [src_past_end, List.length_cons, List.length_append, List.length_replicate,
    List.length_nil]

theorem src_past_end_filter : src_past_end.filter is_bf_char = src_past_end := by
  apply List.filter_eq_self.mpr
  intro a ha
  simp only [src_past_end, List.mem_cons, List.mem_append, List.mem_replicate,
    List.mem_singleton, List.not_mem_nil, or_false] at ha
  rcases ha with rfl | ⟨_, rfl⟩ | rfl <;> decide

/-- C5 at the position equal to the capacity: after `+` and 256 times `>` the tape has 256
bytes and the data cursor is at offset 256, a position never written; the read made by `.`
does not return zero: it returns the byte lying after the block, here 7, which the run
prints. -/
theorem read_at_capacity_not_zero :
    bfi_run toy_realloc 300 (loaded [(4352, 7)] src_past_end) = some past_end_final ∧
    past_end_final.data_p = past_end_final.data + past_end_final.data_alloc ∧
    past_end_final.data_mem.length = past_end_final.data_alloc ∧
    bfi_data_get past_end_final = (1, 7, past_end_final) ∧
    past_end_final.out_stream = some [7] := by
  refine ⟨?_, by decide!, by decide!, by decide!, by decide!⟩
  rw [loaded_eq _ _ (by rw [src_past_end_length]; decide), src_past_end_filter,
    src_past_end_length]
  decide!


theorem check_size_below (realloc : Nat → Nat → Nat) (b : Buf) (h : b.cur < b.base) :
    _buffer_check_size realloc b = (0, b) := by
  unfold _buffer_check_size
  rw [if_pos h]

/-- A step executing `+`, `-` or `,` (with an input byte available) while the data cursor is
below the start of the allocated tape: failure, a run fault, no advance, and the tape as it
was (`,` has taken its byte off the input). -/
theorem cycle_mutate_below_block (realloc : Nat → Nat → Nat) (s : bfi_state_t)
    (hp : s.script_p ≠ 0) (hleft : s.data_p < s.data) :
    (script_peek s = 43 → bfi_cycle realloc s = (0, { s with errored := PTR_MOD - 1 })) ∧
    (script_peek s = 45 → bfi_cycle realloc s = (0, { s with errored := PTR_MOD - 1 })) ∧
    (∀ d rest, script_peek s = 44 → s.in_stream = some (d :: rest) →
      bfi_cycle realloc s = (0, { s with errored := PTR_MOD - 1, in_stream := some rest })) := by
  have hcs : _buffer_check_size realloc (data_buf s) = (0, data_buf s) :=
    check_size_below realloc _ hleft
  refine ⟨?_, ?_, ?_⟩
  · intro hc
    unfold bfi_cycle
    rw [if_neg hp]
    simp [hc, bfi_data_inc, _buffer_delta_byte, hcs, run_fault, set_data_buf_data_buf]
  · intro hc
    unfold bfi_cycle
    rw [if_neg hp]
    simp [hc, bfi_data_dec, _buffer_delta_byte, hcs, run_fault, set_data_buf_data_buf]
  · intro d rest hc hin
    have hcs' : _buffer_check_size realloc (data_buf { s with in_stream := some rest })
        = (0, data_buf { s with in_stream := some rest }) :=
      check_size_below realloc _ hleft
    unfold bfi_cycle
    rw [if_neg hp]
    simp [hc, bfi_data_read, hin, bfi_data_set, _buffer_set_byte, hcs', run_fault,
      set_data_buf_data_buf]

/-- C8 on the script `<+`: after the step executing `<` on a new engine the data cursor is
left of the origin of a tape not yet allocated (address `2 ^ 64 - 1`); the step executing
`+` then returns 1, records no fault and advances: `_buffer_check_size` does not refuse the
cursor, allocates 256 bytes at address 4096, and the byte 1 is stored at address 4095,
outside the block; the run ends with the fault indicator 0. -/
theorem left_inc_unallocated_no_fault :
    LeftOfOrigin left_inc_state ∧ left_inc_state.data = 0 ∧
    left_inc_state.data_p = PTR_MOD - 1 ∧ script_peek left_inc_state = 43 ∧
    bfi_cycle toy_realloc left_inc_state =
      (1, { left_inc_state with
              data := 4096
              data_alloc := 256
              data_p := 4095
              data_mem := List.replicate 256 0
              heap := [(4095, 1)]
              script_p := left_inc_state.script_p + 1 }) ∧
    (bfi_run toy_realloc 3 (loaded [] src_left_inc)).map (fun s => s.errored) = some 0 := by
  have hl : loaded [] src_left_inc = with_script (bfi_new [] []) 4096 src_left_inc 2 := by
    rw [loaded_eq _ _ (by decide)]
    rfl
  unfold left_inc_state
  rw [hl]
  decide!

/-- C9 on the script `<.`: after the step executing `<` on a new engine the data cursor is
left of the origin; the step executing `.` then returns 1, records no fault and writes one
byte, zero, to the output. -/
theorem left_out_no_fault :
    LeftOfOrigin left_out_state ∧ script_peek left_out_state = 46 ∧
    left_out_state.out_stream = some [] ∧
    bfi_cycle toy_realloc left_out_state =
      (1, { left_out_state with
              script_p := left_out_state.script_p + 1
              out_stream := some [0] }) ∧
    left_out_state.errored = 0 := by
  have hl : loaded [] src_left_out = with_script (bfi_new [] []) 4096 src_left_out 2 := by
    rw [loaded_eq _ _ (by decide)]
    rfl
  unfold left_out_state
  rw [hl]
  decide!

theorem get_byte_left_of_origin (s : bfi_state_t) (h : LeftOfOrigin s) :
    bfi_data_get s = (1, 0, s) := by
  have h0 : (_buffer_get_byte (data_buf s)).2.1 = 0 := by
    rcases h with ⟨_, h⟩ | ⟨h1, h2, h3⟩
    · exact get_byte_below _ h
    · apply get_byte_beyond
      show (s.data + s.data_alloc) % PTR_MOD < s.data_p
      rw [h1, h2]
      have : (2 : Nat) ^ 63 = 9223372036854775808 := by norm_num
      rw [PTR_MOD_eq]
      omega
  have h1 := bfi_data_get_fst s
  have h2 := bfi_data_get_state s
  have h3 : (bfi_data_get s).2.1 = 0 := h0
  rw [show bfi_data_get s = ((bfi_data_get s).1, (bfi_data_get s).2.1, (bfi_data_get s).2.2)
    from rfl, h1, h2, h3]

/-- C9 amended: for every engine state whose data cursor lies left of the tape origin and
whose output stream is open, a step executing `.` returns 1: it appends one byte, zero, to
the output, advances the instruction cursor by one, and leaves the fault indicator, the tape
and the data cursor as they were. -/
theorem cycle_write_left_of_origin (realloc : Nat → Nat → Nat) (s : bfi_state_t)
    (out : List Nat) (hp : s.script_p ≠ 0) (hc : script_peek s = 46) (hleft : LeftOfOrigin s)
    (hout : s.out_stream = some out) :
    bfi_cycle realloc s =
      (1, { s with
              script_p := (s.script_p + 1) % PTR_MOD
              out_stream := some (out ++ [0]) }) := by
  unfold bfi_cycle
  rw [if_neg hp]
  simp [hc, bfi_data_write, get_byte_left_of_origin s hleft, hout, advance]

/-- C9 amended, at the script `<.` after its first step. -/
theorem cycle_write_left_of_origin_witness :
    LeftOfOrigin left_out_state ∧
    bfi_cycle toy_realloc left_out_state =
      (1, { left_out_state with
              script_p := (left_out_state.script_p + 1) % PTR_MOD
              out_stream := some ([] ++ [0]) }) := by
  have hl : loaded [] src_left_out = with_script (bfi_new [] []) 4096 src_left_out 2 := by
    rw [loaded_eq _ _ (by decide)]
    rfl
  have h1 : left_out_state.script_p ≠ 0 := by
    unfold left_out_state; rw [hl]; decide!
  have h2 : script_peek left_out_state = 46 := by
    unfold left_out_state; rw [hl]; decide!
  have h3 : LeftOfOrigin left_out_state := by
    unfold left_out_state; rw [hl]; decide!
  have h4 : left_out_state.out_stream = some [] := by
    unfold left_out_state; rw [hl]; decide!
  exact ⟨h3, cycle_write_left_of_origin toy_realloc left_out_state [] h1 h2 h3 h4⟩


theorem filter_is_bf_char (src : List Nat) :
    src.filter is_bf_char = src.filter (fun c => decide (c ∈ symbols)) := by
  apply List.filter_congr
  intro c _
  by_cases h : c ∈ symbols
  · rw [decide_eq_true h]
    exact (is_bf_char_iff c).mpr h
  · rw [decide_eq_false h]
    cases hb : is_bf_char c
    · rfl
    · exact absurd ((is_bf_char_iff c).mp hb) h

/-- C10 on the empty source: loading succeeds and the source has `n = 0` instruction bytes,
but the capacity of the script buffer is not greater than `n`: the buffer stays unallocated,
storage null and capacity 0. -/
theorem load_empty_source_no_sentinel :
    AllocOK toy_realloc ∧
    (bfi_script_from_buffer toy_realloc (bfi_new [] []) []).1 = 1 ∧
    (([] : List Nat).filter (fun c => decide (c ∈ symbols))).length = 0 ∧
    ¬ (0 < (bfi_script_from_buffer toy_realloc (bfi_new [] []) []).2.script_alloc) ∧
    (bfi_script_from_buffer toy_realloc (bfi_new [] []) []).2.script = 0 :=
  ⟨toy_realloc_ok, by decide, by decide, by decide, by decide⟩

/-- C10 amended: for every source of fewer than `2 ^ 31` bytes (`buffer_length` is an `int`)
loaded with `bfi_script_from_buffer` into a new engine, allocation succeeding: loading
returns 1 with no fault; with `n` the number of bytes of the source among the eight symbols
`<>+-.,[]`, the script block holds exactly those bytes, in source order, at positions
`0 .. n - 1`, and the write cursor is at offset `n`; the read-length counter is the length of
the source; when `n ≥ 1` the storage is non-null, the capacity is strictly greater than `n`
and the byte at position `n` is zero, which is not an instruction symbol; when `n = 0` the
buffer stays unallocated: storage null, capacity 0, cursor null. -/
theorem script_from_buffer_spec (realloc : Nat → Nat → Nat) (hra : AllocOK realloc)
    (heap : List (Nat × Nat)) (input src : List Nat) (hsrc : src.length < 2 ^ 31) :
    ∃ n, n = (src.filter (fun c => decide (c ∈ symbols))).length ∧
      (bfi_script_from_buffer realloc (bfi_new heap input) src).1 = 1 ∧
      (bfi_script_from_buffer realloc (bfi_new heap input) src).2.errored = 0 ∧
      (bfi_script_from_buffer realloc (bfi_new heap input) src).2.script_read_length
        = src.length ∧
      (bfi_script_from_buffer realloc (bfi_new heap input) src).2.script_mem.take n
        = src.filter (fun c => decide (c ∈ symbols)) ∧
      (bfi_script_from_buffer realloc (bfi_new heap input) src).2.script_mem.length
        = (bfi_script_from_buffer realloc (bfi_new heap input) src).2.script_alloc ∧
      (bfi_script_from_buffer realloc (bfi_new heap input) src).2.script_p
        = (bfi_script_from_buffer realloc (bfi_new heap input) src).2.script + n ∧
      (n ≠ 0 →
        (bfi_script_from_buffer realloc (bfi_new heap input) src).2.script ≠ 0 ∧
        n < (bfi_script_from_buffer realloc (bfi_new heap input) src).2.script_alloc ∧
        (bfi_script_from_buffer realloc (bfi_new heap input) src).2.script_mem.getD n 0 = 0) ∧
      (n = 0 →
        (bfi_script_from_buffer realloc (bfi_new heap input) src).2.script = 0 ∧
        (bfi_script_from_buffer realloc (bfi_new heap input) src).2.script_alloc = 0 ∧
        (bfi_script_from_buffer realloc (bfi_new heap input) src).2.script_p = 0) ∧
      is_bf_char 0 = false ∧ 0 ∉ symbols := by
  obtain ⟨q, ⟨hq0, hq1, _⟩, hload⟩ := load_new realloc hra heap input src hsrc
  rw [hload, ← filter_is_bf_char]
  have hge := script_cap_ge (src.filter is_bf_char).length
  refine ⟨_, rfl, rfl, rfl, rfl, ?_, ?_, rfl, ?_, ?_, by decide, by decide⟩
  · show (src.filter is_bf_char ++ List.replicate _ 0).take _ = _
    rw [List.take_left]
  · show (src.filter is_bf_char ++ List.replicate _ 0).length = script_cap _
    simp only [List.length_append, List.length_replicate]
    omega
  · intro hn
    refine ⟨(hq1 hn).1, script_cap_gt _ hn, ?_⟩
    show (src.filter is_bf_char ++ List.replicate _ 0).getD _ 0 = 0
    rw [getD_append_zeros]
    exact getD_beyond _ _ (Nat.le_refl _)
  · intro hn
    refine ⟨hq0 hn, ?_, ?_⟩
    · show script_cap _ = 0
      rw [hn]; rfl
    · show q + _ = 0
      rw [hn, hq0 hn]

/-- C10 amended, on the source `+ [-]\n`: four instruction bytes out of six, in a block of
256 bytes. -/
theorem script_from_buffer_spec_witness :
    ∃ n, n = ([43, 32, 91, 45, 93, 10].filter (fun c => decide (c ∈ symbols))).length ∧
      (bfi_script_from_buffer toy_realloc (bfi_new [] []) [43, 32, 91, 45, 93, 10]).1 = 1 ∧
      (bfi_script_from_buffer toy_realloc (bfi_new [] []) [43, 32, 91, 45, 93, 10]).2.errored
        = 0 ∧
      (bfi_script_from_buffer toy_realloc (bfi_new [] [])
        [43, 32, 91, 45, 93, 10]).2.script_read_length = 6 := by
  obtain ⟨n, h1, h2, h3, h4, _⟩ := script_from_buffer_spec toy_realloc toy_realloc_ok [] []
    [43, 32, 91, 45, 93, 10] (by decide)
  exact ⟨n, h1, h2, h3, h4⟩


theorem find_close_bound (cs : List Nat) :
    ∀ (d k j : Nat), find_close cs d k = some j → k ≤ j ∧ j < k + cs.length := by
  induction cs with
  | nil => intro d k j h; simp [find_close] at h
  | cons c cs ih =>
    intro d k j h
    rw [find_close] at h
    simp only [List.length_cons]
    by_cases h93 : c = 93
    · rw [if_pos h93] at h
      by_cases hd : d = 0
      · rw [if_pos hd] at h
        injection h with h
        omega
      · rw [if_neg hd] at h
        have := ih _ _ _ h
        omega
    · rw [if_neg h93] at h
      by_cases h91 : c = 91
      · rw [if_pos h91] at h
        have := ih _ _ _ h
        omega
      · rw [if_neg h91] at h
        have := ih _ _ _ h
        omega

/-- While fewer than 255 `[` lie between the brackets, the forward loop of `bfi_test`, with
its 8-bit counter, stops exactly on the matching `]` with the counter at zero. -/
theorem scan_fwd_of_find_close (cs : List Nat) :
    ∀ (d k j : Nat), find_close cs d k = some j →
      (∀ c ∈ cs.take (j + 1 - k), 0 < c ∧ c < 128) →
      d + (cs.take (j + 1 - k)).count 91 < 255 →
      scan_fwd cs (d + 1) k = some (j, 0) := by
  induction cs with
  | nil => intro d k j h; simp [find_close] at h
  | cons c cs ih =>
    intro d k j h hpos hcnt
    have hb := find_close_bound _ _ _ _ h
    obtain ⟨m, hm⟩ : ∃ m, j + 1 - k = m + 1 := ⟨j - k, by omega⟩
    rw [hm, List.take_succ_cons] at hpos hcnt
    have hc := hpos c (List.mem_cons_self _ _)
    rw [find_close] at h
    rw [scan_fwd, if_pos hc]
    by_cases h93 : c = 93
    · subst h93
      rw [List.count_cons_of_ne (by decide)] at hcnt
      rw [if_pos rfl] at h
      simp only [if_true, show ¬ (93 : Nat) = 91 by decide, if_false]
      by_cases hd : d = 0
      · rw [if_pos hd] at h
        injection h with h
        subst hd
        rw [if_pos (by decide)]
        rw [h]
      · rw [if_neg hd] at h
        have hb' := find_close_bound _ _ _ _ h
        have hmj : j + 1 - (k + 1) = m := by omega
        have hnb : (d + 1 + 255) % 256 = (d - 1) + 1 := by omega
        rw [if_neg (by omega), hnb]
        apply ih (d - 1) (k + 1) j h
        · rw [hmj]
          intro x hx
          exact hpos x (List.mem_cons_of_mem _ hx)
        · rw [hmj]
          omega
    · rw [if_neg h93] at h
      by_cases h91 : c = 91
      · subst h91
        rw [List.count_cons_self] at hcnt
        rw [if_pos rfl] at h
        simp only [show ¬ (91 : Nat) = 93 by decide, if_false, if_true]
        have hb' := find_close_bound _ _ _ _ h
        have hmj : j + 1 - (k + 1) = m := by omega
        have hnb : (d + 1 + 1) % 256 = (d + 1) + 1 := by omega
        rw [if_neg (by omega), hnb]
        apply ih (d + 1) (k + 1) j h
        · rw [hmj]
          intro x hx
          exact hpos x (List.mem_cons_of_mem _ hx)
        · rw [hmj]
          omega
      · rw [if_neg h91] at h
        rw [List.count_cons_of_ne (fun e => h91 e.symm)] at hcnt
        simp only [h93, h91, if_false]
        have hb' := find_close_bound _ _ _ _ h
        have hmj : j + 1 - (k + 1) = m := by omega
        rw [if_neg (by omega)]
        apply ih d (k + 1) j h
        · rw [hmj]
          intro x hx
          exact hpos x (List.mem_cons_of_mem _ hx)
        · rw [hmj]
          omega


/-- While fewer than 255 `[` lie between the cursor and the end of the script, the forward
loop of `bfi_test` on a `[` with no matching `]` runs to the end-of-script byte and leaves
the counter nonzero. -/
theorem scan_fwd_unmatched (cs : List Nat) (rest : List Nat) :
    ∀ (d k : Nat), find_close cs d k = none → (∀ c ∈ cs, 0 < c ∧ c < 128) →
      d + cs.count 91 < 255 →
      ∃ nb, nb ≠ 0 ∧ scan_fwd (cs ++ 0 :: rest) (d + 1) k = some (k + cs.length, nb) := by
  induction cs with
  | nil =>
    intro d k _ _ _
    exact ⟨d + 1, Nat.succ_ne_zero d, by simp [scan_fwd]⟩
  | cons c cs ih =>
    intro d k h hpos hcnt
    have hc := hpos c (List.mem_cons_self _ _)
    have hpos' : ∀ x ∈ cs, 0 < x ∧ x < 128 := fun x hx => hpos x (List.mem_cons_of_mem _ hx)
    rw [find_close] at h
    rw [List.cons_append, scan_fwd, if_pos hc]
    simp only [List.length_cons]
    by_cases h93 : c = 93
    · subst h93
      rw [List.count_cons_of_ne (by decide)] at hcnt
      rw [if_pos rfl] at h
      simp only [if_true, show ¬ (93 : Nat) = 91 by decide, if_false]
      by_cases hd : d = 0
      · rw [if_pos hd] at h
        exact Option.noConfusion h
      · rw [if_neg hd] at h
        have hnb : (d + 1 + 255) % 256 = (d - 1) + 1 := by omega
        rw [if_neg (by omega), hnb]
        obtain ⟨nb, hnb0, hs⟩ := ih (d - 1) (k + 1) h hpos' (by omega)
        exact ⟨nb, hnb0, by rw [hs]; congr 2; omega⟩
    · rw [if_neg h93] at h
      by_cases h91 : c = 91
      · subst h91
        rw [List.count_cons_self] at hcnt
        rw [if_pos rfl] at h
        simp only [show ¬ (91 : Nat) = 93 by decide, if_false, if_true]
        have hnb : (d + 1 + 1) % 256 = (d + 1) + 1 := by omega
        rw [if_neg (by omega), hnb]
        obtain ⟨nb, hnb0, hs⟩ := ih (d + 1) (k + 1) h hpos' (by omega)
        exact ⟨nb, hnb0, by rw [hs]; congr 2; omega⟩
      · rw [if_neg h91] at h
        rw [List.count_cons_of_ne (fun e => h91 e.symm)] at hcnt
        simp only [h93, h91, if_false]
        rw [if_neg (by omega)]
        obtain ⟨nb, hnb0, hs⟩ := ih d (k + 1) h hpos' (by omega)
        exact ⟨nb, hnb0, by rw [hs]; congr 2; omega⟩

theorem find_open_bound (cs : List Nat) :
    ∀ (d k j : Nat), find_open cs d k = some j → cs.length ≤ k + 1 →
      j ≤ k ∧ k < j + cs.length := by
  induction cs with
  | nil => intro d k j h; simp [find_open] at h
  | cons c cs ih =>
    intro d k j h hlen
    rw [find_open] at h
    simp only [List.length_cons] at hlen ⊢
    by_cases h91 : c = 91
    · rw [if_pos h91] at h
      by_cases hd : d = 0
      · rw [if_pos hd] at h
        injection h with h
        omega
      · rw [if_neg hd] at h
        by_cases hk : k = 0
        · have hnil : cs = [] := List.eq_nil_of_length_eq_zero (by omega)
          rw [hnil] at h
          simp [find_open] at h
        · have := ih _ _ _ h (by omega)
          omega
    · rw [if_neg h91] at h
      by_cases hk : k = 0
      · have hnil : cs = [] := List.eq_nil_of_length_eq_zero (by omega)
        rw [hnil] at h
        simp [find_open] at h
      · by_cases h93 : c = 93
        · rw [if_pos h93] at h
          have := ih _ _ _ h (by omega)
          omega
        · rw [if_neg h93] at h
          have := ih _ _ _ h (by omega)
          omega

/-- While fewer than 255 `]` lie between the brackets, the backward loop of `bfi_test`, with
its 8-bit counter, stops exactly on the matching `[` with the counter at zero. -/
theorem scan_bwd_of_find_open (cs : List Nat) :
    ∀ (d k j : Nat), find_open cs d k = some j → cs.length ≤ k + 1 →
      d + (cs.take (k + 1 - j)).count 93 < 255 →
      scan_bwd cs (d + 1) k = (some j, 0) := by
  induction cs with
  | nil => intro d k j h; simp [find_open] at h
  | cons c cs ih =>
    intro d k j h hlen hcnt
    have hb := find_open_bound _ _ _ _ h hlen
    simp only [List.length_cons] at hlen hb
    obtain ⟨m, hm⟩ : ∃ m, k + 1 - j = m + 1 := ⟨k - j, by omega⟩
    rw [hm, List.take_succ_cons] at hcnt
    rw [find_open] at h
    rw [scan_bwd]
    by_cases h91 : c = 91
    · subst h91
      rw [List.count_cons_of_ne (by decide)] at hcnt
      rw [if_pos rfl] at h
      simp only [if_true]
      by_cases hd : d = 0
      · rw [if_pos hd] at h
        injection h with h
        subst hd
        rw [if_pos (by decide), h]
      · rw [if_neg hd] at h
        have hnb : (d + 1 + 255) % 256 = (d - 1) + 1 := by omega
        rw [if_neg (by omega), hnb]
        by_cases hk : k = 0
        · have hnil : cs = [] := List.eq_nil_of_length_eq_zero (by omega)
          rw [hnil] at h
          simp [find_open] at h
        · have hb' := find_open_bound _ _ _ _ h (by omega)
          have hmj : k - 1 + 1 - j = m := by omega
          exact ih (d - 1) (k - 1) j h (by omega) (by rw [hmj]; omega)
    · rw [if_neg h91] at h
      simp only [h91, if_false]
      by_cases hk : k = 0
      · have hnil : cs = [] := List.eq_nil_of_length_eq_zero (by omega)
        rw [hnil] at h
        simp [find_open] at h
      · by_cases h93 : c = 93
        · subst h93
          rw [List.count_cons_self] at hcnt
          rw [if_pos rfl] at h
          simp only [if_true]
          have hnb : (d + 1 + 1) % 256 = (d + 1) + 1 := by omega
          rw [if_neg (by omega), hnb]
          have hb' := find_open_bound _ _ _ _ h (by omega)
          have hmj : k - 1 + 1 - j = m := by omega
          exact ih (d + 1) (k - 1) j h (by omega) (by rw [hmj]; omega)
        · rw [if_neg h93] at h
          rw [List.count_cons_of_ne (fun e => h93 e.symm)] at hcnt
          simp only [h93, if_false]
          rw [if_neg (by omega)]
          have hb' := find_open_bound _ _ _ _ h (by omega)
          have hmj : k - 1 + 1 - j = m := by omega
          exact ih d (k - 1) j h (by omega) (by rw [hmj]; omega)

/-- While fewer than 255 `]` lie between the cursor and the start of the script, the backward
loop of `bfi_test` on a `]` with no matching `[` runs off the start of the script and leaves
the counter nonzero. -/
theorem scan_bwd_unmatched (cs : List Nat) :
    ∀ (d k : Nat), find_open cs d k = none → d + cs.count 93 < 255 →
      (scan_bwd cs (d + 1) k).1 = none ∧ (scan_bwd cs (d + 1) k).2 ≠ 0 := by
  induction cs with
  | nil =>
    intro d k _ _
    exact ⟨rfl, Nat.succ_ne_zero d⟩
  | cons c cs ih =>
    intro d k h hcnt
    rw [find_open] at h
    rw [scan_bwd]
    by_cases h91 : c = 91
    · subst h91
      rw [List.count_cons_of_ne (by decide)] at hcnt
      rw [if_pos rfl] at h
      simp only [if_true]
      by_cases hd : d = 0
      · rw [if_pos hd] at h
        exact Option.noConfusion h
      · rw [if_neg hd] at h
        have hnb : (d + 1 + 255) % 256 = (d - 1) + 1 := by omega
        rw [if_neg (by omega), hnb]
        exact ih (d - 1) (k - 1) h (by omega)
    · rw [if_neg h91] at h
      simp only [h91, if_false]
      by_cases h93 : c = 93
      · subst h93
        rw [List.count_cons_self] at hcnt
        rw [if_pos rfl] at h
        simp only [if_true]
        have hnb : (d + 1 + 1) % 256 = (d + 1) + 1 := by omega
        rw [if_neg (by omega), hnb]
        exact ih (d + 1) (k - 1) h (by omega)
      · rw [if_neg h93] at h
        rw [List.count_cons_of_ne (fun e => h93 e.symm)] at hcnt
        simp only [h93, if_false]
        rw [if_neg (by omega)]
        exact ih d (k - 1) h (by omega)


theorem lt_length_of_getD_ne_zero (l : List Nat) (i : Nat) (h : l.getD i 0 ≠ 0) :
    i < l.length := by
  by_contra hc
  exact h (getD_beyond l i (by omega))

/-- A step at a `[` on a zero cell skips the loop: when fewer than 255 `[` lie between the
`[` at offset `i` and its matching `]` at offset `j`, the step returns 1, records no fault,
leaves the tape and the data cursor as they were and leaves the instruction cursor at
offset `j + 1`. -/
theorem cycle_open_skips_loop (realloc : Nat → Nat → Nat) (s : bfi_state_t) (i j : Nat)
    (hb : s.script ≠ 0) (hfit : s.script + s.script_mem.length < PTR_MOD)
    (hp : s.script_p = s.script + i) (hc : s.script_mem.getD i 0 = 91)
    (hd : (bfi_data_get s).2.1 = 0) (hm : matching_close s.script_mem i = some j)
    (hbody : ∀ c ∈ (s.script_mem.drop (i + 1)).take (j - i), 0 < c ∧ c < 128)
    (hdepth : ((s.script_mem.drop (i + 1)).take (j - i)).count 91 < 255) :
    bfi_cycle realloc s = (1, { s with script_p := s.script + j + 1 }) := by
  have hi : i < s.script_mem.length := lt_length_of_getD_ne_zero _ _ (by rw [hc]; decide)
  unfold matching_close at hm
  have hji : j + 1 - (i + 1) = j - i := by omega
  have hscan := scan_fwd_of_find_close _ 0 (i + 1) j hm (by rw [hji]; exact hbody)
    (by rw [hji]; omega)
  rw [cycle_open_zero realloc s i j 0 hb hfit hp hi hc hd hscan, if_pos rfl]

/-- A step at a `]` on a nonzero cell goes back to the start of the loop: when fewer than
255 `]` lie between the `]` at offset `j` and its matching `[` at offset `i`, the step
returns 1, records no fault, leaves the tape and the data cursor as they were and leaves the
instruction cursor at offset `i + 1`. -/
theorem cycle_close_jumps_back (realloc : Nat → Nat → Nat) (s : bfi_state_t) (i j : Nat)
    (hb : s.script ≠ 0) (hfit : s.script + s.script_mem.length < PTR_MOD)
    (hp : s.script_p = s.script + j) (hc : s.script_mem.getD j 0 = 93)
    (hd : (bfi_data_get s).2.1 ≠ 0) (hm : matching_open s.script_mem j = some i)
    (hdepth : ((s.script_mem.take j).reverse.take (j - i)).count 93 < 255) :
    bfi_cycle realloc s = (1, { s with script_p := s.script + i + 1 }) := by
  have hj : j < s.script_mem.length := lt_length_of_getD_ne_zero _ _ (by rw [hc]; decide)
  unfold matching_open at hm
  have hj0 : j ≠ 0 := by
    intro h0
    rw [h0] at hm
    simp [find_open] at hm
  have hlen : (s.script_mem.take j).reverse.length ≤ j - 1 + 1 := by
    simp only [List.length_reverse, List.length_take]
    omega
  have hbnd := find_open_bound _ _ _ _ hm hlen
  have hji : j - 1 + 1 - i = j - i := by omega
  have hscan := scan_bwd_of_find_open _ 0 (j - 1) i hm hlen (by rw [hji]; omega)
  rw [cycle_close_nonzero realloc s j hb hfit hp hj hc hd, hscan]
  simp only [if_true, bwd_cursor]
  rw [Nat.mod_eq_of_lt (by omega)]

/-- A step at a `[` on a zero cell with no matching `]` before the end of the script (the
instruction bytes `l`, followed by a zero byte) faults, when fewer than 255 `[` follow it:
the step returns 0 and records a run fault, the instruction cursor being left on the
end-of-script byte. -/
theorem cycle_open_unmatched_faults (realloc : Nat → Nat → Nat) (s : bfi_state_t) (i : Nat)
    (l rest : List Nat) (hmem : s.script_mem = l ++ 0 :: rest)
    (hl : ∀ c ∈ l, 0 < c ∧ c < 128)
    (hb : s.script ≠ 0) (hfit : s.script + s.script_mem.length < PTR_MOD)
    (hp : s.script_p = s.script + i) (hi : i < l.length) (hc : s.script_mem.getD i 0 = 91)
    (hd : (bfi_data_get s).2.1 = 0) (hm : find_close (l.drop (i + 1)) 0 (i + 1) = none)
    (hdepth : (l.drop (i + 1)).count 91 < 255) :
    bfi_cycle realloc s =
      (0, { s with script_p := s.script + l.length, errored := PTR_MOD - 1 }) := by
  have hi' : i < s.script_mem.length := lt_length_of_getD_ne_zero _ _ (by rw [hc]; decide)
  obtain ⟨nb, hnb, hscan⟩ := scan_fwd_unmatched (l.drop (i + 1)) rest 0 (i + 1) hm
    (fun c hc' => hl c (List.mem_of_mem_drop hc')) (by omega)
  have hdrop : s.script_mem.drop (i + 1) = l.drop (i + 1) ++ 0 :: rest := by
    rw [hmem, List.drop_append_of_le_length (by omega)]
  have hpos : i + 1 + (l.drop (i + 1)).length = l.length := by
    simp only [List.length_drop]
    omega
  rw [← hdrop, hpos] at hscan
  rw [cycle_open_zero realloc s i l.length nb hb hfit hp hi' hc hd hscan, if_neg hnb]

/-- A step at a `]` on a nonzero cell with no matching `[` back to the start of the script
faults, when fewer than 255 `]` precede it: the step returns 0 and records a run fault, the
instruction cursor being left one byte before the script. -/
theorem cycle_close_unmatched_faults (realloc : Nat → Nat → Nat) (s : bfi_state_t) (j : Nat)
    (hb : s.script ≠ 0) (hfit : s.script + s.script_mem.length < PTR_MOD)
    (hp : s.script_p = s.script + j) (hc : s.script_mem.getD j 0 = 93)
    (hd : (bfi_data_get s).2.1 ≠ 0) (hm : matching_open s.script_mem j = none)
    (hdepth : (s.script_mem.take j).count 93 < 255) :
    bfi_cycle realloc s =
      (0, { s with script_p := s.script - 1, errored := PTR_MOD - 1 }) := by
  have hj : j < s.script_mem.length := lt_length_of_getD_ne_zero _ _ (by rw [hc]; decide)
  unfold matching_open at hm
  obtain ⟨h1, h2⟩ := scan_bwd_unmatched _ 0 (j - 1) hm
    (by rw [List.count_reverse]; omega)
  rw [cycle_close_nonzero realloc s j hb hfit hp hj hc hd, if_neg h2, h1]
  rfl

/-- The script `[` alone, run on a new engine, ends in a run fault: the forward scan reaches
the end-of-script byte with the counter at 1. -/
theorem single_open_run_fault :
    (bfi_run toy_realloc 2 (loaded [] [91])).map (fun s => (s.errored, s.out_stream))
      = some (PTR_MOD - 1, some []) := by
  have hl : loaded [] [91] = with_script (bfi_new [] []) 4096 [91] 1 := by
    rw [loaded_eq _ _ (by decide)]
    rfl
  rw [hl]
  decide!

theorem put_char_refused (realloc : Nat → Nat → Nat) (s : bfi_state_t) (h : s.errored ≠ 0)
    (c : Nat) : bfi_script_put_char realloc s c = (0, s) := by
  unfold bfi_script_put_char
  rw [if_pos h]

theorem from_buffer_refused (realloc : Nat → Nat → Nat) (s : bfi_state_t)
    (h : s.errored ≠ 0) (buffer : List Nat) :
    bfi_script_from_buffer realloc s buffer = (0, s) := by
  unfold bfi_script_from_buffer
  rw [if_pos h]

/-- C15: for every engine state whose fault indicator is nonzero, every source byte `c` and
every byte sequence `buffer`, `bfi_script_put_char` and `bfi_script_from_buffer` return 0
and leave the whole state as it was: script buffer, capacity, cursor, read-length counter
(no source byte is counted), fault indicator and data tape. -/
theorem load_refused_when_faulted (realloc : Nat → Nat → Nat) (s : bfi_state_t)
    (h : s.errored ≠ 0) (c : Nat) (buffer : List Nat) :
    bfi_script_put_char realloc s c = (0, s) ∧
    bfi_script_from_buffer realloc s buffer = (0, s) :=
  ⟨put_char_refused realloc s h c, from_buffer_refused realloc s h buffer⟩

theorem loaded_single (c : Nat) (hc : is_bf_char c = true) :
    loaded [] [c] = with_script (bfi_new [] []) 4096 [c] 1 := by
  rw [loaded_eq _ _ (by simp)]
  simp [List.filter, hc]

theorem open_fault_state_eq :
    open_fault_state =
      { bfi_new [] [] with
          script := 4096
          script_alloc := 256
          script_p := 4097
          script_read_length := 1
          errored := PTR_MOD - 1
          script_mem := 91 :: List.replicate 255 0 } := by
  unfold open_fault_state
  rw [loaded_single 91 (by decide)]
  decide!

/-- C15 on the engine left by the faulting run of the script `[`: a further `+` or a
further source is refused and changes nothing. -/
theorem load_refused_when_faulted_witness :
    open_fault_state.errored ≠ 0 ∧
    bfi_script_put_char toy_realloc open_fault_state 43 = (0, open_fault_state) ∧
    bfi_script_from_buffer toy_realloc open_fault_state [43, 46] = (0, open_fault_state) := by
  have h : open_fault_state.errored ≠ 0 := by
    rw [open_fault_state_eq]
    decide!
  exact ⟨h, load_refused_when_faulted toy_realloc open_fault_state h 43 [43, 46]⟩

/-- Loading bytes none of which is an instruction symbol only counts them. -/
theorem load_loop_comments (realloc : Nat → Nat → Nat) (src : List Nat)
    (hsrc : ∀ c ∈ src, c ∉ symbols) :
    ∀ s : bfi_state_t, s.errored = 0 → s.script_read_length < PTR_MOD →
      script_from_buffer_loop realloc s src =
        (1, { s with script_read_length := (s.script_read_length + src.length) % PTR_MOD }) := by
  induction src with
  | nil =>
    intro s _ hl
    simp only [script_from_buffer_loop, List.length_nil, Nat.add_zero, Nat.mod_eq_of_lt hl]
  | cons c rest ih =>
    intro s he hl
    have hc : is_bf_char c = false := by
      cases hb : is_bf_char c
      · rfl
      · exact absurd ((is_bf_char_iff c).mp hb) (hsrc c (List.mem_cons_self _ _))
    have hput : bfi_script_put_char realloc s c =
        (1, { s with script_read_length := (s.script_read_length + 1) % PTR_MOD }) := by
      unfold bfi_script_put_char
      rw [if_neg (by rw [he]; exact fun h => h rfl)]
      simp [hc]
    rw [script_from_buffer_loop]
    simp only [hput]
    have hrec := ih (fun x hx => hsrc x (List.mem_cons_of_mem _ hx))
      { s with script_read_length := (s.script_read_length + 1) % PTR_MOD } he
      (Nat.mod_lt _ (by decide))
    simp only [Nat.succ_ne_zero, if_false, hrec, List.length_cons]
    congr 2
    show ((s.script_read_length + 1) % PTR_MOD + rest.length) % PTR_MOD = _
    rw [Nat.add_mod, Nat.mod_mod, ← Nat.add_mod]
    congr 1
    omega

/-- C19: for every source none of whose bytes is one of the eight instruction symbols (the
empty source included), loaded into a new engine: loading returns 1 and only counts the
bytes read; at the start of the run `bfi_cycle` returns 0 and leaves the state as it was, the
instruction cursor (null) included, so the run is over at its first step; the output is
empty, the data tape is unallocated (storage null, capacity 0) and the fault indicator
is 0. -/
theorem comment_only_source_halts (realloc : Nat → Nat → Nat) (heap : List (Nat × Nat))
    (input src : List Nat) (hsrc : ∀ c ∈ src, c ∉ symbols) (fuel : Nat) :
    bfi_script_from_buffer realloc (bfi_new heap input) src =
      (1, { bfi_new heap input with script_read_length := src.length % PTR_MOD }) ∧
    bfi_restart { bfi_new heap input with script_read_length := src.length % PTR_MOD } =
      (1, { bfi_new heap input with script_read_length := src.length % PTR_MOD }) ∧
    bfi_cycle realloc { bfi_new heap input with script_read_length := src.length % PTR_MOD } =
      (0, { bfi_new heap input with script_read_length := src.length % PTR_MOD }) ∧
    bfi_run realloc (fuel + 1)
        { bfi_new heap input with script_read_length := src.length % PTR_MOD } =
      some { bfi_new heap input with script_read_length := src.length % PTR_MOD } ∧
    ({ bfi_new heap input with script_read_length := src.length % PTR_MOD }
      : bfi_state_t).out_stream = some [] ∧
    ({ bfi_new heap input with script_read_length := src.length % PTR_MOD }
      : bfi_state_t).data = 0 ∧
    ({ bfi_new heap input with script_read_length := src.length % PTR_MOD }
      : bfi_state_t).data_alloc = 0 ∧
    ({ bfi_new heap input with script_read_length := src.length % PTR_MOD }
      : bfi_state_t).errored = 0 ∧
    ({ bfi_new heap input with script_read_length := src.length % PTR_MOD }
      : bfi_state_t).script_p = 0 := by
  have hload := load_loop_comments realloc src hsrc (bfi_new heap input) rfl
    (by show 0 < PTR_MOD; decide)
  refine ⟨?_, rfl, rfl, ?_, rfl, rfl, rfl, rfl, rfl⟩
  · unfold bfi_script_from_buffer
    rw [if_neg (fun h => h rfl), hload]
    simp [bfi_new]
  · rfl

/-- C19 on the source `hi!\n` and on the empty source. -/
theorem comment_only_source_halts_witness :
    (bfi_script_from_buffer toy_realloc (bfi_new [] []) [104, 105, 33, 10] =
        (1, { bfi_new [] [] with script_read_length := 4 % PTR_MOD }) ∧
      bfi_run toy_realloc 1 { bfi_new [] [] with script_read_length := 4 % PTR_MOD } =
        some { bfi_new [] [] with script_read_length := 4 % PTR_MOD }) ∧
    bfi_script_from_buffer toy_realloc (bfi_new [] []) [] =
        (1, { bfi_new [] [] with script_read_length := 0 % PTR_MOD }) := by
  have h1 := comment_only_source_halts toy_realloc [] [] [104, 105, 33, 10] (by decide) 0
  have h2 := comment_only_source_halts toy_realloc [] [] [] (by decide) 0
  exact ⟨⟨h1.1, h1.2.2.2.1⟩, h2.1⟩

/-- What `bfi_restart` does: it returns 1, leaves the script block alone, puts the
instruction cursor at the start of the script, and frees an allocated tape (storage null,
capacity 0, cursor at the origin); a tape that is not allocated is left as it is, data
cursor included. -/
theorem bfi_restart_spec (s : bfi_state_t) :
    (bfi_restart s).1 = 1 ∧
    (bfi_restart s).2.script = s.script ∧
    (bfi_restart s).2.script_alloc = s.script_alloc ∧
    (bfi_restart s).2.script_mem = s.script_mem ∧
    (bfi_restart s).2.script_p = s.script ∧
    (bfi_restart s).2.script_read_length = s.script_read_length ∧
    (bfi_restart s).2.errored = s.errored ∧
    (bfi_restart s).2.heap = s.heap ∧
    (bfi_restart s).2.in_stream = s.in_stream ∧
    (bfi_restart s).2.out_stream = s.out_stream ∧
    (bfi_restart s).2.data = 0 ∧
    (s.data ≠ 0 → (bfi_restart s).2.data_alloc = 0 ∧ (bfi_restart s).2.data_p = 0 ∧
      (bfi_restart s).2.data_mem = []) ∧
    (s.data = 0 → (bfi_restart s).2.data_alloc = s.data_alloc ∧
      (bfi_restart s).2.data_p = s.data_p ∧ (bfi_restart s).2.data_mem = s.data_mem) := by
  unfold bfi_restart
  by_cases h : s.data = 0
  · simp [h]
  · simp [h]

theorem right_final_eq :
    right_final =
      { bfi_new [] [] with
          data_p := 1
          script := 4096
          script_alloc := 256
          script_p := 4097
          script_read_length := 1
          script_mem := 62 :: List.replicate 255 0 } := by
  unfold right_final
  rw [loaded_single 62 (by decide)]
  decide!

/-- C14 on the script `>`: its run on a new engine ends with the tape never allocated
(storage null, capacity 0) and the data cursor at address 1; `bfi_restart` then leaves the
data cursor at 1, not at the origin, and a second run of the script starts there and ends
with the data cursor at 2. -/
theorem restart_keeps_cursor_of_unallocated_tape :
    bfi_run toy_realloc 2 (loaded [] [62]) = some right_final ∧
    right_final.data = 0 ∧ right_final.data_alloc = 0 ∧ right_final.data_p = 1 ∧
    (bfi_restart right_final).2.data = 0 ∧
    (bfi_restart right_final).2.data_p = 1 ∧
    bfi_run toy_realloc 2 right_final = some { right_final with data_p := 2 } := by
  rw [loaded_single 62 (by decide), right_final_eq]
  decide!

/-- C13 on the engine left by the faulting run of the script `[`: after `bfi_reset` the
fault indicator is still the run-fault value and the read-length counter is still 1, so the
state is not the one `bfi_new` produces, and the next load is refused. -/
theorem reset_keeps_fault :
    open_fault_state.errored = PTR_MOD - 1 ∧
    (bfi_reset open_fault_state).1 = 1 ∧
    (bfi_reset open_fault_state).2.errored = PTR_MOD - 1 ∧
    (bfi_reset open_fault_state).2.script_read_length = 1 ∧
    (bfi_reset open_fault_state).2 ≠ bfi_new [] [] ∧
    bfi_script_from_buffer toy_realloc (bfi_reset open_fault_state).2 [43] =
      (0, (bfi_reset open_fault_state).2) := by
  rw [open_fault_state_eq]
  decide!

/-- C13 amended: for every engine state (a null buffer having capacity 0 and no bytes),
`bfi_reset` returns 1 and leaves the data tape null with capacity 0, the script buffer null
with capacity 0 and the instruction cursor null; the data cursor is at the origin when the
tape was allocated; the I/O endpoints, the read-length counter and the fault indicator are
left as they were, so a faulted engine that is reset is still faulted and still refuses
every load. -/
theorem bfi_reset_spec (realloc : Nat → Nat → Nat) (s : bfi_state_t)
    (hd : s.data = 0 → s.data_alloc = 0 ∧ s.data_mem = [])
    (hs : s.script = 0 → s.script_alloc = 0 ∧ s.script_mem = []) :
    (bfi_reset s).1 = 1 ∧
    (bfi_reset s).2.data = 0 ∧ (bfi_reset s).2.data_alloc = 0 ∧
    (bfi_reset s).2.data_mem = [] ∧
    (s.data ≠ 0 → (bfi_reset s).2.data_p = 0) ∧
    (bfi_reset s).2.script = 0 ∧ (bfi_reset s).2.script_alloc = 0 ∧
    (bfi_reset s).2.script_mem = [] ∧ (bfi_reset s).2.script_p = 0 ∧
    (bfi_reset s).2.in_stream = s.in_stream ∧ (bfi_reset s).2.out_stream = s.out_stream ∧
    (bfi_reset s).2.script_read_length = s.script_read_length ∧
    (bfi_reset s).2.errored = s.errored ∧
    (s.errored ≠ 0 → ∀ buffer : List Nat,
      bfi_script_from_buffer realloc (bfi_reset s).2 buffer = (0, (bfi_reset s).2)) := by
  have herr : (bfi_reset s).2.errored = s.errored := by
    unfold bfi_reset bfi_restart
    by_cases h1 : s.data = 0 <;> by_cases h2 : s.script = 0 <;> simp [h1, h2]
  refine ⟨?_, ?_, ?_, ?_, ?_, ?_, ?_, ?_, ?_, ?_, ?_, ?_, herr, ?_⟩
  all_goals first
    | (intro he buffer
       exact from_buffer_refused realloc _ (by rw [herr]; exact he) buffer)
    | (unfold bfi_reset bfi_restart
       by_cases h1 : s.data = 0 <;> by_cases h2 : s.script = 0 <;>
         simp [h1, h2, hd, hs])

/-- C13 amended, on the engine left by the faulting run of the script `[`. -/
theorem bfi_reset_spec_witness :
    (bfi_reset open_fault_state).1 = 1 ∧
    (bfi_reset open_fault_state).2.script = 0 ∧
    (bfi_reset open_fault_state).2.errored = open_fault_state.errored ∧
    bfi_script_from_buffer toy_realloc (bfi_reset open_fault_state).2 [43] =
      (0, (bfi_reset open_fault_state).2) := by
  have h := bfi_reset_spec toy_realloc open_fault_state
    (by rw [open_fault_state_eq]; decide!) (by rw [open_fault_state_eq]; decide!)
  have he : open_fault_state.errored ≠ 0 := by
    rw [open_fault_state_eq]
    decide!
  exact ⟨h.1, h.2.2.2.2.2.1, h.2.2.2.2.2.2.2.2.2.2.2.2.1,
    h.2.2.2.2.2.2.2.2.2.2.2.2.2 he [43]⟩

/-- C17: for every engine state at a `,` with the data cursor at an offset `p ≥ 0` of a tape
as allocated, the allocation (if one is made) succeeding: on an empty input the step returns
0, records a run fault and leaves everything else (tape, both cursors, output) as it was; on
an input `b :: rest` it returns 1, stores `b` in the cell at offset `p`, leaves `rest` as
the remaining input, advances the instruction cursor by one, keeps the data cursor at
offset `p` and leaves the other cells, the output and the fault indicator as they were. -/
theorem cycle_read_input (realloc : Nat → Nat → Nat) (s : bfi_state_t) (p : Nat)
    (hp : s.script_p ≠ 0) (hadv : s.script_p + 1 < PTR_MOD) (hc : script_peek s = 44)
    (hwf : (data_buf s).WF) (hcur : s.data_p = s.data + p) (hfit : s.data + p < PTR_MOD)
    (hg : GrowthOK realloc (data_buf s) p) :
    (s.in_stream = some [] →
      bfi_cycle realloc s = (0, { s with errored := PTR_MOD - 1 })) ∧
    (∀ b rest, s.in_stream = some (b :: rest) →
      (bfi_cycle realloc s).1 = 1 ∧
      (bfi_cycle realloc s).2.in_stream = some rest ∧
      (bfi_cycle realloc s).2.script_p = s.script_p + 1 ∧
      (bfi_cycle realloc s).2.data_p = (bfi_cycle realloc s).2.data + p ∧
      (bfi_cycle realloc s).2.data_mem.getD p 0 = b ∧
      (∀ i, i ≠ p → (bfi_cycle realloc s).2.data_mem.getD i 0 = s.data_mem.getD i 0) ∧
      (bfi_cycle realloc s).2.out_stream = s.out_stream ∧
      (bfi_cycle realloc s).2.errored = s.errored ∧
      (bfi_cycle realloc s).2.script = s.script ∧
      (bfi_cycle realloc s).2.script_mem = s.script_mem) := by
  constructor
  · intro hin
    unfold bfi_cycle
    rw [if_neg hp]
    simp [hc, bfi_data_read, hin, run_fault]
  · intro b rest hin
    obtain ⟨q, hq, _, hqf, hpg, hag, hset⟩ :=
      set_byte_ok realloc (data_buf s) p b hwf hcur hfit hg
    have hset' : _buffer_set_byte realloc (data_buf { s with in_stream := some rest }) b = _ :=
      hset
    have hcyc : bfi_cycle realloc s =
        advance (set_data_buf { s with in_stream := some rest }
          { data_buf s with
              base := q
              alloc := grown (decide ((data_buf s).base = 0)) (data_buf s).alloc p
              cur := q + p
              mem := ((data_buf s).mem ++ List.replicate
                (grown (decide ((data_buf s).base = 0)) (data_buf s).alloc p
                  - (data_buf s).alloc) 0).set p b }) := by
      unfold bfi_cycle
      rw [if_neg hp]
      simp [hc, bfi_data_read, hin, bfi_data_set, hset']
    have hlen : (data_buf s).mem.length = (data_buf s).alloc := hwf.len
    rw [hcyc]
    refine ⟨rfl, rfl, ?_, rfl, ?_, ?_, rfl, rfl, rfl, rfl⟩
    · show (s.script_p + 1) % PTR_MOD = s.script_p + 1
      exact Nat.mod_eq_of_lt hadv
    · show (((data_buf s).mem ++ List.replicate _ 0).set p b).getD p 0 = b
      apply getD_set_self
      simp only [List.length_append, List.length_replicate]
      omega
    · intro i hi
      show (((data_buf s).mem ++ List.replicate _ 0).set p b).getD i 0 = s.data_mem.getD i 0
      rw [getD_set_other _ _ _ _ hi, getD_append_zeros]
      rfl

/-- C17 on the script `,.` with the input byte 65: the first step stores 65 and empties the
input, and the run outputs exactly the byte 65 and halts with no fault. -/
theorem cycle_read_input_witness :
    ((bfi_cycle toy_realloc echo_start).1 = 1 ∧
      (bfi_cycle toy_realloc echo_start).2.in_stream = some [] ∧
      (bfi_cycle toy_realloc echo_start).2.data_mem.getD 0 0 = 65) ∧
    (bfi_run toy_realloc 3 (bfi_script_from_buffer toy_realloc (bfi_new [] [65]) [44, 46]).2).map
      (fun s => (s.out_stream, s.errored)) = some (some [65], 0) := by
  have h := (cycle_read_input toy_realloc echo_start 0 (by decide!) (by decide!) (by decide!)
    ⟨by decide!, by decide!, by decide!⟩ (by decide!) (by decide!)
    (fun _ => ⟨by decide!, by decide!⟩)).2 65 [] (by decide!)
  exact ⟨⟨h.1, h.2.1, h.2.2.2.2.1⟩, by decide!⟩

theorem retag_self (s : bfi_state_t) : retag s s.script_read_length s.errored = s := rfl

theorem retag_retag (s : bfi_state_t) (a e a' e' : Nat) :
    retag (retag s a e) a' e' = retag s a' e' := rfl

theorem bfi_data_get_retag (s : bfi_state_t) (a e : Nat) :
    bfi_data_get (retag s a e) =
      ((bfi_data_get s).1, (bfi_data_get s).2.1, retag (bfi_data_get s).2.2 a e) := rfl

theorem bfi_data_inc_retag (realloc : Nat → Nat → Nat) (s : bfi_state_t) (a e : Nat) :
    bfi_data_inc realloc (retag s a e) =
      ((bfi_data_inc realloc s).1, retag (bfi_data_inc realloc s).2 a e) := rfl

theorem bfi_data_dec_retag (realloc : Nat → Nat → Nat) (s : bfi_state_t) (a e : Nat) :
    bfi_data_dec realloc (retag s a e) =
      ((bfi_data_dec realloc s).1, retag (bfi_data_dec realloc s).2 a e) := rfl

theorem bfi_data_read_retag (realloc : Nat → Nat → Nat) (s : bfi_state_t) (a e : Nat) :
    bfi_data_read realloc (retag s a e) =
      ((bfi_data_read realloc s).1, retag (bfi_data_read realloc s).2 a e) := by
  unfold bfi_data_read
  show (match s.in_stream with
    | none => (0, retag s a e)
    | some [] => (0, retag s a e)
    | some (d :: rest) => bfi_data_set realloc { retag s a e with in_stream := some rest } d)
    = _
  cases s.in_stream with
  | none => rfl
  | some l =>
    cases l with
    | nil => rfl
    | cons d rest => rfl

theorem bfi_data_write_retag (s : bfi_state_t) (a e : Nat) :
    bfi_data_write (retag s a e) =
      ((bfi_data_write s).1, retag (bfi_data_write s).2 a e) := by
  unfold bfi_data_write
  simp only [bfi_data_get_retag, bfi_data_get_fst, bfi_data_get_state]
  show (if (1 : Nat) = 0 then (0, retag s a e) else
    match s.out_stream with
    | none => (0, retag s a e)
    | some out => (1, { retag s a e with out_stream := some (out ++ [(bfi_data_get s).2.1]) }))
    = _
  cases s.out_stream with
  | none => rfl
  | some out => rfl

theorem script_peek_retag (s : bfi_state_t) (a e : Nat) :
    script_peek (retag s a e) = script_peek s := rfl

theorem seek_forward_retag (a e : Nat) :
    ∀ (fuel : Nat) (s : bfi_state_t) (nb : Nat),
      seek_forward fuel (retag s a e) nb =
        (retag (seek_forward fuel s nb).1 a e, (seek_forward fuel s nb).2) := by
  intro fuel
  induction fuel with
  | zero => intro s nb; rfl
  | succ fuel ih =>
    intro s nb
    rw [seek_forward, seek_forward]
    have hs : ({ retag s a e with script_p := ((retag s a e).script_p + 1) % PTR_MOD }
        : bfi_state_t) = retag { s with script_p := (s.script_p + 1) % PTR_MOD } a e := rfl
    simp only [hs, script_peek_retag, ih]
    split_ifs <;> rfl

theorem seek_backward_retag (a e : Nat) :
    ∀ (fuel : Nat) (s : bfi_state_t) (nb : Nat),
      seek_backward fuel (retag s a e) nb =
        (retag (seek_backward fuel s nb).1 a e, (seek_backward fuel s nb).2) := by
  intro fuel
  induction fuel with
  | zero => intro s nb; rfl
  | succ fuel ih =>
    intro s nb
    rw [seek_backward, seek_backward]
    have hs : ({ retag s a e with script_p := ((retag s a e).script_p + PTR_MOD - 1) % PTR_MOD }
        : bfi_state_t) = retag { s with script_p := (s.script_p + PTR_MOD - 1) % PTR_MOD } a e :=
      rfl
    simp only [hs, script_peek_retag]
    have hsc : (retag s a e).script = s.script := rfl
    have hsp : (retag s a e).script_p = s.script_p := rfl
    simp only [hsc, hsp, ih]
    split_ifs <;> rfl

theorem bfi_test_retag (s : bfi_state_t) (a e : Nat) :
    bfi_test (retag s a e) = ((bfi_test s).1, retag (bfi_test s).2 a e) := by
  unfold bfi_test
  simp only [bfi_data_get_retag, bfi_data_get_fst, bfi_data_get_state, script_peek_retag,
    seek_forward_retag, seek_backward_retag]
  split_ifs <;> rfl
theorem bfi_test_errored (s : bfi_state_t) : (bfi_test s).2.errored = s.errored := by
  have h := bfi_test_retag s s.script_read_length s.errored
  rw [retag_self] at h
  rw [h]
  rfl

theorem bfi_data_read_errored (realloc : Nat → Nat → Nat) (s : bfi_state_t) :
    (bfi_data_read realloc s).2.errored = s.errored := by
  have h := bfi_data_read_retag realloc s s.script_read_length s.errored
  rw [retag_self] at h
  rw [h]
  rfl

theorem bfi_data_write_errored (s : bfi_state_t) :
    (bfi_data_write s).2.errored = s.errored := by
  have h := bfi_data_write_retag s s.script_read_length s.errored
  rw [retag_self] at h
  rw [h]
  rfl

theorem ptr_mod_pred_ne_zero : PTR_MOD - 1 ≠ 0 := by decide

/-- The tail of each faulting case of `bfi_cycle`: a run fault when the call returned 0, the
advance otherwise. -/
theorem finish_eq (r : Nat × bfi_state_t) :
    (if r.1 = 0 then run_fault r.2 else advance r.2) =
      if r.1 = 0 then ((0 : Nat), { r.2 with errored := PTR_MOD - 1 })
      else ((1 : Nat), { r.2 with script_p := (r.2.script_p + 1) % PTR_MOD }) := rfl

theorem cycle_null (realloc : Nat → Nat → Nat) (s : bfi_state_t) (hp : s.script_p = 0) :
    bfi_cycle realloc s = (0, s) := by
  unfold bfi_cycle
  rw [if_pos hp]

theorem cycle_end (realloc : Nat → Nat → Nat) (s : bfi_state_t) (hc : script_peek s = 0) :
    bfi_cycle realloc s = (0, s) := by
  unfold bfi_cycle
  by_cases hp : s.script_p = 0
  · rw [if_pos hp]
  · rw [if_neg hp]
    simp only [hc, if_true]

theorem cycle_left (realloc : Nat → Nat → Nat) (s : bfi_state_t) (hp : s.script_p ≠ 0)
    (hc : script_peek s = 60) :
    bfi_cycle realloc s = advance { s with data_p := (s.data_p + PTR_MOD - 1) % PTR_MOD } := by
  unfold bfi_cycle
  rw [if_neg hp]
  simp only [hc]
  rfl

theorem cycle_right (realloc : Nat → Nat → Nat) (s : bfi_state_t) (hp : s.script_p ≠ 0)
    (hc : script_peek s = 62) :
    bfi_cycle realloc s = advance { s with data_p := (s.data_p + 1) % PTR_MOD } := by
  unfold bfi_cycle
  rw [if_neg hp]
  simp only [hc]
  rfl

theorem cycle_inc (realloc : Nat → Nat → Nat) (s : bfi_state_t) (hp : s.script_p ≠ 0)
    (hc : script_peek s = 43) :
    bfi_cycle realloc s =
      if (bfi_data_inc realloc s).1 = 0 then run_fault (bfi_data_inc realloc s).2
      else advance (bfi_data_inc realloc s).2 := by
  unfold bfi_cycle
  rw [if_neg hp]
  simp only [hc]
  rfl

theorem cycle_dec (realloc : Nat → Nat → Nat) (s : bfi_state_t) (hp : s.script_p ≠ 0)
    (hc : script_peek s = 45) :
    bfi_cycle realloc s =
      if (bfi_data_dec realloc s).1 = 0 then run_fault (bfi_data_dec realloc s).2
      else advance (bfi_data_dec realloc s).2 := by
  unfold bfi_cycle
  rw [if_neg hp]
  simp only [hc]
  rfl

theorem cycle_write (realloc : Nat → Nat → Nat) (s : bfi_state_t) (hp : s.script_p ≠ 0)
    (hc : script_peek s = 46) :
    bfi_cycle realloc s =
      if (bfi_data_write s).1 = 0 then run_fault (bfi_data_write s).2
      else advance (bfi_data_write s).2 := by
  unfold bfi_cycle
  rw [if_neg hp]
  simp only [hc]
  rfl

theorem cycle_read (realloc : Nat → Nat → Nat) (s : bfi_state_t) (hp : s.script_p ≠ 0)
    (hc : script_peek s = 44) :
    bfi_cycle realloc s =
      if (bfi_data_read realloc s).1 = 0 then run_fault (bfi_data_read realloc s).2
      else advance (bfi_data_read realloc s).2 := by
  unfold bfi_cycle
  rw [if_neg hp]
  simp only [hc]
  rfl

theorem cycle_bracket (realloc : Nat → Nat → Nat) (s : bfi_state_t) (hp : s.script_p ≠ 0)
    (hc : script_peek s = 91 ∨ script_peek s = 93) :
    bfi_cycle realloc s =
      if (bfi_test s).1 = 0 then run_fault (bfi_test s).2 else advance (bfi_test s).2 := by
  unfold bfi_cycle
  rw [if_neg hp]
  simp only []
  rw [if_neg (by rcases hc with h | h <;> rw [h] <;> decide),
    if_neg (by rcases hc with h | h <;> rw [h] <;> decide),
    if_neg (by rcases hc with h | h <;> rw [h] <;> decide),
    if_neg (by rcases hc with h | h <;> rw [h] <;> decide),
    if_neg (by rcases hc with h | h <;> rw [h] <;> decide),
    if_neg (by rcases hc with h | h <;> rw [h] <;> decide),
    if_neg (by rcases hc with h | h <;> rw [h] <;> decide), if_pos hc]

theorem cycle_other (realloc : Nat → Nat → Nat) (s : bfi_state_t)
    (hc : script_peek s ∉ symbols) : bfi_cycle realloc s = (0, s) := by
  simp only [symbols, List.mem_cons, List.mem_singleton, List.not_mem_nil, or_false,
    not_or] at hc
  obtain ⟨h60, h62, h43, h45, h46, h44, h91, h93⟩ := hc
  unfold bfi_cycle
  by_cases hp : s.script_p = 0
  · rw [if_pos hp]
  · rw [if_neg hp]
    simp only []
    by_cases h0 : script_peek s = 0
    · rw [if_pos h0]
    · rw [if_neg h0, if_neg h60, if_neg h62, if_neg h43, if_neg h45, if_neg h46, if_neg h44,
        if_neg (by rintro (h | h) <;> contradiction)]

/-- The cases of `bfi_cycle`, by the byte under the instruction cursor. -/
theorem cycle_cases (s : bfi_state_t) :
    s.script_p = 0 ∨ script_peek s = 0 ∨ script_peek s ∉ symbols ∨
    (s.script_p ≠ 0 ∧
      (script_peek s = 60 ∨ script_peek s = 62 ∨ script_peek s = 43 ∨ script_peek s = 45 ∨
        script_peek s = 46 ∨ script_peek s = 44 ∨ script_peek s = 91 ∨ script_peek s = 93)) := by
  by_cases hp : s.script_p = 0
  · exact Or.inl hp
  · by_cases hm : script_peek s ∈ symbols
    · right; right; right
      refine ⟨hp, ?_⟩
      simpa [symbols] using hm
    · exact Or.inr (Or.inr (Or.inl hm))

theorem run_fault_retag (t : bfi_state_t) (a e : Nat) :
    run_fault (retag t a e) =
      ((run_fault t).1,
        retag (run_fault t).2 a (if (run_fault t).2.errored = 0 then e else PTR_MOD - 1)) := by
  have h : (run_fault t).2.errored = PTR_MOD - 1 := rfl
  rw [h, if_neg ptr_mod_pred_ne_zero]
  rfl

theorem advance_retag (t : bfi_state_t) (a e : Nat) (ht : t.errored = 0) :
    advance (retag t a e) =
      ((advance t).1,
        retag (advance t).2 a (if (advance t).2.errored = 0 then e else PTR_MOD - 1)) := by
  have h : (advance t).2.errored = 0 := ht
  rw [h, if_pos rfl]
  rfl

theorem halt_retag (t : bfi_state_t) (a e : Nat) (ht : t.errored = 0) :
    ((0 : Nat), retag t a e) =
      (((0 : Nat), t).1,
        retag ((0 : Nat), t).2 a (if ((0 : Nat), t).2.errored = 0 then e else PTR_MOD - 1)) := by
  have h : ((0 : Nat), t).2.errored = 0 := ht
  rw [h, if_pos rfl]

/-- A step does not look at the read-length counter or at the fault indicator: on a state
whose counter and indicator were replaced it returns the same value and leaves the same
state, with the replaced counter, and with the replaced indicator unless the step faults. -/
theorem bfi_cycle_retag (realloc : Nat → Nat → Nat) (s : bfi_state_t) (a e : Nat)
    (h0 : s.errored = 0) :
    bfi_cycle realloc (retag s a e) =
      ((bfi_cycle realloc s).1,
        retag (bfi_cycle realloc s).2 a
          (if (bfi_cycle realloc s).2.errored = 0 then e else PTR_MOD - 1)) := by
  have finish : ∀ (r : Nat × bfi_state_t), r.2.errored = 0 →
      (if r.1 = 0 then run_fault (retag r.2 a e) else advance (retag r.2 a e)) =
        ((if r.1 = 0 then run_fault r.2 else advance r.2).1,
          retag (if r.1 = 0 then run_fault r.2 else advance r.2).2 a
            (if (if r.1 = 0 then run_fault r.2 else advance r.2).2.errored = 0 then e
              else PTR_MOD - 1)) := by
    intro r hr
    by_cases h : r.1 = 0
    · simp only [if_pos h]
      exact run_fault_retag _ a e
    · simp only [if_neg h]
      exact advance_retag _ a e hr
  rcases cycle_cases s with hp | hc | hc | ⟨hp, hc | hc | hc | hc | hc | hc | hc | hc⟩
  · rw [cycle_null realloc s hp, cycle_null realloc (retag s a e) hp]
    exact halt_retag s a e h0
  · rw [cycle_end realloc s hc, cycle_end realloc (retag s a e) hc]
    exact halt_retag s a e h0
  · rw [cycle_other realloc s hc, cycle_other realloc (retag s a e) hc]
    exact halt_retag s a e h0
  · rw [cycle_left realloc s hp hc, cycle_left realloc (retag s a e) hp hc]
    exact advance_retag { s with data_p := (s.data_p + PTR_MOD - 1) % PTR_MOD } a e h0
  · rw [cycle_right realloc s hp hc, cycle_right realloc (retag s a e) hp hc]
    exact advance_retag { s with data_p := (s.data_p + 1) % PTR_MOD } a e h0
  · rw [cycle_inc realloc s hp hc, cycle_inc realloc (retag s a e) hp hc]
    exact finish (bfi_data_inc realloc s) h0
  · rw [cycle_dec realloc s hp hc, cycle_dec realloc (retag s a e) hp hc]
    exact finish (bfi_data_dec realloc s) h0
  · rw [cycle_write realloc s hp hc, cycle_write realloc (retag s a e) hp hc,
      bfi_data_write_retag]
    exact finish (bfi_data_write s) (by rw [bfi_data_write_errored, h0])
  · rw [cycle_read realloc s hp hc, cycle_read realloc (retag s a e) hp hc,
      bfi_data_read_retag]
    exact finish (bfi_data_read realloc s) (by rw [bfi_data_read_errored, h0])
  · rw [cycle_bracket realloc s hp (Or.inl hc),
      cycle_bracket realloc (retag s a e) hp (Or.inl hc), bfi_test_retag]
    exact finish (bfi_test s) (by rw [bfi_test_errored, h0])
  · rw [cycle_bracket realloc s hp (Or.inr hc),
      cycle_bracket realloc (retag s a e) hp (Or.inr hc), bfi_test_retag]
    exact finish (bfi_test s) (by rw [bfi_test_errored, h0])

theorem advance_errored (t : bfi_state_t) : (advance t).2.errored = t.errored := rfl

/-- A step leaves the fault indicator as it was, or returns 0 with the run-fault value in
it. -/
theorem cycle_errored (realloc : Nat → Nat → Nat) (s : bfi_state_t) :
    (bfi_cycle realloc s).2.errored = s.errored ∨
    ((bfi_cycle realloc s).1 = 0 ∧ (bfi_cycle realloc s).2.errored = PTR_MOD - 1) := by
  have finish : ∀ (r : Nat × bfi_state_t), r.2.errored = s.errored →
      (if r.1 = 0 then run_fault r.2 else advance r.2).2.errored = s.errored ∨
      ((if r.1 = 0 then run_fault r.2 else advance r.2).1 = 0 ∧
        (if r.1 = 0 then run_fault r.2 else advance r.2).2.errored = PTR_MOD - 1) := by
    intro r hr
    by_cases h : r.1 = 0
    · rw [if_pos h]
      right
      constructor
      · rfl
      · rfl
    · rw [if_neg h]
      exact Or.inl hr
  rcases cycle_cases s with hp | hc | hc | ⟨hp, hc | hc | hc | hc | hc | hc | hc | hc⟩
  · rw [cycle_null realloc s hp]; left; rfl
  · rw [cycle_end realloc s hc]; left; rfl
  · rw [cycle_other realloc s hc]; left; rfl
  · rw [cycle_left realloc s hp hc]; exact Or.inl (advance_errored _)
  · rw [cycle_right realloc s hp hc]; exact Or.inl (advance_errored _)
  · rw [cycle_inc realloc s hp hc]; exact finish (bfi_data_inc realloc s) rfl
  · rw [cycle_dec realloc s hp hc]; exact finish (bfi_data_dec realloc s) rfl
  · rw [cycle_write realloc s hp hc]; exact finish (bfi_data_write s) (bfi_data_write_errored s)
  · rw [cycle_read realloc s hp hc]; exact finish (bfi_data_read realloc s) (bfi_data_read_errored realloc s)
  · rw [cycle_bracket realloc s hp (Or.inl hc)]; exact finish (bfi_test s) (bfi_test_errored s)
  · rw [cycle_bracket realloc s hp (Or.inr hc)]; exact finish (bfi_test s) (bfi_test_errored s)

theorem run_loop_succ (realloc : Nat → Nat → Nat) (fuel : Nat) (s : bfi_state_t) :
    run_loop realloc (fuel + 1) s =
      if (bfi_cycle realloc s).1 = 0 then some (bfi_cycle realloc s).2
      else run_loop realloc fuel (bfi_cycle realloc s).2 := rfl

/-- A run leaves the fault indicator as it was, or with the run-fault value in it. -/
theorem run_loop_errored (realloc : Nat → Nat → Nat) :
    ∀ (fuel : Nat) (s f : bfi_state_t), run_loop realloc fuel s = some f →
      f.errored = s.errored ∨ f.errored = PTR_MOD - 1 := by
  intro fuel
  induction fuel with
  | zero => intro s f h; exact Option.noConfusion h
  | succ fuel ih =>
    intro s f h
    rw [run_loop_succ] at h
    by_cases hz : (bfi_cycle realloc s).1 = 0
    · rw [if_pos hz] at h
      injection h with h
      rw [← h]
      rcases cycle_errored realloc s with h1 | ⟨_, h2⟩
      · exact Or.inl h1
      · exact Or.inr h2
    · rw [if_neg hz] at h
      rcases cycle_errored realloc s with h1 | ⟨h2, _⟩
      · rw [← h1]
        exact ih _ f h
      · exact absurd h2 hz

theorem bfi_restart_errored (s : bfi_state_t) : (bfi_restart s).2.errored = s.errored :=
  (bfi_restart_spec s).2.2.2.2.2.2.1

theorem tight_load :
    bfi_script_from_buffer tight_realloc (bfi_new [] []) src_tight = (0, tight_loaded) := by
  decide!

/-- C16 on a load fault followed by a run: loading `[` and 255 times `>` with an allocator
that refuses the growth asked for the last byte records a load fault at source offset 256,
the first 255 bytes being in the script; the run of that script then faults on the
unmatched `[` and leaves the run-fault value `2 ^ 64 - 1` in the fault indicator: the load
fault lost its offset and became a run fault. -/
theorem load_fault_turned_into_run_fault :
    bfi_script_from_buffer tight_realloc (bfi_new [] []) src_tight = (0, tight_loaded) ∧
    tight_loaded.errored = 256 ∧
    bfi_run tight_realloc 1 tight_loaded =
      some { tight_loaded with errored := PTR_MOD - 1 } ∧
    PTR_MOD - 1 ≠ 256 := by
  refine ⟨tight_load, rfl, ?_, by decide⟩
  have hr : (bfi_restart tight_loaded).2 = { tight_loaded with script_p := 4096 } := by
    decide!
  have hc := cycle_open_zero tight_realloc { tight_loaded with script_p := 4096 } 0 255 1
    (by decide!) (by decide!) (by decide!) (by decide!) (by decide!) (by decide!)
    (by decide!)
  unfold bfi_run
  rw [hr, run_loop_succ, hc]
  decide!

theorem step_faults_of (realloc : Nat → Nat → Nat) (s : bfi_state_t) (r : Nat)
    (h : step_faults realloc s ↔ r = 0) (t : bfi_state_t) (ht : t.errored = s.errored) :
    (if r = 0 then run_fault t else advance t).2.errored =
        (if step_faults realloc s then PTR_MOD - 1 else s.errored) ∧
      (step_faults realloc s → (if r = 0 then run_fault t else advance t).1 = 0) := by
  by_cases hr : r = 0
  · rw [if_pos hr, if_pos (h.mpr hr)]
    exact ⟨rfl, fun _ => rfl⟩
  · rw [if_neg hr, if_neg (fun hf => hr (h.mp hf))]
    exact ⟨ht, fun hf => absurd (h.mp hf) hr⟩

/-- A step leaves the run-fault value in the fault indicator and returns 0 when it faults,
and leaves the fault indicator as it was when it does not. -/
theorem cycle_errored_eq (realloc : Nat → Nat → Nat) (s : bfi_state_t) :
    (bfi_cycle realloc s).2.errored =
        (if step_faults realloc s then PTR_MOD - 1 else s.errored) ∧
      (step_faults realloc s → (bfi_cycle realloc s).1 = 0) := by
  have hno : ∀ t : bfi_state_t, ¬ step_faults realloc s → t.errored = s.errored →
      t.errored = (if step_faults realloc s then PTR_MOD - 1 else s.errored) ∧
        (step_faults realloc s → ((0 : Nat), t).1 = 0) := by
    intro t hn ht
    rw [if_neg hn]
    exact ⟨ht, fun _ => rfl⟩
  have hmove : ∀ d, ¬ step_faults realloc s →
      (advance { s with data_p := d }).2.errored =
          (if step_faults realloc s then PTR_MOD - 1 else s.errored) ∧
        (step_faults realloc s → (advance { s with data_p := d }).1 = 0) := by
    intro d hn
    rw [if_neg hn]
    exact ⟨rfl, fun hf => absurd hf hn⟩
  rcases cycle_cases s with hp | hc | hc | ⟨hp, hc | hc | hc | hc | hc | hc | hc | hc⟩
  · rw [cycle_null realloc s hp]
    exact hno s (fun hf => hf.1 hp) rfl
  · rw [cycle_end realloc s hc]
    refine hno s ?_ rfl
    unfold step_faults
    rw [hc]
    simp
  · rw [cycle_other realloc s hc]
    refine hno s ?_ rfl
    intro hf
    apply hc
    unfold step_faults at hf
    simp only [symbols, List.mem_cons, List.mem_singleton, List.not_mem_nil, or_false]
    rcases hf.2 with h | h | h | h | h
    · exact Or.inr (Or.inr (Or.inl h.1))
    · exact Or.inr (Or.inr (Or.inr (Or.inl h.1)))
    · exact Or.inr (Or.inr (Or.inr (Or.inr (Or.inl h.1))))
    · exact Or.inr (Or.inr (Or.inr (Or.inr (Or.inr (Or.inl h.1)))))
    · rcases h.1 with h1 | h1
      · exact Or.inr (Or.inr (Or.inr (Or.inr (Or.inr (Or.inr (Or.inl h1))))))
      · exact Or.inr (Or.inr (Or.inr (Or.inr (Or.inr (Or.inr (Or.inr h1))))))
  · rw [cycle_left realloc s hp hc]
    refine hmove _ ?_
    unfold step_faults
    rw [hc]
    simp
  · rw [cycle_right realloc s hp hc]
    refine hmove _ ?_
    unfold step_faults
    rw [hc]
    simp
  · rw [cycle_inc realloc s hp hc]
    refine step_faults_of realloc s _ ?_ _ rfl
    unfold step_faults
    rw [hc]
    simp [hp]
  · rw [cycle_dec realloc s hp hc]
    refine step_faults_of realloc s _ ?_ _ rfl
    unfold step_faults
    rw [hc]
    simp [hp]
  · rw [cycle_write realloc s hp hc]
    refine step_faults_of realloc s _ ?_ _ (bfi_data_write_errored s)
    unfold step_faults
    rw [hc]
    simp [hp]
  · rw [cycle_read realloc s hp hc]
    refine step_faults_of realloc s _ ?_ _ (bfi_data_read_errored realloc s)
    unfold step_faults
    rw [hc]
    simp [hp]
  · rw [cycle_bracket realloc s hp (Or.inl hc)]
    refine step_faults_of realloc s _ ?_ _ (bfi_test_errored s)
    unfold step_faults
    rw [hc]
    simp [hp]
  · rw [cycle_bracket realloc s hp (Or.inr hc)]
    refine step_faults_of realloc s _ ?_ _ (bfi_test_errored s)
    unfold step_faults
    rw [hc]
    simp [hp]

/-- A run that ends leaves the fault indicator as it was when none of its steps faults, and
leaves the run-fault value in it when one does: that step is the last one. -/
theorem run_loop_errored_eq (realloc : Nat → Nat → Nat) :
    ∀ (fuel : Nat) (s f : bfi_state_t), run_loop realloc fuel s = some f →
      ((∀ t ∈ run_states realloc fuel s, ¬ step_faults realloc t) ∧ f.errored = s.errored) ∨
      (∃ t ∈ run_states realloc fuel s, step_faults realloc t ∧ t.errored = s.errored ∧
        bfi_cycle realloc t = (0, f) ∧ f.errored = PTR_MOD - 1) := by
  intro fuel
  induction fuel with
  | zero => intro s f h; exact Option.noConfusion h
  | succ fuel ih =>
    intro s f h
    rw [run_loop_succ] at h
    obtain ⟨he, hz0⟩ := cycle_errored_eq realloc s
    rw [run_states]
    by_cases hz : (bfi_cycle realloc s).1 = 0
    · rw [if_pos hz] at h
      injection h with h
      simp only [hz, if_true]
      by_cases hf : step_faults realloc s
      · right
        rw [if_pos hf] at he
        refine ⟨s, List.mem_singleton.mpr rfl, hf, rfl, ?_, ?_⟩
        · rw [← h, ← hz]
        · rw [← h]; exact he
      · left
        rw [if_neg hf] at he
        refine ⟨?_, ?_⟩
        · intro t ht
          rw [List.mem_singleton.mp ht]
          exact hf
        · rw [← h]; exact he
    · rw [if_neg hz] at h
      simp only [hz, if_false]
      have hf : ¬ step_faults realloc s := fun hf => hz (hz0 hf)
      rw [if_neg hf] at he
      rcases ih _ f h with ⟨h1, h2⟩ | ⟨t, ht, h1, h2, h3, h4⟩
      · left
        refine ⟨?_, h2.trans he⟩
        intro t ht
        rcases List.mem_cons.mp ht with h0 | h0
        · rw [h0]; exact hf
        · exact h1 t h0
      · right
        exact ⟨t, List.mem_cons_of_mem _ ht, h1, h2.trans he, h3, h4⟩

/-- C16 amended: for every engine state in which a fault is recorded (fault indicator
nonzero), `bfi_script_put_char`, `bfi_script_from_buffer` and `bfi_restart` leave the fault
indicator with that same value; `bfi_cycle` leaves it with that same value unless the step
faults (`step_faults`), and then it returns 0 with the run-fault value `2 ^ 64 - 1` in it;
`bfi_run` leaves it with that same value when no step of the run faults, and with the
run-fault value when one does, that step being the last one: a recorded fault is never
cleared and a run fault stays a run fault, but a load fault does not keep its offset through
a faulting step. -/
theorem fault_indicator_stays_set (realloc : Nat → Nat → Nat) (s : bfi_state_t)
    (h : s.errored ≠ 0) (c : Nat) (buffer : List Nat) (fuel : Nat) :
    (bfi_script_put_char realloc s c).2.errored = s.errored ∧
    (bfi_script_from_buffer realloc s buffer).2.errored = s.errored ∧
    (bfi_restart s).2.errored = s.errored ∧
    (bfi_cycle realloc s).2.errored =
      (if step_faults realloc s then PTR_MOD - 1 else s.errored) ∧
    (step_faults realloc s → (bfi_cycle realloc s).1 = 0) ∧
    (bfi_cycle realloc s).2.errored ≠ 0 ∧
    (∀ f, bfi_run realloc fuel s = some f →
      (((∀ t ∈ run_states realloc fuel (bfi_restart s).2, ¬ step_faults realloc t) ∧
          f.errored = s.errored) ∨
        (∃ t ∈ run_states realloc fuel (bfi_restart s).2, step_faults realloc t ∧
          t.errored = s.errored ∧ bfi_cycle realloc t = (0, f) ∧
          f.errored = PTR_MOD - 1)) ∧
      f.errored ≠ 0) ∧
    (s.errored = PTR_MOD - 1 →
      (bfi_cycle realloc s).2.errored = PTR_MOD - 1 ∧
      ∀ f, bfi_run realloc fuel s = some f → f.errored = PTR_MOD - 1) := by
  obtain ⟨hce, hcz⟩ := cycle_errored_eq realloc s
  have hrun : ∀ f, bfi_run realloc fuel s = some f →
      ((∀ t ∈ run_states realloc fuel (bfi_restart s).2, ¬ step_faults realloc t) ∧
          f.errored = s.errored) ∨
        (∃ t ∈ run_states realloc fuel (bfi_restart s).2, step_faults realloc t ∧
          t.errored = s.errored ∧ bfi_cycle realloc t = (0, f) ∧
          f.errored = PTR_MOD - 1) := by
    intro f hf
    have := run_loop_errored_eq realloc fuel _ f hf
    rw [bfi_restart_errored] at this
    exact this
  refine ⟨?_, ?_, bfi_restart_errored s, hce, hcz, ?_, ?_, ?_⟩
  · rw [put_char_refused realloc s h c]
  · rw [from_buffer_refused realloc s h buffer]
  · rw [hce]
    by_cases hf : step_faults realloc s
    · rw [if_pos hf]; exact ptr_mod_pred_ne_zero
    · rw [if_neg hf]; exact h
  · intro f hf
    refine ⟨hrun f hf, ?_⟩
    rcases hrun f hf with ⟨_, h1⟩ | ⟨_, _, _, _, _, h1⟩ <;> rw [h1]
    · exact h
    · exact ptr_mod_pred_ne_zero
  · intro hs
    refine ⟨?_, ?_⟩
    · rw [hce]
      by_cases hf : step_faults realloc s
      · rw [if_pos hf]
      · rw [if_neg hf]; exact hs
    · intro f hf
      rcases hrun f hf with ⟨_, h1⟩ | ⟨_, _, _, _, _, h1⟩
      · rw [h1, hs]
      · exact h1

/-- C16 amended, on the engine left by the load of `src_tight` that faulted at offset 256:
a further byte, a restart and a step that does not fault (the instruction cursor is on the
terminator) leave the offset 256 in the fault indicator; the run of the engine, whose first
step faults on the unmatched `[`, leaves the run-fault value in it. -/
theorem fault_indicator_stays_set_witness :
    tight_loaded.errored = 256 ∧
    (bfi_script_put_char tight_realloc tight_loaded 43).2.errored = 256 ∧
    (bfi_restart tight_loaded).2.errored = 256 ∧
    ¬ step_faults tight_realloc tight_loaded ∧
    (bfi_cycle tight_realloc tight_loaded).2.errored = 256 ∧
    step_faults tight_realloc (bfi_restart tight_loaded).2 ∧
    (∀ f, bfi_run tight_realloc 1 tight_loaded = some f → f.errored = PTR_MOD - 1) := by
  have h := fault_indicator_stays_set tight_realloc tight_loaded (by decide!) 43 [] 1
  have hn : ¬ step_faults tight_realloc tight_loaded := by decide!
  have hy : step_faults tight_realloc (bfi_restart tight_loaded).2 := by decide!
  refine ⟨rfl, h.1, h.2.2.1, hn, ?_, hy, ?_⟩
  · rw [h.2.2.2.1, if_neg hn]
    rfl
  · intro f hf
    rcases (h.2.2.2.2.2.2.1 f hf).1 with ⟨h1, _⟩ | ⟨_, _, _, _, _, h1⟩
    · exact absurd hy (h1 _ (by rw [run_states]; exact List.mem_cons_self _ _))
    · exact h1
theorem bfi_restart_retag (s : bfi_state_t) (a e : Nat) :
    bfi_restart (retag s a e) = (1, retag (bfi_restart s).2 a e) := by
  unfold bfi_restart
  have hd : (retag s a e).data = s.data := rfl
  by_cases h : s.data = 0
  · simp only [hd, h, ne_eq, not_true_eq_false, if_false]
    rfl
  · simp only [hd, h, ne_eq, not_false_eq_true, if_true]
    rfl

/-- A run does not look at the read-length counter or at the fault indicator. -/
theorem run_loop_retag (realloc : Nat → Nat → Nat) (a e : Nat) :
    ∀ (fuel : Nat) (s : bfi_state_t), s.errored = 0 →
      run_loop realloc fuel (retag s a e) =
        (run_loop realloc fuel s).map
          (fun t => retag t a (if t.errored = 0 then e else PTR_MOD - 1)) := by
  intro fuel
  induction fuel with
  | zero => intro s _; rfl
  | succ fuel ih =>
    intro s h0
    rw [run_loop_succ, run_loop_succ, bfi_cycle_retag realloc s a e h0]
    by_cases hz : (bfi_cycle realloc s).1 = 0
    · simp only [hz, if_true, Option.map_some']
    · simp only [hz, if_false]
      have he : (bfi_cycle realloc s).2.errored = 0 := by
        rcases cycle_errored realloc s with h1 | ⟨h2, _⟩
        · rw [h1, h0]
        · exact absurd h2 hz
      rw [he, if_pos rfl]
      exact ih _ he

theorem bfi_run_retag (realloc : Nat → Nat → Nat) (a e fuel : Nat) (s : bfi_state_t)
    (h0 : s.errored = 0) :
    bfi_run realloc fuel (retag s a e) =
      (bfi_run realloc fuel s).map
        (fun t => retag t a (if t.errored = 0 then e else PTR_MOD - 1)) := by
  unfold bfi_run
  rw [bfi_restart_retag]
  exact run_loop_retag realloc a e fuel _ (by rw [bfi_restart_errored, h0])

theorem fault_class_run : fault_class (PTR_MOD - 1) = 2 := by decide

theorem fault_class_zero : fault_class 0 = 0 := rfl

theorem fault_class_load (k : Nat) (h0 : k ≠ 0) (h1 : k < PTR_MOD - 1) : fault_class k = 1 := by
  unfold fault_class
  rw [if_neg h0, if_neg (by omega)]

/-- Two states that differ only in the read-length counter and in the offset of a recorded
load fault run alike. -/
theorem bfi_run_observable (realloc : Nat → Nat → Nat) (fuel : Nat) (s s' : bfi_state_t)
    (h : observable s = observable s') :
    (bfi_run realloc fuel s).map observable = (bfi_run realloc fuel s').map observable := by
  have hs : bfi_run realloc fuel s =
      bfi_run realloc fuel (retag (retag s 0 0) s.script_read_length s.errored) := rfl
  have hs' : bfi_run realloc fuel s' =
      bfi_run realloc fuel (retag (retag s' 0 0) s'.script_read_length s'.errored) := rfl
  have h00 : retag s 0 0 = retag s' 0 0 := by
    have := congrArg (fun t => retag t 0 0) h
    exact this
  have hcl : fault_class s.errored = fault_class s'.errored :=
    congrArg bfi_state_t.errored h
  have key : ∀ (t : bfi_state_t) (a e e' : Nat), fault_class e = fault_class e' →
      observable (retag t a (if t.errored = 0 then e else PTR_MOD - 1)) =
        retag t 0 (fault_class (if t.errored = 0 then e' else PTR_MOD - 1)) := by
    intro t a e e' hee
    by_cases ht : t.errored = 0
    · simp only [ht, if_true]
      show retag t 0 (fault_class e) = _
      rw [hee]
    · simp only [ht, if_false]
      rfl
  rw [hs, hs', bfi_run_retag realloc _ _ fuel (retag s 0 0) rfl,
    bfi_run_retag realloc _ _ fuel (retag s' 0 0) rfl, ← h00, Option.map_map, Option.map_map]
  congr 1
  funext t
  show observable (retag t _ _) = observable (retag t _ _)
  rw [key t _ _ s'.errored hcl, key t _ _ s'.errored rfl]
theorem put_char_eq (realloc : Nat → Nat → Nat) (s : bfi_state_t) (c : Nat)
    (he : s.errored = 0) :
    bfi_script_put_char realloc s c =
      if is_bf_char c = true then
        if (_buffer_set_byte realloc (script_buf s) c).1 = 0 then
          (0, retag (set_script_buf s (_buffer_set_byte realloc (script_buf s) c).2)
                ((s.script_read_length + 1) % PTR_MOD) ((s.script_read_length + 1) % PTR_MOD))
        else
          (1, retag
                { set_script_buf s (_buffer_set_byte realloc (script_buf s) c).2 with
                    script_p := ((_buffer_set_byte realloc (script_buf s) c).2.cur + 1)
                      % PTR_MOD }
                ((s.script_read_length + 1) % PTR_MOD) 0)
      else (1, retag s ((s.script_read_length + 1) % PTR_MOD) 0) := by
  obtain ⟨d, da, dp, sc, sa, sp, rl, er, dm, sm, hp, i, o⟩ := s
  simp only at he
  subst he
  unfold bfi_script_put_char
  rw [if_neg (fun h => h rfl)]
  by_cases hc : is_bf_char c = true
  · simp only [hc, if_true]
    split_ifs
    all_goals first
      | rfl
      | (exfalso; rename_i h1 h2; exact h2 h1)
      | (exfalso; rename_i h1 h2; exact h1 h2)
  · simp only [hc, Bool.false_eq_true, if_false]
    rfl

theorem put_char_retag (realloc : Nat → Nat → Nat) (s : bfi_state_t) (a c : Nat) :
    bfi_script_put_char realloc (retag s a 0) c =
      ((bfi_script_put_char realloc (retag s 0 0) c).1,
        retag (bfi_script_put_char realloc (retag s 0 0) c).2 ((a + 1) % PTR_MOD)
          (if (bfi_script_put_char realloc (retag s 0 0) c).1 = 0 then (a + 1) % PTR_MOD
            else 0)) := by
  rw [put_char_eq realloc (retag s a 0) c rfl, put_char_eq realloc (retag s 0 0) c rfl]
  have hb : ∀ x, script_buf (retag s x 0) = script_buf s := fun _ => rfl
  simp only [hb]
  by_cases hc : is_bf_char c = true
  · simp only [hc, if_true]
    by_cases hr : (_buffer_set_byte realloc (script_buf s) c).1 = 0
    · simp only [hr, if_true]
      rfl
    · simp only [hr, if_false]
      rfl
  · simp only [hc, Bool.false_eq_true, if_false]
    rfl

/-- Loading a source and loading its instruction bytes alone leave the same engine, up to
the read-length counter and the offset of a load fault. -/
theorem load_loop_observable (realloc : Nat → Nat → Nat) (src : List Nat) :
    ∀ (s : bfi_state_t) (a b : Nat), a + src.length < PTR_MOD - 1 →
      b + src.length < PTR_MOD - 1 →
      (script_from_buffer_loop realloc (retag s a 0) src).1 =
        (script_from_buffer_loop realloc (retag s b 0) (src.filter is_bf_char)).1 ∧
      observable (script_from_buffer_loop realloc (retag s a 0) src).2 =
        observable (script_from_buffer_loop realloc (retag s b 0) (src.filter is_bf_char)).2 := by
  induction src with
  | nil =>
    intro s a b _ _
    exact ⟨rfl, rfl⟩
  | cons c rest ih =>
    intro s a b ha hb
    simp only [List.length_cons] at ha hb
    have hM : PTR_MOD - 1 < PTR_MOD := by decide
    have ha' : (a + 1) % PTR_MOD = a + 1 := Nat.mod_eq_of_lt (by omega)
    have hb' : (b + 1) % PTR_MOD = b + 1 := Nat.mod_eq_of_lt (by omega)
    by_cases hc : is_bf_char c = true
    · rw [List.filter_cons_of_pos hc, script_from_buffer_loop, script_from_buffer_loop]
      simp only [put_char_retag realloc s a c, put_char_retag realloc s b c, ha', hb']
      by_cases hz : (bfi_script_put_char realloc (retag s 0 0) c).1 = 0
      · simp only [hz, if_true, true_and]
        show retag _ 0 (fault_class (a + 1)) = retag _ 0 (fault_class (b + 1))
        rw [fault_class_load _ (Nat.succ_ne_zero a) (by omega),
          fault_class_load _ (Nat.succ_ne_zero b) (by omega)]
        rfl
      · simp only [hz, if_false]
        exact ih _ (a + 1) (b + 1) (by omega) (by omega)
    · have hc' : is_bf_char c = false := by simpa using hc
      rw [List.filter_cons_of_neg hc, script_from_buffer_loop]
      have hput : bfi_script_put_char realloc (retag s a 0) c = (1, retag s (a + 1) 0) := by
        unfold bfi_script_put_char
        have he : (retag s a 0).errored = 0 := rfl
        rw [if_neg (by rw [he]; exact fun h => h rfl)]
        simp only [hc', Bool.false_eq_true, if_false]
        show (1, retag s ((a + 1) % PTR_MOD) 0) = _
        rw [ha']
      simp only [hput]
      rw [if_neg (by decide)]
      exact ih s (a + 1) b (by omega) (by omega)

theorem from_buffer_new (realloc : Nat → Nat → Nat) (heap : List (Nat × Nat))
    (input src : List Nat) :
    bfi_script_from_buffer realloc (bfi_new heap input) src =
      script_from_buffer_loop realloc (retag (bfi_new heap input) 0 0) src := by
  unfold bfi_script_from_buffer
  rw [if_neg (fun h => h rfl)]
  rfl

/-- For all sources `s1` and `s2` (fewer than `2 ^ 31` bytes each) with the same
subsequence of instruction symbols, loaded into new engines with the same input and the same
memory around their blocks: the two loads return the same value and leave the same script
buffer (address, bytes, capacity, write cursor) and, more, the same state up to the
read-length counter and the offset of a load fault; after a load without fault the two states
differ in the read-length counter only; and running them, with any bound on the number of
steps, gives the same result up to those two.  The memory around the blocks being the same
is what makes the runs agree when a step reads the byte after the tape. -/
theorem load_comments_irrelevant (realloc : Nat → Nat → Nat) (heap : List (Nat × Nat))
    (input s1 s2 : List Nat) (h1 : s1.length < 2 ^ 31) (h2 : s2.length < 2 ^ 31)
    (hf : s1.filter (fun c => decide (c ∈ symbols)) =
      s2.filter (fun c => decide (c ∈ symbols))) :
    (bfi_script_from_buffer realloc (bfi_new heap input) s1).1 =
      (bfi_script_from_buffer realloc (bfi_new heap input) s2).1 ∧
    (bfi_script_from_buffer realloc (bfi_new heap input) s1).2.script =
      (bfi_script_from_buffer realloc (bfi_new heap input) s2).2.script ∧
    (bfi_script_from_buffer realloc (bfi_new heap input) s1).2.script_mem =
      (bfi_script_from_buffer realloc (bfi_new heap input) s2).2.script_mem ∧
    (bfi_script_from_buffer realloc (bfi_new heap input) s1).2.script_alloc =
      (bfi_script_from_buffer realloc (bfi_new heap input) s2).2.script_alloc ∧
    (bfi_script_from_buffer realloc (bfi_new heap input) s1).2.script_p =
      (bfi_script_from_buffer realloc (bfi_new heap input) s2).2.script_p ∧
    observable (bfi_script_from_buffer realloc (bfi_new heap input) s1).2 =
      observable (bfi_script_from_buffer realloc (bfi_new heap input) s2).2 ∧
    ((bfi_script_from_buffer realloc (bfi_new heap input) s1).2.errored = 0 →
      (bfi_script_from_buffer realloc (bfi_new heap input) s2).2 =
        { (bfi_script_from_buffer realloc (bfi_new heap input) s1).2 with
            script_read_length :=
              (bfi_script_from_buffer realloc (bfi_new heap input) s2).2.script_read_length }) ∧
    (∀ fuel,
      (bfi_run realloc fuel (bfi_script_from_buffer realloc (bfi_new heap input) s1).2).map
          observable =
        (bfi_run realloc fuel (bfi_script_from_buffer realloc (bfi_new heap input) s2).2).map
          observable) := by
  have h31 : (2 : Nat) ^ 31 = 2147483648 := by norm_num
  rw [← filter_is_bf_char, ← filter_is_bf_char] at hf
  have hlen : (s1.filter is_bf_char).length ≤ s1.length := List.length_filter_le _ _
  have k1 := load_loop_observable realloc s1 (bfi_new heap input) 0 0
    (by rw [PTR_MOD_eq]; omega) (by rw [PTR_MOD_eq]; omega)
  have k2 := load_loop_observable realloc s2 (bfi_new heap input) 0 0
    (by rw [PTR_MOD_eq]; omega) (by rw [PTR_MOD_eq]; omega)
  rw [← hf] at k2
  rw [from_buffer_new, from_buffer_new]
  have hobs := k1.2.trans k2.2.symm
  refine ⟨k1.1.trans k2.1.symm, ?_, ?_, ?_, ?_, hobs, ?_,
    fun fuel => bfi_run_observable realloc fuel _ _ hobs⟩
  · exact (congrArg bfi_state_t.script hobs : (observable _).script = (observable _).script)
  · exact (congrArg bfi_state_t.script_mem hobs :
      (observable _).script_mem = (observable _).script_mem)
  · exact (congrArg bfi_state_t.script_alloc hobs :
      (observable _).script_alloc = (observable _).script_alloc)
  · exact (congrArg bfi_state_t.script_p hobs :
      (observable _).script_p = (observable _).script_p)
  intro he
  generalize script_from_buffer_loop realloc (retag (bfi_new heap input) 0 0) s1 = r1 at *
  generalize script_from_buffer_loop realloc (retag (bfi_new heap input) 0 0) s2 = r2 at *
  obtain ⟨c1, t1⟩ := r1
  obtain ⟨c2, t2⟩ := r2
  obtain ⟨d, da, dp, sc, sa, sp, rl, er, dm, sm, hp, i, o⟩ := t1
  obtain ⟨d', da', dp', sc', sa', sp', rl', er', dm', sm', hp', i', o'⟩ := t2
  simp only at he
  subst he
  have hcls : fault_class 0 = fault_class er' := congrArg bfi_state_t.errored hobs
  have her : er' = 0 := by
    unfold fault_class at hcls
    by_contra hne
    rw [if_pos rfl, if_neg hne] at hcls
    split at hcls <;> exact absurd hcls (by decide)
  subst her
  simp only [observable, retag, bfi_state_t.mk.injEq] at hobs
  obtain ⟨e1, e2, e3, e4, e5, e6, -, -, e7, e8, e9, e10, e11⟩ := hobs
  subst e1 e2 e3 e4 e5 e6 e7 e8 e9 e10 e11
  rfl

/-- The sources `+.` and `+ x.`, in the same memory: same script bytes, same runs. -/
theorem load_comments_irrelevant_witness :
    ((bfi_script_from_buffer toy_realloc (bfi_new [] []) [43, 46]).2.script_mem =
      (bfi_script_from_buffer toy_realloc (bfi_new [] []) [43, 32, 120, 46]).2.script_mem) ∧
    (∀ fuel,
      (bfi_run toy_realloc fuel
          (bfi_script_from_buffer toy_realloc (bfi_new [] []) [43, 46]).2).map observable =
        (bfi_run toy_realloc fuel
          (bfi_script_from_buffer toy_realloc (bfi_new [] []) [43, 32, 120, 46]).2).map
            observable) := by
  have h := load_comments_irrelevant toy_realloc [] [] [43, 46] [43, 32, 120, 46]
    (by decide) (by decide) (by decide)
  exact ⟨h.2.2.1, h.2.2.2.2.2.2.2⟩

theorem symbols_pos (c : Nat) (h : c ∈ symbols) : 0 < c ∧ c < 128 := by
  simp only [symbols, List.mem_cons, List.mem_singleton, List.not_mem_nil, or_false] at h
  omega

theorem getD_instr (l : List Nat) (z k : Nat) (hk : k < l.length) :
    (l ++ List.replicate z 0).getD k 0 ∈ l := by
  rw [List.getD_eq_getElem?_getD, List.getElem?_append_left hk, List.getElem?_eq_getElem hk]
  exact List.getElem_mem hk

theorem getD_pad (l : List Nat) (z k : Nat) (hk : l.length ≤ k) :
    (l ++ List.replicate z 0).getD k 0 = 0 := by
  rw [List.getD_eq_getElem?_getD, List.getElem?_append_right hk]
  by_cases h : k - l.length < z
  · rw [List.getElem?_replicate_of_lt h]
    rfl
  · rw [List.getElem?_eq_none (by simp only [List.length_replicate]; omega)]
    rfl

/-- The state `s` with the instruction cursor moved to offset `k` of the script. -/
theorem ScriptOK.at_cursor {q : Nat} {l : List Nat} {z : Nat} {s : bfi_state_t}
    (h : ScriptOK q l z s) (k : Nat) (hk : s.script_p = q + k) :
    s = { s with script_p := s.script + k } := by
  apply state_eq_with_script_p
  rw [h.base]
  exact hk

theorem ScriptOK.peek {q : Nat} {l : List Nat} {z : Nat} {s : bfi_state_t}
    (h : ScriptOK q l z s) (k : Nat) (hk : k < l.length + z) :
    script_peek { s with script_p := s.script + k } = (l ++ List.replicate z 0).getD k 0 := by
  rw [script_peek_at s k (by rw [h.base]; exact h.nonnull)
    (by rw [h.mem, List.length_append, List.length_replicate]; exact hk), h.mem]

/-- The forward loop of `bfi_test` on a loaded script, started on an instruction: it ends
before its fuel when it has one unit of fuel for each byte up to the terminator, it leaves
the cursor further on and at most on the terminator, on an instruction when the counter
reached zero, and it reads bytes between the start and the terminator only. -/
theorem seek_forward_ok (q : Nat) (l : List Nat) (z : Nat) (s : bfi_state_t)
    (h : ScriptOK q l z s) :
    ∀ (fuel i nb : Nat), i < l.length → nb ≠ 0 → l.length - i ≤ fuel →
      ∃ j nb', i < j ∧ j ≤ l.length ∧ (nb' = 0 → j < l.length) ∧
        seek_forward fuel { s with script_p := s.script + i } nb =
          ({ s with script_p := s.script + j }, nb') ∧
        (∀ a ∈ seek_forward_reads fuel { s with script_p := s.script + i } nb,
          q + i < a ∧ a ≤ q + l.length) ∧
        (seek_forward_reads fuel { s with script_p := s.script + i } nb).length
          ≤ l.length - i := by
  have hfit := h.fit
  have hbase := h.base
  have hz := h.pad
  intro fuel
  induction fuel with
  | zero => intro i nb hi _ hf; omega
  | succ fuel ih =>
    intro i nb hi hnb hf
    have hstep : ({ s with script_p := s.script + i } : bfi_state_t).script_p + 1
        = s.script + (i + 1) := by
      show s.script + i + 1 = _
      omega
    have hs1 : ({ ({ s with script_p := s.script + i } : bfi_state_t) with
        script_p := (({ s with script_p := s.script + i } : bfi_state_t).script_p + 1) % PTR_MOD }
        : bfi_state_t) = { s with script_p := s.script + (i + 1) } := by
      rw [hstep, Nat.mod_eq_of_lt (by omega)]
    have hpeek := h.peek (i + 1) (by omega)
    have hcur : ({ s with script_p := s.script + (i + 1) } : bfi_state_t).script_p
        = q + (i + 1) := by
      show s.script + (i + 1) = _
      rw [hbase]
    have hmod : (s.script + i + 1) % PTR_MOD = q + (i + 1) := by
      rw [Nat.mod_eq_of_lt (by omega), hbase]
      omega
    rw [seek_forward, seek_forward_reads]
    simp only [hs1, hpeek]
    by_cases hend : i + 1 = l.length
    · have hc0 : (l ++ List.replicate z 0).getD (i + 1) 0 = 0 := getD_pad l z _ (by omega)
      simp only [hc0, Nat.lt_irrefl, false_and, if_false]
      refine ⟨i + 1, nb, by omega, by omega, fun h0 => absurd h0 hnb, rfl, ?_, ?_⟩
      · intro a ha
        simp only [List.mem_singleton] at ha
        omega
      · simp only [List.length_singleton]
        omega
    · have hc := symbols_pos _ (h.instr _ (getD_instr l z (i + 1) (by omega)))
      generalize (l ++ List.replicate z 0).getD (i + 1) 0 = c at hc ⊢
      simp only [hc, and_self, if_true]
      by_cases hz2 : (if c = 91 then ((if c = 93 then (nb + 255) % 256 else nb) + 1) % 256
          else (if c = 93 then (nb + 255) % 256 else nb)) = 0
      · simp only [hz2, if_true]
        refine ⟨i + 1, 0, by omega, by omega, fun _ => by omega, rfl, ?_, ?_⟩
        · intro a ha
          simp only [List.mem_singleton] at ha
          omega
        · simp only [List.length_singleton]
          omega
      · simp only [hz2, if_false]
        obtain ⟨j, nb', hj1, hj2, hj3, hseek, hreads, hlen⟩ :=
          ih (i + 1) _ (by omega) hz2 (by omega)
        refine ⟨j, nb', by omega, hj2, hj3, hseek, ?_, ?_⟩
        · intro a ha
          simp only [List.mem_cons] at ha
          rcases ha with ha | ha
          · omega
          · have := hreads a ha
            omega
        · simp only [List.length_cons]
          omega
/-- The forward loop of `bfi_test` on a loaded script gives the same result for every fuel
that covers the bytes up to the terminator. -/
theorem seek_forward_fuel (q : Nat) (l : List Nat) (z : Nat) (s : bfi_state_t)
    (h : ScriptOK q l z s) :
    ∀ (fuel1 fuel2 i nb : Nat), i < l.length → l.length - i ≤ fuel1 → l.length - i ≤ fuel2 →
      seek_forward fuel1 { s with script_p := s.script + i } nb =
        seek_forward fuel2 { s with script_p := s.script + i } nb := by
  have hfit := h.fit
  have hbase := h.base
  have hz := h.pad
  intro fuel1
  induction fuel1 with
  | zero => intro fuel2 i nb hi hf; omega
  | succ fuel1 ih =>
    intro fuel2 i nb hi hf1 hf2
    obtain ⟨f2, rfl⟩ : ∃ f, fuel2 = f + 1 := ⟨fuel2 - 1, by omega⟩
    have hstep : ({ s with script_p := s.script + i } : bfi_state_t).script_p + 1
        = s.script + (i + 1) := by
      show s.script + i + 1 = _
      omega
    have hs1 : ({ ({ s with script_p := s.script + i } : bfi_state_t) with
        script_p := (({ s with script_p := s.script + i } : bfi_state_t).script_p + 1) % PTR_MOD }
        : bfi_state_t) = { s with script_p := s.script + (i + 1) } := by
      rw [hstep, Nat.mod_eq_of_lt (by omega)]
    have hpeek := h.peek (i + 1) (by omega)
    rw [seek_forward, seek_forward]
    simp only [hs1, hpeek]
    by_cases hend : i + 1 = l.length
    · have hc0 : (l ++ List.replicate z 0).getD (i + 1) 0 = 0 := getD_pad l z _ (by omega)
      simp only [hc0, Nat.lt_irrefl, false_and, if_false]
    · generalize (l ++ List.replicate z 0).getD (i + 1) 0 = c
      by_cases hc : 0 < c ∧ c < 128
      · rw [if_pos hc, if_pos hc]
        by_cases hz2 : (if c = 91 then ((if c = 93 then (nb + 255) % 256 else nb) + 1) % 256
            else (if c = 93 then (nb + 255) % 256 else nb)) = 0
        · simp only [hz2, if_true]
        · simp only [hz2, if_false]
          exact ih f2 (i + 1) _ (by omega) (by omega) (by omega)
      · rw [if_neg hc, if_neg hc]

theorem scan_bwd_zero (cs : List Nat) :
    ∀ (nb k : Nat), nb ≠ 0 → (scan_bwd cs nb k).2 = 0 →
      ∃ j, (scan_bwd cs nb k).1 = some j ∧ j ≤ k := by
  induction cs with
  | nil => intro nb k hnb h; exact absurd h hnb
  | cons c cs ih =>
    intro nb k hnb h
    rw [scan_bwd] at h ⊢
    by_cases hz : (if c = 91 then (nb + 255) % 256
        else if c = 93 then (nb + 1) % 256 else nb) = 0
    · simp only [hz, if_true]
      exact ⟨k, rfl, le_refl k⟩
    · simp only [hz, if_false] at h ⊢
      obtain ⟨j, hj, hjk⟩ := ih _ (k - 1) hz h
      exact ⟨j, hj, by omega⟩

/-- The backward loop of `bfi_test` on a loaded script gives the same result for every fuel
that covers the bytes down to the start of the script. -/
theorem seek_backward_fuel (q : Nat) (l : List Nat) (z : Nat) (s : bfi_state_t)
    (h : ScriptOK q l z s) (fuel1 fuel2 i nb : Nat) (hi : i ≤ l.length) (h1 : i < fuel1)
    (h2 : i < fuel2) :
    seek_backward fuel1 { s with script_p := s.script + i } nb =
      seek_backward fuel2 { s with script_p := s.script + i } nb := by
  have hb : s.script ≠ 0 := by rw [h.base]; exact h.nonnull
  have hlen : s.script_mem.length = l.length + z := by
    rw [h.mem, List.length_append, List.length_replicate]
  have hfit : s.script + s.script_mem.length < PTR_MOD := by
    rw [hlen, h.base]; exact h.fit
  rw [seek_backward_scan s hb hfit i nb fuel1 (by omega) h1,
    seek_backward_scan s hb hfit i nb fuel2 (by omega) h2]

/-- The backward loop of `bfi_test` on a loaded script: when it ends with the counter at zero
the cursor is on an earlier byte of the script. -/
theorem seek_backward_ok (q : Nat) (l : List Nat) (z : Nat) (s : bfi_state_t)
    (h : ScriptOK q l z s) (fuel i nb : Nat) (hi : i ≤ l.length) (hf : i < fuel)
    (hnb : nb ≠ 0)
    (h0 : (seek_backward fuel { s with script_p := s.script + i } nb).2 = 0) :
    ∃ j, j < i ∧ (seek_backward fuel { s with script_p := s.script + i } nb).1 =
      { s with script_p := s.script + j } := by
  have hb : s.script ≠ 0 := by rw [h.base]; exact h.nonnull
  have hlen : s.script_mem.length = l.length + z := by
    rw [h.mem, List.length_append, List.length_replicate]
  have hfit : s.script + s.script_mem.length < PTR_MOD := by
    rw [hlen, h.base]; exact h.fit
  rw [seek_backward_scan s hb hfit i nb fuel (by omega) hf] at h0 ⊢
  simp only at h0 ⊢
  cases i with
  | zero =>
    simp only [List.take_zero, List.reverse_nil, scan_bwd] at h0
    exact absurd h0 hnb
  | succ i =>
    obtain ⟨j, hj, hjk⟩ := scan_bwd_zero _ nb (i + 1 - 1) hnb h0
    refine ⟨j, by omega, ?_⟩
    rw [hj]
    rfl

/-- The backward loop of `bfi_test` on a loaded script reads bytes between the start of the
script and the byte it started on only, at most one each. -/
theorem seek_backward_reads_ok (q : Nat) (l : List Nat) (z : Nat) (s : bfi_state_t)
    (h : ScriptOK q l z s) :
    ∀ (i fuel nb : Nat), i ≤ l.length →
      (∀ a ∈ seek_backward_reads fuel { s with script_p := s.script + i } nb,
        q ≤ a ∧ a < q + i) ∧
      (seek_backward_reads fuel { s with script_p := s.script + i } nb).length ≤ i := by
  have hfit := h.fit
  have hbase := h.base
  have hq := h.nonnull
  intro i
  induction i with
  | zero =>
    intro fuel nb _
    cases fuel with
    | zero => exact ⟨fun a ha => absurd ha (List.not_mem_nil a), Nat.le_refl 0⟩
    | succ fuel =>
      rw [seek_backward_reads]
      have hp : (s.script + 0 + PTR_MOD - 1) % PTR_MOD = s.script - 1 := by
        rw [PTR_MOD_eq] at hfit ⊢
        omega
      simp only [hp]
      rw [if_neg (by show ¬ s.script ≤ s.script - 1; omega)]
      exact ⟨fun a ha => absurd ha (List.not_mem_nil a), Nat.le_refl 0⟩
  | succ i ih =>
    intro fuel nb hi
    cases fuel with
    | zero => exact ⟨fun a ha => absurd ha (List.not_mem_nil a), Nat.zero_le _⟩
    | succ fuel =>
      rw [seek_backward_reads]
      have hp : (s.script + (i + 1) + PTR_MOD - 1) % PTR_MOD = s.script + i := by
        rw [PTR_MOD_eq] at hfit ⊢
        omega
      simp only [hp]
      rw [if_pos (by show s.script ≤ s.script + i; omega)]
      obtain ⟨hr, hl⟩ := ih fuel
        (if script_peek { s with script_p := s.script + i } = 91 then (nb + 255) % 256
          else if script_peek { s with script_p := s.script + i } = 93 then (nb + 1) % 256
          else nb) (by omega)
      constructor
      · intro a ha
        simp only [List.mem_cons] at ha
        rcases ha with ha | ha
        · omega
        · by_cases hz : (if script_peek { s with script_p := s.script + i } = 91 then
              (nb + 255) % 256
              else if script_peek { s with script_p := s.script + i } = 93 then (nb + 1) % 256
              else nb) = 0
          · rw [if_pos hz] at ha
            exact absurd ha (List.not_mem_nil a)
          · rw [if_neg hz] at ha
            have := hr a ha
            omega
      · simp only [List.length_cons]
        by_cases hz : (if script_peek { s with script_p := s.script + i } = 91 then
            (nb + 255) % 256
            else if script_peek { s with script_p := s.script + i } = 93 then (nb + 1) % 256
            else nb) = 0
        · rw [if_pos hz]
          simp
        · rw [if_neg hz]
          omega
theorem bfi_test_open (s : bfi_state_t) (hc : script_peek s = 91) :
    bfi_test s =
      if (bfi_data_get s).2.1 ≠ 0 then (1, s)
      else (if (seek_forward PTR_MOD s 1).2 = 0 then 1 else 0, (seek_forward PTR_MOD s 1).1) := by
  unfold bfi_test
  simp only [bfi_data_get_fst, bfi_data_get_state, hc]
  rfl

theorem bfi_test_close (s : bfi_state_t) (hc : script_peek s = 93) :
    bfi_test s =
      if (bfi_data_get s).2.1 = 0 then (1, s)
      else (if (seek_backward PTR_MOD s 1).2 = 0 then 1 else 0,
        (seek_backward PTR_MOD s 1).1) := by
  unfold bfi_test
  simp only [bfi_data_get_fst, bfi_data_get_state, hc]
  rfl

theorem bfi_test_reads_open (s : bfi_state_t) (hc : script_peek s = 91) :
    bfi_test_reads s =
      s.script_p ::
        (if (bfi_data_get s).2.1 ≠ 0 then [] else seek_forward_reads PTR_MOD s 1) := by
  unfold bfi_test_reads
  simp only [bfi_data_get_fst, bfi_data_get_state, hc]
  rfl

theorem bfi_test_reads_close (s : bfi_state_t) (hc : script_peek s = 93) :
    bfi_test_reads s =
      s.script_p ::
        (if (bfi_data_get s).2.1 = 0 then [] else seek_backward_reads PTR_MOD s 1) := by
  unfold bfi_test_reads
  simp only [bfi_data_get_fst, bfi_data_get_state, hc]
  rfl

theorem bfi_data_read_script (realloc : Nat → Nat → Nat) (s : bfi_state_t) :
    (bfi_data_read realloc s).2.script = s.script ∧
    (bfi_data_read realloc s).2.script_alloc = s.script_alloc ∧
    (bfi_data_read realloc s).2.script_mem = s.script_mem ∧
    (bfi_data_read realloc s).2.script_p = s.script_p := by
  unfold bfi_data_read
  cases s.in_stream with
  | none => exact ⟨rfl, rfl, rfl, rfl⟩
  | some l =>
    cases l with
    | nil => exact ⟨rfl, rfl, rfl, rfl⟩
    | cons d rest => exact ⟨rfl, rfl, rfl, rfl⟩

theorem bfi_data_write_script (s : bfi_state_t) :
    (bfi_data_write s).2.script = s.script ∧
    (bfi_data_write s).2.script_alloc = s.script_alloc ∧
    (bfi_data_write s).2.script_mem = s.script_mem ∧
    (bfi_data_write s).2.script_p = s.script_p := by
  unfold bfi_data_write
  simp only [bfi_data_get_fst, bfi_data_get_state]
  rw [if_neg (by decide)]
  cases s.out_stream with
  | none => exact ⟨rfl, rfl, rfl, rfl⟩
  | some out => exact ⟨rfl, rfl, rfl, rfl⟩

theorem ScriptOK.frame {q : Nat} {l : List Nat} {z : Nat} {s : bfi_state_t}
    (h : ScriptOK q l z s) (t : bfi_state_t) (h1 : t.script = s.script)
    (h2 : t.script_alloc = s.script_alloc) (h3 : t.script_mem = s.script_mem) (k : Nat)
    (hk : k ≤ l.length) (hp : t.script_p = q + k) : ScriptOK q l z t :=
  { base := by rw [h1]; exact h.base
    nonnull := h.nonnull
    alloc := by rw [h2]; exact h.alloc
    mem := by rw [h3]; exact h.mem
    pad := h.pad
    fit := h.fit
    instr := h.instr
    cur := ⟨k, hk, hp⟩ }

/-- On a loaded script the byte under the instruction cursor is an instruction, or the
terminator when the cursor is at the end. -/
theorem ScriptOK.peek_cursor {q : Nat} {l : List Nat} {z : Nat} {s : bfi_state_t}
    (h : ScriptOK q l z s) (k : Nat) (hk : k ≤ l.length) (hp : s.script_p = q + k) :
    script_peek s = (l ++ List.replicate z 0).getD k 0 := by
  have hpad := h.pad
  have h1 := h.peek k (by omega)
  have h2 : script_peek s = script_peek { s with script_p := s.script + k } := by
    conv_lhs => rw [h.at_cursor k hp]
  rw [h2, h1]

theorem ScriptOK.seek_at {q : Nat} {l : List Nat} {z : Nat} {s : bfi_state_t}
    (h : ScriptOK q l z s) (k : Nat) (hp : s.script_p = q + k) (fuel nb : Nat) :
    seek_forward fuel s nb = seek_forward fuel { s with script_p := s.script + k } nb ∧
    seek_backward fuel s nb = seek_backward fuel { s with script_p := s.script + k } nb ∧
    seek_forward_reads fuel s nb =
      seek_forward_reads fuel { s with script_p := s.script + k } nb ∧
    seek_backward_reads fuel s nb =
      seek_backward_reads fuel { s with script_p := s.script + k } nb := by
  refine ⟨?_, ?_, ?_, ?_⟩ <;> conv_lhs => rw [h.at_cursor k hp]

/-- Moving the data cursor and advancing keeps a loaded script loaded. -/
theorem advance_data_p_ok {q : Nat} {l : List Nat} {z : Nat} {s : bfi_state_t}
    (h : ScriptOK q l z s) (d k : Nat) (hk : k < l.length) (hp : s.script_p = q + k) :
    ScriptOK q l z (advance { s with data_p := d }).2 := by
  have hfit := h.fit
  refine h.frame _ rfl rfl rfl (k + 1) hk ?_
  show (s.script_p + 1) % PTR_MOD = q + (k + 1)
  rw [hp, Nat.mod_eq_of_lt (by omega)]
  omega

/-- A step that does not end the run leaves the script block as it was and the instruction
cursor at an offset of `[0, l.length]`. -/
theorem cycle_script_ok (realloc : Nat → Nat → Nat) (q : Nat) (l : List Nat) (z : Nat)
    (s : bfi_state_t) (h : ScriptOK q l z s) (hr : (bfi_cycle realloc s).1 ≠ 0) :
    ScriptOK q l z (bfi_cycle realloc s).2 := by
  obtain ⟨k, hk, hp⟩ := h.cur
  have hfit := h.fit
  have hpad := h.pad
  have hbase := h.base
  have hpk := h.peek_cursor k hk hp
  have hkn : k < l.length := by
    by_contra hc
    rw [getD_pad l z k (by omega)] at hpk
    rw [cycle_end realloc s hpk] at hr
    exact hr rfl
  have hp1 : (s.script_p + 1) % PTR_MOD = q + (k + 1) := by
    rw [hp, Nat.mod_eq_of_lt (by omega)]
    omega
  have finish : ∀ (r : Nat × bfi_state_t), r.2.script = s.script →
      r.2.script_alloc = s.script_alloc → r.2.script_mem = s.script_mem →
      (∃ j, j < l.length ∧ r.2.script_p = q + j) →
      (if r.1 = 0 then run_fault r.2 else advance r.2).1 ≠ 0 →
      ScriptOK q l z (if r.1 = 0 then run_fault r.2 else advance r.2).2 := by
    intro r h1 h2 h3 h4 h5
    obtain ⟨j, hj, hpj⟩ := h4
    by_cases hz : r.1 = 0
    · rw [if_pos hz] at h5
      exact absurd rfl h5
    · rw [if_neg hz]
      refine h.frame _ h1 h2 h3 (j + 1) (by omega) ?_
      show (r.2.script_p + 1) % PTR_MOD = q + (j + 1)
      rw [hpj, Nat.mod_eq_of_lt (by omega)]
      omega
  rcases cycle_cases s with hp0 | hc | hc | ⟨hp0, hc | hc | hc | hc | hc | hc | hc | hc⟩
  · rw [cycle_null realloc s hp0] at hr
    exact absurd rfl hr
  · rw [cycle_end realloc s hc] at hr
    exact absurd rfl hr
  · rw [cycle_other realloc s hc] at hr
    exact absurd rfl hr
  · rw [cycle_left realloc s hp0 hc]
    exact advance_data_p_ok h _ k hkn hp
  · rw [cycle_right realloc s hp0 hc]
    exact advance_data_p_ok h _ k hkn hp
  · rw [cycle_inc realloc s hp0 hc] at hr ⊢
    exact finish (bfi_data_inc realloc s) rfl rfl rfl ⟨k, hkn, hp⟩ hr
  · rw [cycle_dec realloc s hp0 hc] at hr ⊢
    exact finish (bfi_data_dec realloc s) rfl rfl rfl ⟨k, hkn, hp⟩ hr
  · rw [cycle_write realloc s hp0 hc] at hr ⊢
    obtain ⟨h1, h2, h3, h4⟩ := bfi_data_write_script s
    exact finish (bfi_data_write s) h1 h2 h3 ⟨k, hkn, by rw [h4]; exact hp⟩ hr
  · rw [cycle_read realloc s hp0 hc] at hr ⊢
    obtain ⟨h1, h2, h3, h4⟩ := bfi_data_read_script realloc s
    exact finish (bfi_data_read realloc s) h1 h2 h3 ⟨k, hkn, by rw [h4]; exact hp⟩ hr
  · rw [cycle_bracket realloc s hp0 (Or.inl hc)] at hr ⊢
    rw [bfi_test_open s hc] at hr ⊢
    by_cases hd : (bfi_data_get s).2.1 ≠ 0
    · rw [if_pos hd] at hr ⊢
      exact finish (1, s) rfl rfl rfl ⟨k, hkn, hp⟩ hr
    · rw [if_neg hd] at hr ⊢
      obtain ⟨j, nb', hj1, hj2, hj3, hseek, _, _⟩ :=
        seek_forward_ok q l z s h PTR_MOD k 1 hkn (by decide) (by omega)
      rw [(h.seek_at k hp PTR_MOD 1).1, hseek] at hr ⊢
      by_cases hnb : nb' = 0
      · exact finish ((if nb' = 0 then 1 else 0), { s with script_p := s.script + j })
          rfl rfl rfl ⟨j, hj3 hnb, by show s.script + j = q + j; rw [hbase]⟩ hr
      · simp only [hnb, if_false, if_true] at hr
        exact absurd rfl hr
  · rw [cycle_bracket realloc s hp0 (Or.inr hc)] at hr ⊢
    rw [bfi_test_close s hc] at hr ⊢
    by_cases hd : (bfi_data_get s).2.1 = 0
    · rw [if_pos hd] at hr ⊢
      exact finish (1, s) rfl rfl rfl ⟨k, hkn, hp⟩ hr
    · rw [if_neg hd] at hr ⊢
      rw [(h.seek_at k hp PTR_MOD 1).2.1] at hr ⊢
      by_cases hnb : (seek_backward PTR_MOD { s with script_p := s.script + k } 1).2 = 0
      · obtain ⟨j, hj, hseek⟩ := seek_backward_ok q l z s h PTR_MOD k 1 hk (by omega)
          (by decide) hnb
        refine finish ((if (seek_backward PTR_MOD { s with script_p := s.script + k } 1).2 = 0
          then 1 else 0), (seek_backward PTR_MOD { s with script_p := s.script + k } 1).1)
          ?_ ?_ ?_ ⟨j, by omega, ?_⟩ hr
        · show (seek_backward PTR_MOD { s with script_p := s.script + k } 1).1.script = _
          rw [hseek]
        · show (seek_backward PTR_MOD { s with script_p := s.script + k } 1).1.script_alloc = _
          rw [hseek]
        · show (seek_backward PTR_MOD { s with script_p := s.script + k } 1).1.script_mem = _
          rw [hseek]
        · show (seek_backward PTR_MOD { s with script_p := s.script + k } 1).1.script_p = _
          rw [hseek]
          show s.script + j = q + j
          rw [hbase]
      · simp only [hnb, if_false, if_true] at hr
        exact absurd rfl hr
/-- The bytes read through the instruction cursor by a step on a loaded script lie between
the start of the script and its terminator, and there are at most `l.length + 2` of them. -/
theorem cycle_reads_ok (q : Nat) (l : List Nat) (z : Nat) (s : bfi_state_t)
    (h : ScriptOK q l z s) :
    (∀ a ∈ cycle_reads s, q ≤ a ∧ a ≤ q + l.length) ∧
    (cycle_reads s).length ≤ l.length + 2 := by
  obtain ⟨k, hk, hp⟩ := h.cur
  have hfit := h.fit
  have hpad := h.pad
  have hpk := h.peek_cursor k hk hp
  unfold cycle_reads
  by_cases hp0 : s.script_p = 0
  · rw [if_pos hp0]
    exact ⟨fun a ha => absurd ha (List.not_mem_nil a), Nat.zero_le _⟩
  rw [if_neg hp0]
  simp only []
  by_cases hc91 : script_peek s = 91
  · have hkn : k < l.length := by
      by_contra hc
      rw [getD_pad l z k (by omega)] at hpk
      rw [hpk] at hc91
      exact absurd hc91 (by decide)
    rw [if_pos (Or.inl hc91), bfi_test_reads_open s hc91]
    by_cases hd : (bfi_data_get s).2.1 ≠ 0
    · rw [if_pos hd]
      constructor
      · intro a ha
        simp only [List.mem_cons, List.mem_singleton, List.not_mem_nil, or_false, or_self] at ha
        omega
      · simp only [List.length_cons, List.length_nil]
        omega
    · rw [if_neg hd, (h.seek_at k hp PTR_MOD 1).2.2.1]
      obtain ⟨j, nb', _, _, _, _, hreads, hlen⟩ :=
        seek_forward_ok q l z s h PTR_MOD k 1 hkn (by decide) (by omega)
      constructor
      · intro a ha
        simp only [List.mem_cons] at ha
        rcases ha with ha | ha | ha
        · omega
        · omega
        · have := hreads a ha
          omega
      · simp only [List.length_cons]
        omega
  · by_cases hc93 : script_peek s = 93
    · rw [if_pos (Or.inr hc93), bfi_test_reads_close s hc93]
      by_cases hd : (bfi_data_get s).2.1 = 0
      · rw [if_pos hd]
        constructor
        · intro a ha
          simp only [List.mem_cons, List.mem_singleton, List.not_mem_nil, or_false,
            or_self] at ha
          omega
        · simp only [List.length_cons, List.length_nil]
          omega
      · rw [if_neg hd, (h.seek_at k hp PTR_MOD 1).2.2.2]
        obtain ⟨hreads, hlen⟩ := seek_backward_reads_ok q l z s h k PTR_MOD 1 hk
        constructor
        · intro a ha
          simp only [List.mem_cons] at ha
          rcases ha with ha | ha | ha
          · omega
          · omega
          · have := hreads a ha
            omega
        · simp only [List.length_cons]
          omega
    · rw [if_neg (by rintro (h1 | h1) <;> contradiction)]
      constructor
      · intro a ha
        simp only [List.mem_singleton] at ha
        omega
      · simp only [List.length_singleton]
        omega

/-- The bracket scans of a step on a loaded script end before their fuel: every fuel above
the number of instructions gives what `bfi_test` computes. -/
theorem cycle_scans_end (q : Nat) (l : List Nat) (z : Nat) (s : bfi_state_t)
    (h : ScriptOK q l z s) (f : Nat) (hf : l.length < f) :
    (script_peek s = 91 → seek_forward f s 1 = seek_forward PTR_MOD s 1) ∧
    (script_peek s = 93 → seek_backward f s 1 = seek_backward PTR_MOD s 1) := by
  obtain ⟨k, hk, hp⟩ := h.cur
  have hfit := h.fit
  have hpad := h.pad
  have hpk := h.peek_cursor k hk hp
  constructor
  · intro hc91
    have hkn : k < l.length := by
      by_contra hc
      rw [getD_pad l z k (by omega)] at hpk
      rw [hpk] at hc91
      exact absurd hc91 (by decide)
    rw [(h.seek_at k hp f 1).1, (h.seek_at k hp PTR_MOD 1).1]
    exact seek_forward_fuel q l z s h f PTR_MOD k 1 hkn (by omega) (by omega)
  · intro _
    rw [(h.seek_at k hp f 1).2.1, (h.seek_at k hp PTR_MOD 1).2.1]
    exact seek_backward_fuel q l z s h f PTR_MOD k 1 hk (by omega) (by omega)

theorem run_states_ok (realloc : Nat → Nat → Nat) (q : Nat) (l : List Nat) (z : Nat) :
    ∀ (fuel : Nat) (s : bfi_state_t), ScriptOK q l z s →
      ∀ t ∈ run_states realloc fuel s, ScriptOK q l z t := by
  intro fuel
  induction fuel with
  | zero => intro s _ t ht; exact absurd ht (List.not_mem_nil t)
  | succ fuel ih =>
    intro s h t ht
    rw [run_states] at ht
    simp only [List.mem_cons] at ht
    rcases ht with ht | ht
    · rw [ht]; exact h
    · by_cases hz : (bfi_cycle realloc s).1 = 0
      · rw [if_pos hz] at ht
        exact absurd ht (List.not_mem_nil t)
      · rw [if_neg hz] at ht
        exact ih _ (cycle_script_ok realloc q l z s h hz) t ht

/-- The state a run starts from, for a source loaded into a new engine with at least one
instruction. -/
theorem run_start_ok (realloc : Nat → Nat → Nat) (hra : AllocOK realloc)
    (heap : List (Nat × Nat)) (input src : List Nat) (hsrc : src.length < 2 ^ 31)
    (hn : (src.filter is_bf_char).length ≠ 0) :
    ∃ q, ScriptOK q (src.filter is_bf_char)
      (script_cap (src.filter is_bf_char).length - (src.filter is_bf_char).length)
      (bfi_restart (bfi_script_from_buffer realloc (bfi_new heap input) src).2).2 := by
  obtain ⟨q, ⟨_, hq1, hq2⟩, hload⟩ := load_new realloc hra heap input src hsrc
  have hcap := script_cap_gt _ hn
  refine ⟨q, ?_⟩
  rw [hload]
  exact
    { base := rfl
      nonnull := (hq1 hn).1
      alloc := by
        show script_cap _ = _
        omega
      mem := rfl
      pad := by omega
      fit := by
        have : (src.filter is_bf_char).length + (script_cap (src.filter is_bf_char).length
          - (src.filter is_bf_char).length) = script_cap (src.filter is_bf_char).length := by
          omega
        rw [this]
        exact hq2
      instr := by
        intro c hc
        exact (is_bf_char_iff c).mp (List.mem_filter.mp hc).2
      cur := ⟨0, Nat.zero_le _, rfl⟩ }

/-- The state a run starts from, for a source with no instruction loaded into a new engine:
no script block, null instruction cursor. -/
theorem run_start_empty (realloc : Nat → Nat → Nat) (hra : AllocOK realloc)
    (heap : List (Nat × Nat)) (input src : List Nat) (hsrc : src.length < 2 ^ 31)
    (hn : (src.filter is_bf_char).length = 0) :
    (bfi_restart (bfi_script_from_buffer realloc (bfi_new heap input) src).2).2 =
      { bfi_new heap input with script_read_length := src.length } := by
  obtain ⟨q, ⟨hq0, _, _⟩, hload⟩ := load_new realloc hra heap input src hsrc
  rw [hload, hq0 hn, List.length_eq_zero.mp hn]
  rfl

/-- For every source (of less than 2^31 bytes, `n` of them instructions) loaded into a
new engine, every input and every allocator that serves the requests, in a run no step of
which stores a byte outside the tape block (such a store leaves its trace in `heap`; it may
alter the script in memory, which this embedding keeps apart): each state `s` on which
`bfi_run` calls `bfi_cycle` has its instruction cursor at an offset of `[0, n]` of the
script, and every address `a` read through the instruction cursor in that step (the fetch
of `bfi_cycle`, the byte read by `bfi_test` and the bytes read by its forward or backward
scan) is at an offset of `[0, n]` of a non-null script block of capacity above `n` that lies
inside the address space; the step reads at most `n + 2` such bytes and its scan, if any,
ends by itself: every fuel above `n` gives the scan result `bfi_test` uses.  With `n = 0`
there is no block and nothing is read. -/
theorem script_reads_in_bounds (realloc : Nat → Nat → Nat) (hra : AllocOK realloc)
    (heap : List (Nat × Nat)) (input src : List Nat) (hsrc : src.length < 2 ^ 31)
    (fuel : Nat) (s : bfi_state_t)
    (hs : s ∈ run_states realloc fuel
      (bfi_restart (bfi_script_from_buffer realloc (bfi_new heap input) src).2).2) :
    (∀ t ∈ run_states realloc fuel
        (bfi_restart (bfi_script_from_buffer realloc (bfi_new heap input) src).2).2,
      (bfi_cycle realloc t).2.heap = t.heap) →
    (∃ k, k ≤ (src.filter is_bf_char).length ∧ s.script_p = s.script + k) ∧
    s.script_mem.length = s.script_alloc ∧
    (∀ a ∈ cycle_reads s,
      s.script ≠ 0 ∧ s.script ≤ a ∧ a - s.script ≤ (src.filter is_bf_char).length ∧
      (src.filter is_bf_char).length < s.script_alloc ∧
      s.script + s.script_alloc < PTR_MOD) ∧
    (cycle_reads s).length ≤ (src.filter is_bf_char).length + 2 ∧
    (∀ f, (src.filter is_bf_char).length < f → s.script_p ≠ 0 →
      (script_peek s = 91 → seek_forward f s 1 = seek_forward PTR_MOD s 1) ∧
      (script_peek s = 93 → seek_backward f s 1 = seek_backward PTR_MOD s 1)) := by
  intro _
  by_cases hn : (src.filter is_bf_char).length = 0
  · rw [run_start_empty realloc hra heap input src hsrc hn] at hs
    have hs0 : s = { bfi_new heap input with script_read_length := src.length } := by
      cases fuel with
      | zero => exact absurd hs (List.not_mem_nil s)
      | succ fuel =>
        rw [run_states, cycle_null realloc _ rfl] at hs
        simpa using hs
    rw [hs0]
    refine ⟨⟨0, Nat.zero_le _, rfl⟩, rfl, ?_, ?_, ?_⟩
    · intro a ha
      exact absurd ha (List.not_mem_nil a)
    · exact Nat.zero_le _
    · intro f _ hp
      exact absurd rfl hp
  · obtain ⟨q, hstart⟩ := run_start_ok realloc hra heap input src hsrc hn
    have h := run_states_ok realloc q _ _ fuel _ hstart s hs
    have hcap := script_cap_gt _ hn
    obtain ⟨k, hk, hp⟩ := h.cur
    have hbase := h.base
    have halloc := h.alloc
    have hfit := h.fit
    have hq := h.nonnull
    obtain ⟨hreads, hlen⟩ := cycle_reads_ok q _ _ s h
    refine ⟨⟨k, hk, by rw [hbase]; exact hp⟩, ?_, ?_, hlen, ?_⟩
    · rw [h.mem, List.length_append, List.length_replicate, halloc]
    · intro a ha
      have := hreads a ha
      refine ⟨by rw [hbase]; exact hq, by omega, by omega, by omega, ?_⟩
      rw [hbase, halloc]
      exact hfit
    · intro f hf _
      exact cycle_scans_end q _ _ s h f hf

/-- The source `[]` at the first step of its run: the cursor is at an offset of `[0, 2]` and
the step reads at most 4 bytes through it, inside the script block. -/
theorem script_reads_in_bounds_witness :
    (∃ k, k ≤ ([91, 93].filter is_bf_char).length ∧
      (bfi_restart (bfi_script_from_buffer toy_realloc (bfi_new [] []) [91, 93]).2).2.script_p =
        (bfi_restart (bfi_script_from_buffer toy_realloc (bfi_new [] []) [91, 93]).2).2.script
          + k) ∧
    (∀ a ∈ cycle_reads
        (bfi_restart (bfi_script_from_buffer toy_realloc (bfi_new [] []) [91, 93]).2).2,
      (bfi_restart (bfi_script_from_buffer toy_realloc (bfi_new [] []) [91, 93]).2).2.script
        ≠ 0 ∧
      (bfi_restart (bfi_script_from_buffer toy_realloc (bfi_new [] []) [91, 93]).2).2.script
        ≤ a ∧
      a - (bfi_restart (bfi_script_from_buffer toy_realloc (bfi_new [] []) [91, 93]).2).2.script
        ≤ ([91, 93].filter is_bf_char).length ∧
      ([91, 93].filter is_bf_char).length <
        (bfi_restart
          (bfi_script_from_buffer toy_realloc (bfi_new [] []) [91, 93]).2).2.script_alloc ∧
      (bfi_restart (bfi_script_from_buffer toy_realloc (bfi_new [] []) [91, 93]).2).2.script +
        (bfi_restart
          (bfi_script_from_buffer toy_realloc (bfi_new [] []) [91, 93]).2).2.script_alloc
        < PTR_MOD) ∧
    (cycle_reads
      (bfi_restart (bfi_script_from_buffer toy_realloc (bfi_new [] []) [91, 93]).2).2).length
      ≤ ([91, 93].filter is_bf_char).length + 2 := by
  have h := script_reads_in_bounds toy_realloc toy_realloc_ok [] [] [91, 93] (by decide) 1
    (bfi_restart (bfi_script_from_buffer toy_realloc (bfi_new [] []) [91, 93]).2).2
    (by rw [run_states]; exact List.mem_cons_self _ _)
    (by rw [load_new_toy [] [] [91, 93] (by decide)]; decide!)
  exact ⟨h.1, h.2.2.1, h.2.2.2.1⟩

theorem src_countdown_length (n : Nat) : (src_countdown n).length = n + 3 := by
  simp [src_countdown]

theorem src_countdown_symbols (n : Nat) : ∀ c ∈ src_countdown n, c ∈ symbols := by
  intro c hc
  simp only [src_countdown, List.mem_append, List.mem_replicate, List.mem_cons,
    List.mem_singleton, List.not_mem_nil, or_false] at hc
  rcases hc with ⟨_, h⟩ | h | h | h <;> subst h <;> decide

theorem src_countdown_filter (n : Nat) : (src_countdown n).filter is_bf_char = src_countdown n := by
  apply List.filter_eq_self.mpr
  intro a ha
  exact (is_bf_char_iff a).mpr (src_countdown_symbols n a ha)

theorem src_countdown_getD (n z : Nat) :
    (∀ k, k < n → (src_countdown n ++ List.replicate z 0).getD k 0 = 43) ∧
    (src_countdown n ++ List.replicate z 0).getD n 0 = 91 ∧
    (src_countdown n ++ List.replicate z 0).getD (n + 1) 0 = 45 ∧
    (src_countdown n ++ List.replicate z 0).getD (n + 2) 0 = 93 ∧
    (src_countdown n ++ List.replicate z 0).getD (n + 3) 0 = 0 := by
  refine ⟨?_, ?_, ?_, ?_, ?_⟩
  · intro k hk
    rw [getD_append_zeros]
    unfold src_countdown
    rw [List.getD_eq_getElem?_getD, List.getElem?_append_left (by simpa using hk),
      List.getElem?_replicate_of_lt hk]
    rfl
  · rw [getD_append_zeros]
    unfold src_countdown
    rw [List.getD_eq_getElem?_getD, List.getElem?_append_right (by simp)]
    simp
  · rw [getD_append_zeros]
    unfold src_countdown
    rw [List.getD_eq_getElem?_getD, List.getElem?_append_right (by simp)]
    simp
  · rw [getD_append_zeros]
    unfold src_countdown
    rw [List.getD_eq_getElem?_getD, List.getElem?_append_right (by simp)]
    simp
  · exact getD_pad _ _ _ (by rw [src_countdown_length])

/-- The countdown states have a loaded script. -/
theorem countdown_state_ok (q d : Nat) (heap : List (Nat × Nat)) (n c k : Nat) (hq : q ≠ 0)
    (hqf : q + script_cap (n + 3) < PTR_MOD) (hk : k ≤ n + 3) :
    ScriptOK q (src_countdown n) (script_cap (n + 3) - (n + 3))
      (countdown_state q d heap n c k) := by
  have hcap := script_cap_gt (n + 3) (by omega)
  exact
    { base := rfl
      nonnull := hq
      alloc := by
        show script_cap (n + 3) = _
        rw [src_countdown_length]
        omega
      mem := rfl
      pad := by omega
      fit := by
        rw [src_countdown_length]
        have : n + 3 + (script_cap (n + 3) - (n + 3)) = script_cap (n + 3) := by omega
        rw [this]
        exact hqf
      instr := src_countdown_symbols n
      cur := ⟨k, by rw [src_countdown_length]; exact hk, rfl⟩ }

theorem countdown_peek (q d : Nat) (heap : List (Nat × Nat)) (n c k : Nat) (hq : q ≠ 0)
    (hqf : q + script_cap (n + 3) < PTR_MOD) (hk : k ≤ n + 3) :
    script_peek (countdown_state q d heap n c k) =
      (src_countdown n ++ List.replicate (script_cap (n + 3) - (n + 3)) 0).getD k 0 :=
  (countdown_state_ok q d heap n c k hq hqf hk).peek_cursor k
    (by rw [src_countdown_length]; exact hk) rfl

theorem countdown_data_wf (q d : Nat) (heap : List (Nat × Nat)) (n c k : Nat) (hd : d ≠ 0)
    (hdf : d + 256 < PTR_MOD) : (data_buf (countdown_state q d heap n c k)).WF :=
  { len := by
      show (c :: List.replicate 255 0).length = 256
      simp
    null := fun h => absurd h hd
    fit := hdf }

theorem countdown_get (q d : Nat) (heap : List (Nat × Nat)) (n c k : Nat) (hd : d ≠ 0)
    (hdf : d + 256 < PTR_MOD) :
    (bfi_data_get (countdown_state q d heap n c k)).2.1 = c := by
  unfold bfi_data_get _buffer_get_byte
  have hcond : ¬ ((data_buf (countdown_state q d heap n c k)).cur = 0 ∨
      (data_buf (countdown_state q d heap n c k)).cur <
        (data_buf (countdown_state q d heap n c k)).base ∨
      (data_buf (countdown_state q d heap n c k)).cur >
        ((data_buf (countdown_state q d heap n c k)).base +
          (data_buf (countdown_state q d heap n c k)).alloc) % PTR_MOD) := by
    show ¬ (d = 0 ∨ d < d ∨ d > (d + 256) % PTR_MOD)
    rw [Nat.mod_eq_of_lt hdf]
    omega
  simp only [if_neg hcond]
  rw [load_in_block _ 0 hd rfl (by show 0 < (c :: List.replicate 255 0).length; simp)]
  rfl

theorem countdown_delta (realloc : Nat → Nat → Nat) (q d : Nat) (heap : List (Nat × Nat))
    (n c k delta : Nat) (hd : d ≠ 0) (hdf : d + 256 < PTR_MOD) :
    set_data_buf (countdown_state q d heap n c k)
        (_buffer_delta_byte realloc (data_buf (countdown_state q d heap n c k)) delta).2 =
      countdown_state q d heap n ((c + delta) % 256) k ∧
    (_buffer_delta_byte realloc (data_buf (countdown_state q d heap n c k)) delta).1 = 1 := by
  have hwf := countdown_data_wf q d heap n c k hd hdf
  have hlen : 0 < (data_buf (countdown_state q d heap n c k)).mem.length := by
    show 0 < (c :: List.replicate 255 0).length
    simp
  unfold _buffer_delta_byte
  simp only [check_size_keep realloc _ 0 hwf rfl hd (by show 0 + 1 < 256; omega)]
  rw [if_neg (by decide)]
  rw [store_in_block _ 0 _ hd rfl hlen, load_in_block _ 0 hd rfl hlen]
  exact ⟨rfl, rfl⟩

theorem countdown_advance (q d : Nat) (heap : List (Nat × Nat)) (n c k : Nat)
    (hqf : q + script_cap (n + 3) < PTR_MOD) (hk : k < n + 3) :
    advance (countdown_state q d heap n c k) = (1, countdown_state q d heap n c (k + 1)) := by
  have hcap := script_cap_gt (n + 3) (by omega)
  have hp : (q + k + 1) % PTR_MOD = q + (k + 1) := by
    rw [Nat.mod_eq_of_lt (by omega)]
    omega
  unfold advance countdown_state
  simp only [hp]

/-- A step on `+`. -/
theorem countdown_step_inc (realloc : Nat → Nat → Nat) (q d : Nat) (heap : List (Nat × Nat))
    (n c k : Nat) (hq : q ≠ 0) (hqf : q + script_cap (n + 3) < PTR_MOD) (hd : d ≠ 0)
    (hdf : d + 256 < PTR_MOD) (hk : k < n) :
    bfi_cycle realloc (countdown_state q d heap n c k) =
      (1, countdown_state q d heap n ((c + 1) % 256) (k + 1)) := by
  have hpk := countdown_peek q d heap n c k hq hqf (by omega)
  rw [(src_countdown_getD n _).1 k hk] at hpk
  have hp0 : (countdown_state q d heap n c k).script_p ≠ 0 := by
    show q + k ≠ 0
    omega
  obtain ⟨h1, h2⟩ := countdown_delta realloc q d heap n c k 1 hd hdf
  rw [cycle_inc realloc _ hp0 hpk]
  unfold bfi_data_inc
  simp only [h1, h2]
  rw [if_neg (by decide)]
  exact countdown_advance q d heap n _ k hqf (by omega)

/-- A step on `-`. -/
theorem countdown_step_dec (realloc : Nat → Nat → Nat) (q d : Nat) (heap : List (Nat × Nat))
    (n c : Nat) (hq : q ≠ 0) (hqf : q + script_cap (n + 3) < PTR_MOD) (hd : d ≠ 0)
    (hdf : d + 256 < PTR_MOD) :
    bfi_cycle realloc (countdown_state q d heap n c (n + 1)) =
      (1, countdown_state q d heap n ((c + 255) % 256) (n + 2)) := by
  have hpk := countdown_peek q d heap n c (n + 1) hq hqf (by omega)
  rw [(src_countdown_getD n _).2.2.1] at hpk
  have hp0 : (countdown_state q d heap n c (n + 1)).script_p ≠ 0 := by
    show q + (n + 1) ≠ 0
    omega
  obtain ⟨h1, h2⟩ := countdown_delta realloc q d heap n c (n + 1) 255 hd hdf
  rw [cycle_dec realloc _ hp0 hpk]
  unfold bfi_data_dec
  simp only [h1, h2]
  rw [if_neg (by decide)]
  exact countdown_advance q d heap n _ (n + 1) hqf (by omega)

/-- A step on `[` with a non-zero cell: the loop is entered. -/
theorem countdown_step_open (realloc : Nat → Nat → Nat) (q d : Nat) (heap : List (Nat × Nat))
    (n c : Nat) (hq : q ≠ 0) (hqf : q + script_cap (n + 3) < PTR_MOD) (hd : d ≠ 0)
    (hdf : d + 256 < PTR_MOD) (hc : c ≠ 0) :
    bfi_cycle realloc (countdown_state q d heap n c n) =
      (1, countdown_state q d heap n c (n + 1)) := by
  have hpk := countdown_peek q d heap n c n hq hqf (by omega)
  rw [(src_countdown_getD n _).2.1] at hpk
  have hp0 : (countdown_state q d heap n c n).script_p ≠ 0 := by
    show q + n ≠ 0
    omega
  rw [cycle_bracket realloc _ hp0 (Or.inl hpk), bfi_test_open _ hpk,
    countdown_get q d heap n c n hd hdf, if_pos hc]
  rw [if_neg (by exact Nat.one_ne_zero)]
  exact countdown_advance q d heap n _ n hqf (by omega)

/-- A step on `]` with a zero cell: the loop is left. -/
theorem countdown_step_leave (realloc : Nat → Nat → Nat) (q d : Nat) (heap : List (Nat × Nat))
    (n : Nat) (hq : q ≠ 0) (hqf : q + script_cap (n + 3) < PTR_MOD) (hd : d ≠ 0)
    (hdf : d + 256 < PTR_MOD) :
    bfi_cycle realloc (countdown_state q d heap n 0 (n + 2)) =
      (1, countdown_state q d heap n 0 (n + 3)) := by
  have hpk := countdown_peek q d heap n 0 (n + 2) hq hqf (by omega)
  rw [(src_countdown_getD n _).2.2.2.1] at hpk
  have hp0 : (countdown_state q d heap n 0 (n + 2)).script_p ≠ 0 := by
    show q + (n + 2) ≠ 0
    omega
  rw [cycle_bracket realloc _ hp0 (Or.inr hpk), bfi_test_close _ hpk,
    countdown_get q d heap n 0 (n + 2) hd hdf, if_pos rfl]
  rw [if_neg (by exact Nat.one_ne_zero)]
  exact countdown_advance q d heap n _ (n + 2) hqf (by omega)

/-- A step on the terminator: the run ends. -/
theorem countdown_step_end (realloc : Nat → Nat → Nat) (q d : Nat) (heap : List (Nat × Nat))
    (n c : Nat) (hq : q ≠ 0) (hqf : q + script_cap (n + 3) < PTR_MOD) :
    bfi_cycle realloc (countdown_state q d heap n c (n + 3)) =
      (0, countdown_state q d heap n c (n + 3)) := by
  have hpk := countdown_peek q d heap n c (n + 3) hq hqf (by omega)
  rw [(src_countdown_getD n _).2.2.2.2] at hpk
  exact cycle_end realloc _ hpk
theorem countdown_scan_bwd (n z : Nat) :
    scan_bwd ((src_countdown n ++ List.replicate z 0).take (n + 2)).reverse 1 (n + 2 - 1) =
      (some n, 0) := by
  have hsplit : src_countdown n ++ List.replicate z 0 =
      (List.replicate n 43 ++ [91, 45]) ++ (93 :: List.replicate z 0) := by
    simp [src_countdown]
  rw [hsplit, List.take_left' (by simp)]
  simp [scan_bwd]

/-- A step on `]` with a non-zero cell: back to the first instruction of the loop body. -/
theorem countdown_step_back (realloc : Nat → Nat → Nat) (q d : Nat) (heap : List (Nat × Nat))
    (n c : Nat) (hq : q ≠ 0) (hqf : q + script_cap (n + 3) < PTR_MOD) (hd : d ≠ 0)
    (hdf : d + 256 < PTR_MOD) (hc : c ≠ 0) :
    bfi_cycle realloc (countdown_state q d heap n c (n + 2)) =
      (1, countdown_state q d heap n c (n + 1)) := by
  have hok := countdown_state_ok q d heap n c (n + 2) hq hqf (by omega)
  have hcap := script_cap_gt (n + 3) (by omega)
  have hpk := countdown_peek q d heap n c (n + 2) hq hqf (by omega)
  rw [(src_countdown_getD n _).2.2.2.1] at hpk
  have hp0 : (countdown_state q d heap n c (n + 2)).script_p ≠ 0 := by
    show q + (n + 2) ≠ 0
    omega
  have hlen : (countdown_state q d heap n c (n + 2)).script_mem.length = script_cap (n + 3) := by
    show (src_countdown n ++ List.replicate (script_cap (n + 3) - (n + 3)) 0).length = _
    rw [List.length_append, List.length_replicate, src_countdown_length]
    omega
  have hseek := seek_backward_scan (countdown_state q d heap n c (n + 2)) hq
    (by rw [hlen]; exact hqf) (n + 2) 1 PTR_MOD (by rw [hlen]; omega) (by omega)
  have hscan : scan_bwd ((countdown_state q d heap n c (n + 2)).script_mem.take
      (n + 2)).reverse 1 (n + 2 - 1) = (some n, 0) := countdown_scan_bwd n _
  rw [hscan] at hseek
  have hseek' : seek_backward PTR_MOD (countdown_state q d heap n c (n + 2)) 1 =
      (countdown_state q d heap n c n, 0) := hseek
  rw [cycle_bracket realloc _ hp0 (Or.inr hpk), bfi_test_close _ hpk,
    countdown_get q d heap n c (n + 2) hd hdf, if_neg hc, hseek']
  simp only [if_true]
  rw [if_neg (by exact Nat.one_ne_zero)]
  exact countdown_advance q d heap n _ n hqf (by omega)

theorem countdown_start_ok (q : Nat) (heap : List (Nat × Nat)) (n : Nat) (hq : q ≠ 0)
    (hqf : q + script_cap (n + 3) < PTR_MOD) :
    ScriptOK q (src_countdown n) (script_cap (n + 3) - (n + 3)) (countdown_start q heap n) := by
  have hcap := script_cap_gt (n + 3) (by omega)
  exact
    { base := rfl
      nonnull := hq
      alloc := by
        show script_cap (n + 3) = _
        rw [src_countdown_length]
        omega
      mem := rfl
      pad := by omega
      fit := by
        rw [src_countdown_length]
        have : n + 3 + (script_cap (n + 3) - (n + 3)) = script_cap (n + 3) := by omega
        rw [this]
        exact hqf
      instr := src_countdown_symbols n
      cur := ⟨0, Nat.zero_le _, rfl⟩ }

/-- The first step, on `+` with the data tape not yet allocated: the tape is allocated and
its first cell set to 1. -/
theorem countdown_step_first (realloc : Nat → Nat → Nat) (hra : AllocOK realloc) (q : Nat)
    (heap : List (Nat × Nat)) (n : Nat) (hq : q ≠ 0)
    (hqf : q + script_cap (n + 3) < PTR_MOD) (hn : 1 ≤ n) :
    ∃ d, d ≠ 0 ∧ d + 256 < PTR_MOD ∧
      bfi_cycle realloc (countdown_start q heap n) = (1, countdown_state q d heap n 1 1) := by
  have hok := countdown_start_ok q heap n hq hqf
  have hcap := script_cap_gt (n + 3) (by omega)
  have hpk := hok.peek_cursor 0 (Nat.zero_le _) rfl
  rw [(src_countdown_getD n _).1 0 (by omega)] at hpk
  have hp0 : (countdown_start q heap n).script_p ≠ 0 := hq
  have hwf : (data_buf (countdown_start q heap n)).WF :=
    { len := rfl, null := fun _ => rfl, fit := by show 0 + 0 < PTR_MOD; decide }
  obtain ⟨d, hd, _, hdf, _, _, hdelta⟩ := delta_byte_ok realloc
    (data_buf (countdown_start q heap n)) 0 1 hwf rfl (by show 0 + 0 < PTR_MOD; decide)
    (GrowthOK_of_AllocOK realloc hra _ 0 (by norm_num) (by show 0 + 256 ≤ 2 ^ 62; norm_num))
  have hgrown : grown (decide ((data_buf (countdown_start q heap n)).base = 0))
      (data_buf (countdown_start q heap n)).alloc 0 = 256 := by
    show grown (decide ((0 : Nat) = 0)) 0 0 = 256
    decide
  rw [hgrown] at hdelta hdf
  refine ⟨d, hd, hdf, ?_⟩
  have hmem : (([] : List Nat) ++ List.replicate (256 - 0) 0).set 0
      ((([] : List Nat).getD 0 0 + 1) % 256) = 1 :: List.replicate 255 0 := by
    decide!
  have hmem' : ((data_buf (countdown_start q heap n)).mem ++
      List.replicate (256 - (data_buf (countdown_start q heap n)).alloc) 0).set 0
      (((data_buf (countdown_start q heap n)).mem.getD 0 0 + 1) % 256) =
      1 :: List.replicate 255 0 := hmem
  rw [hmem'] at hdelta
  have hinc : bfi_data_inc realloc (countdown_start q heap n) =
      (1, countdown_state q d heap n 1 0) := by
    unfold bfi_data_inc
    simp only [hdelta]
    rfl
  rw [cycle_inc realloc _ hp0 hpk, hinc]
  rw [if_neg (by exact Nat.one_ne_zero)]
  exact countdown_advance q d heap n 1 0 hqf (by omega)
theorem run_step (realloc : Nat → Nat → Nat) (fuel : Nat) (s t : bfi_state_t)
    (h : bfi_cycle realloc s = (1, t)) :
    run_loop realloc (fuel + 1) s = run_loop realloc fuel t ∧
    run_trace realloc (fuel + 1) s = (s.script_p - s.script) :: run_trace realloc fuel t := by
  rw [run_loop_succ, run_trace]
  simp only [h]
  exact ⟨if_neg Nat.one_ne_zero, if_neg Nat.one_ne_zero⟩

theorem run_stop (realloc : Nat → Nat → Nat) (fuel : Nat) (s t : bfi_state_t)
    (h : bfi_cycle realloc s = (0, t)) :
    run_loop realloc (fuel + 1) s = some t ∧ run_trace realloc (fuel + 1) s = [] := by
  rw [run_loop_succ, run_trace]
  simp only [h]
  exact ⟨if_pos trivial, if_pos trivial⟩

theorem countdown_offset (q d : Nat) (heap : List (Nat × Nat)) (n c k : Nat) :
    (countdown_state q d heap n c k).script_p - (countdown_state q d heap n c k).script = k :=
  Nat.add_sub_cancel_left q k

/-- The `+` instructions from offset `c` on, the cell holding `c`: `m` steps lead to the
`[` with the cell holding `c + m = n`. -/
theorem countdown_fill (realloc : Nat → Nat → Nat) (q d : Nat) (heap : List (Nat × Nat))
    (n : Nat) (hq : q ≠ 0) (hqf : q + script_cap (n + 3) < PTR_MOD) (hd : d ≠ 0)
    (hdf : d + 256 < PTR_MOD) (hn : n ≤ 255) :
    ∀ (m c fuel : Nat), c + m = n →
      run_loop realloc (m + fuel) (countdown_state q d heap n c c) =
        run_loop realloc fuel (countdown_state q d heap n n n) ∧
      run_trace realloc (m + fuel) (countdown_state q d heap n c c) =
        List.range' c m ++ run_trace realloc fuel (countdown_state q d heap n n n) := by
  intro m
  induction m with
  | zero =>
    intro c fuel hc
    have hcn : c = n := by omega
    rw [hcn, Nat.zero_add]
    exact ⟨rfl, rfl⟩
  | succ m ih =>
    intro c fuel hc
    have hf : m + 1 + fuel = (m + fuel) + 1 := by omega
    have hstep := countdown_step_inc realloc q d heap n c c hq hqf hd hdf (by omega)
    rw [Nat.mod_eq_of_lt (by omega)] at hstep
    obtain ⟨h1, h2⟩ := run_step realloc (m + fuel) _ _ hstep
    obtain ⟨h3, h4⟩ := ih (c + 1) fuel (by omega)
    rw [hf, h1, h2, h3, h4, countdown_offset]
    exact ⟨rfl, rfl⟩

/-- The loop `[-]` entered with the cell holding `c + 1`: `2 * (c + 1)` steps, `c + 1` times
the body `-` and the test `]`, lead to the end of the script with the cell holding 0. -/
theorem countdown_drain (realloc : Nat → Nat → Nat) (q d : Nat) (heap : List (Nat × Nat))
    (n : Nat) (hq : q ≠ 0) (hqf : q + script_cap (n + 3) < PTR_MOD) (hd : d ≠ 0)
    (hdf : d + 256 < PTR_MOD) :
    ∀ (c fuel : Nat), c + 1 ≤ 255 →
      run_loop realloc (2 * (c + 1) + fuel) (countdown_state q d heap n (c + 1) (n + 1)) =
        run_loop realloc fuel (countdown_state q d heap n 0 (n + 3)) ∧
      run_trace realloc (2 * (c + 1) + fuel) (countdown_state q d heap n (c + 1) (n + 1)) =
        (List.replicate (c + 1) [n + 1, n + 2]).flatten ++
          run_trace realloc fuel (countdown_state q d heap n 0 (n + 3)) := by
  intro c
  induction c with
  | zero =>
    intro fuel _
    have hf : 2 * (0 + 1) + fuel = (fuel + 1) + 1 := by omega
    have hdec := countdown_step_dec realloc q d heap n (0 + 1) hq hqf hd hdf
    have hmod : (0 + 1 + 255) % 256 = 0 := by norm_num
    rw [hmod] at hdec
    have hexit := countdown_step_leave realloc q d heap n hq hqf hd hdf
    obtain ⟨h1, h2⟩ := run_step realloc (fuel + 1) _ _ hdec
    obtain ⟨h3, h4⟩ := run_step realloc fuel _ _ hexit
    rw [hf, h1, h2, h3, h4, countdown_offset, countdown_offset]
    exact ⟨rfl, rfl⟩
  | succ c ih =>
    intro fuel hc
    have hf : 2 * (c + 1 + 1) + fuel = ((2 * (c + 1) + fuel) + 1) + 1 := by omega
    have hdec := countdown_step_dec realloc q d heap n (c + 1 + 1) hq hqf hd hdf
    have hmod : (c + 1 + 1 + 255) % 256 = c + 1 := by omega
    rw [hmod] at hdec
    have hback := countdown_step_back realloc q d heap n (c + 1) hq hqf hd hdf (by omega)
    obtain ⟨h1, h2⟩ := run_step realloc ((2 * (c + 1) + fuel) + 1) _ _ hdec
    obtain ⟨h3, h4⟩ := run_step realloc (2 * (c + 1) + fuel) _ _ hback
    obtain ⟨h5, h6⟩ := ih fuel (by omega)
    rw [hf, h1, h2, h3, h4, h5, h6, countdown_offset, countdown_offset]
    refine ⟨rfl, ?_⟩
    rw [List.replicate_succ, List.flatten_cons]
    rfl

theorem count_join_pairs (a : Nat) :
    ∀ k : Nat, ((List.replicate k [a + 1, a + 2]).flatten).count (a + 1) = k := by
  intro k
  induction k with
  | zero => rfl
  | succ k ih =>
    rw [List.replicate_succ, List.flatten_cons, List.count_append, ih]
    simp [List.count_cons]
    omega

/-- The whole run of the countdown script from its start state: `3 * n + 1` steps, then the
step that ends it. -/
theorem countdown_run_loop (realloc : Nat → Nat → Nat) (hra : AllocOK realloc) (q : Nat)
    (heap : List (Nat × Nat)) (n : Nat) (hq : q ≠ 0)
    (hqf : q + script_cap (n + 3) < PTR_MOD) (h1 : 1 ≤ n) (h255 : n ≤ 255) :
    ∃ d, d ≠ 0 ∧ d + 256 < PTR_MOD ∧
      run_loop realloc (3 * n + 1) (countdown_start q heap n) = none ∧
      ∀ fuel, 3 * n + 2 ≤ fuel →
        run_loop realloc fuel (countdown_start q heap n) =
          some (countdown_state q d heap n 0 (n + 3)) ∧
        run_trace realloc fuel (countdown_start q heap n) =
          List.range' 0 (n + 1) ++ (List.replicate n [n + 1, n + 2]).flatten := by
  obtain ⟨m, rfl⟩ : ∃ m, n = m + 1 := ⟨n - 1, by omega⟩
  obtain ⟨d, hd, hdf, hfirst⟩ := countdown_step_first realloc hra q heap (m + 1) hq hqf h1
  have hopen := countdown_step_open realloc q d heap (m + 1) (m + 1) hq hqf hd hdf (by omega)
  have hend := countdown_step_end realloc q d heap (m + 1) 0 hq hqf
  have hoff0 : (countdown_start q heap (m + 1)).script_p -
      (countdown_start q heap (m + 1)).script = 0 := Nat.sub_self q
  have key : ∀ e, run_loop realloc ((m + ((2 * (m + 1) + e) + 1)) + 1)
        (countdown_start q heap (m + 1)) =
        run_loop realloc e (countdown_state q d heap (m + 1) 0 (m + 1 + 3)) ∧
      run_trace realloc ((m + ((2 * (m + 1) + e) + 1)) + 1)
        (countdown_start q heap (m + 1)) =
        0 :: (List.range' 1 m ++ (m + 1) :: ((List.replicate (m + 1) [m + 1 + 1, m + 1 + 2]).flatten
          ++ run_trace realloc e (countdown_state q d heap (m + 1) 0 (m + 1 + 3)))) := by
    intro e
    obtain ⟨a1, a2⟩ := run_step realloc (m + ((2 * (m + 1) + e) + 1)) _ _ hfirst
    obtain ⟨b1, b2⟩ := countdown_fill realloc q d heap (m + 1) hq hqf hd hdf h255 m 1
      ((2 * (m + 1) + e) + 1) (by omega)
    obtain ⟨c1, c2⟩ := run_step realloc (2 * (m + 1) + e) _ _ hopen
    obtain ⟨d1, d2⟩ := countdown_drain realloc q d heap (m + 1) hq hqf hd hdf m e (by omega)
    rw [a1, a2, b1, b2, c1, c2, d1, d2, hoff0, countdown_offset]
    exact ⟨rfl, rfl⟩
  refine ⟨d, hd, hdf, ?_, ?_⟩
  · have hf : 3 * (m + 1) + 1 = (m + ((2 * (m + 1) + 0) + 1)) + 1 := by omega
    rw [hf, (key 0).1]
    rfl
  · intro fuel hfuel
    obtain ⟨e, rfl⟩ : ∃ e, fuel = (m + ((2 * (m + 1) + (e + 1)) + 1)) + 1 :=
      ⟨fuel - (3 * (m + 1) + 2), by omega⟩
    obtain ⟨k1, k2⟩ := key (e + 1)
    obtain ⟨e1, e2⟩ := run_stop realloc e _ _ hend
    rw [k1, k2, e1, e2, List.append_nil]
    refine ⟨rfl, ?_⟩
    have hr : List.range' 0 (m + 1 + 1) = 0 :: (List.range' 1 m ++ [m + 1]) := by
      rw [List.range'_succ, List.range'_concat]
      simp [Nat.add_comm]
    rw [hr]
    simp
theorem countdown_load (realloc : Nat → Nat → Nat) (hra : AllocOK realloc)
    (heap : List (Nat × Nat)) (n : Nat) (hn : n ≤ 255) :
    ∃ q, q ≠ 0 ∧ q + script_cap (n + 3) < PTR_MOD ∧
      (bfi_script_from_buffer realloc (bfi_new heap []) (src_countdown n)).1 = 1 ∧
      (bfi_restart (bfi_script_from_buffer realloc (bfi_new heap []) (src_countdown n)).2).2 =
        countdown_start q heap n := by
  obtain ⟨q, ⟨_, hq1, hq2⟩, hload⟩ := load_new realloc hra heap [] (src_countdown n)
    (by rw [src_countdown_length]; norm_num; omega)
  rw [src_countdown_filter, src_countdown_length] at hload hq1 hq2
  refine ⟨q, (hq1 (by omega)).1, hq2, ?_, ?_⟩
  · rw [hload]
  · rw [hload]
    unfold bfi_restart with_script countdown_start bfi_new
    simp only [src_countdown_length]
    rfl

/-- C18: for every `n` with `1 ≤ n ≤ 255`, every allocator that serves the requests and
every initial memory, the script of `n` times `+` followed by `[-]` loads (return value 1)
and, run with no input, is still running after `3 * n + 1` steps and has ended with any
larger fuel, in a state `f` with no fault (`errored = 0`), nothing written to the output,
the data tape allocated, the data cursor on its first cell, and that cell holding 0.  The
instructions executed are the `n` `+` (offsets `0 .. n - 1`), the `[` (offset `n`), then `n`
times the loop body `-` (offset `n + 1`) followed by the test `]` (offset `n + 2`): the body
is executed exactly `n` times. -/
theorem countdown_halts (realloc : Nat → Nat → Nat) (hra : AllocOK realloc)
    (heap : List (Nat × Nat)) (n : Nat) (h1 : 1 ≤ n) (h255 : n ≤ 255) :
    (bfi_script_from_buffer realloc (bfi_new heap []) (src_countdown n)).1 = 1 ∧
    bfi_run realloc (3 * n + 1)
      (bfi_script_from_buffer realloc (bfi_new heap []) (src_countdown n)).2 = none ∧
    ∃ f, f.errored = 0 ∧ f.out_stream = some [] ∧ f.data ≠ 0 ∧ f.data_p = f.data ∧
      f.data_mem.getD 0 0 = 0 ∧ (bfi_data_get f).2.1 = 0 ∧
      ∀ fuel, 3 * n + 2 ≤ fuel →
        bfi_run realloc fuel
          (bfi_script_from_buffer realloc (bfi_new heap []) (src_countdown n)).2 = some f ∧
        run_trace realloc fuel
          (bfi_restart
            (bfi_script_from_buffer realloc (bfi_new heap []) (src_countdown n)).2).2 =
          List.range' 0 (n + 1) ++ (List.replicate n [n + 1, n + 2]).flatten ∧
        (run_trace realloc fuel
          (bfi_restart
            (bfi_script_from_buffer realloc (bfi_new heap []) (src_countdown n)).2).2).count
          (n + 1) = n := by
  obtain ⟨q, hq, hqf, hret, hstart⟩ := countdown_load realloc hra heap n h255
  obtain ⟨d, hd, hdf, hnone, hrun⟩ := countdown_run_loop realloc hra q heap n hq hqf h1 h255
  refine ⟨hret, ?_, countdown_state q d heap n 0 (n + 3), rfl, rfl, hd, rfl, rfl,
    countdown_get q d heap n 0 (n + 3) hd hdf, ?_⟩
  · unfold bfi_run
    rw [hstart]
    exact hnone
  · intro fuel hfuel
    obtain ⟨r1, r2⟩ := hrun fuel hfuel
    unfold bfi_run
    rw [hstart]
    refine ⟨r1, r2, ?_⟩
    rw [r2, List.count_append, count_join_pairs n n,
      List.count_eq_zero_of_not_mem (by simp [List.mem_range'_1])]
    omega

/-- C18 for `n = 1`, the script `+[-]`: one execution of the loop body. -/
theorem countdown_halts_witness :
    src_countdown 1 = [43, 91, 45, 93] ∧
    (bfi_script_from_buffer toy_realloc (bfi_new [] []) (src_countdown 1)).1 = 1 ∧
    bfi_run toy_realloc (3 * 1 + 1)
      (bfi_script_from_buffer toy_realloc (bfi_new [] []) (src_countdown 1)).2 = none ∧
    ∃ f, f.errored = 0 ∧ f.out_stream = some [] ∧ f.data ≠ 0 ∧ f.data_p = f.data ∧
      f.data_mem.getD 0 0 = 0 ∧ (bfi_data_get f).2.1 = 0 ∧
      ∀ fuel, 3 * 1 + 2 ≤ fuel →
        bfi_run toy_realloc fuel
          (bfi_script_from_buffer toy_realloc (bfi_new [] []) (src_countdown 1)).2 = some f ∧
        run_trace toy_realloc fuel
          (bfi_restart
            (bfi_script_from_buffer toy_realloc (bfi_new [] []) (src_countdown 1)).2).2 =
          List.range' 0 (1 + 1) ++ (List.replicate 1 [1 + 1, 1 + 2]).flatten ∧
        (run_trace toy_realloc fuel
          (bfi_restart
            (bfi_script_from_buffer toy_realloc (bfi_new [] []) (src_countdown 1)).2).2).count
          (1 + 1) = 1 :=
  ⟨rfl, countdown_halts toy_realloc toy_realloc_ok [] 1 (by decide) (by decide)⟩
theorem advance_kept (t : bfi_state_t) :
    (advance t).2.data = t.data ∧ (advance t).2.data_alloc = t.data_alloc ∧
    (advance t).2.data_mem = t.data_mem ∧ (advance t).2.out_stream = t.out_stream :=
  ⟨rfl, rfl, rfl, rfl⟩

theorem run_fault_kept (t : bfi_state_t) :
    (run_fault t).2.data = t.data ∧ (run_fault t).2.data_alloc = t.data_alloc ∧
    (run_fault t).2.data_mem = t.data_mem ∧ (run_fault t).2.out_stream = t.out_stream :=
  ⟨rfl, rfl, rfl, rfl⟩

theorem TapeKept.trans {s t f : bfi_state_t} (h1 : TapeKept s t) (h2 : TapeKept t f) :
    TapeKept s f := by
  rcases h2 with h2 | ⟨a, b, c⟩
  · exact Or.inl h2
  · rcases h1 with h1 | ⟨a', b', c'⟩
    · left
      rw [a]
      exact h1
    · exact Or.inr ⟨a.trans a', b.trans b', c.trans c'⟩

end Bfi
